import Mathlib

/-!
# Concordance factors (`tree/discordance.cpp`)

A shallow embedding of the site and gene concordance computations of
`tree/discordance.cpp`, followed by theorems about them.

Conventions of the embedding.

* `size_t` counters are natural numbers reduced modulo `2 ^ 64` after every addition.
* `double` values are exact rationals wrapped in `Option`: `none` is the undefined result
  of a division whose divisor is zero, `round` is C's round-half-away-from-zero.
* `std::vector` is `List`; `v[i]` is `List.getD` and `v[i] = x` is `List.set`.
* Classes that discordance.cpp only uses (patterns, splits, the random stream, number
  formatting) enter as structures of fields or as parameters.
-/

namespace Discordance

/-! ## Alignment-based quartet classifier -/

/-- Number of values of a `size_t` counter. -/
def SIZE_T : Nat := 2 ^ 64

/-- A site pattern as `Alignment::computeQuartetSupports` sees it: `isInformative()`,
the state `at(taxon)` and the public member `frequency`. -/
structure Pattern where
  isInformative : Bool
  state : Nat → Nat
  frequency : Nat

/-- An alignment: its site patterns (`begin()` .. `end()`) and `num_states`. -/
structure Alignment where
  patterns : List Pattern
  num_states : Nat

/-- The statement `support[i] += f` on a `vector<size_t>`. -/
def addSupport (support : List Nat) (i f : Nat) : List Nat :=
  support.set i ((support.getD i 0 + f) % SIZE_T)

/-- Body of the pattern loop of `Alignment::computeQuartetSupports` (lines 40-53). -/
def quartetStep (num_states : Nat) (quartet : List Nat) (support : List Nat)
    (pat : Pattern) : List Nat :=
  if !pat.isInformative then support
  else if quartet.any (fun t => decide (pat.state t ≥ num_states)) then support
  else
    let q0 := pat.state (quartet.getD 0 0)
    let q1 := pat.state (quartet.getD 1 0)
    let q2 := pat.state (quartet.getD 2 0)
    let q3 := pat.state (quartet.getD 3 0)
    let s1 := if q0 = q1 ∧ q2 = q3 ∧ q0 ≠ q2 then addSupport support 0 pat.frequency
              else support
    let s2 := if q0 = q2 ∧ q1 = q3 ∧ q0 ≠ q1 then addSupport s1 1 pat.frequency else s1
    if q0 = q3 ∧ q1 = q2 ∧ q0 ≠ q1 then addSupport s2 2 pat.frequency else s2

/-- The method `Alignment::computeQuartetSupports(quartet, support)`: the updated
`support`. -/
def Alignment.computeQuartetSupports (aln : Alignment) (quartet : List Nat)
    (support : List Nat) : List Nat :=
  aln.patterns.foldl (quartetStep aln.num_states quartet) support

/-- A pattern counts for a quartet: it is informative and the four states are valid. -/
def usable (num_states : Nat) (t0 t1 t2 t3 : Nat) (pat : Pattern) : Bool :=
  pat.isInformative && decide (pat.state t0 < num_states) && decide (pat.state t1 < num_states)
    && decide (pat.state t2 < num_states) && decide (pat.state t3 < num_states)

/-- The pattern groups `t0` with `t1` and `t2` with `t3`. -/
def matches0 (t0 t1 t2 t3 : Nat) (pat : Pattern) : Bool :=
  decide (pat.state t0 = pat.state t1) && decide (pat.state t2 = pat.state t3)
    && decide (pat.state t0 ≠ pat.state t2)

/-- The pattern groups `t0` with `t2` and `t1` with `t3`. -/
def matches1 (t0 t1 t2 t3 : Nat) (pat : Pattern) : Bool :=
  decide (pat.state t0 = pat.state t2) && decide (pat.state t1 = pat.state t3)
    && decide (pat.state t0 ≠ pat.state t1)

/-- The pattern groups `t0` with `t3` and `t1` with `t2`. -/
def matches2 (t0 t1 t2 t3 : Nat) (pat : Pattern) : Bool :=
  decide (pat.state t0 = pat.state t3) && decide (pat.state t1 = pat.state t2)
    && decide (pat.state t0 ≠ pat.state t1)

/-- Total frequency of the patterns of `aln` selected by `p`. -/
def freqSum (aln : Alignment) (p : Pattern → Bool) : Nat :=
  ((aln.patterns.filter p).map Pattern.frequency).sum

/-! ## Partitioned alignments -/

/-- A partitioned alignment: the sub-alignments and `taxa_index[taxon][part]`, the index of
a taxon inside a partition, negative when the taxon is absent from it. -/
structure SuperAlignment where
  partitions : List Alignment
  taxa_index : Nat → Nat → Int

/-- Lines 59-65: the quartet remapped into partition `part`, cut at the first absent taxon. -/
def partQuartet (taxa_index : Nat → Nat → Int) (part : Nat) : List Nat → List Nat
  | [] => []
  | t :: ts =>
    if taxa_index t part ≥ 0 then (taxa_index t part).toNat :: partQuartet taxa_index part ts
    else []

/-- Lines 72-75: add the partition's three counters to its own block and to the global
counters. -/
def addPartSupport (part : Nat) (part_support support : List Nat) : List Nat :=
  [0, 1, 2].foldl
    (fun s j => addSupport (addSupport s (part * 3 + 3 + j) (part_support.getD j 0)) j
      (part_support.getD j 0))
    support

/-- Body of the partition loop of `SuperAlignment::computeQuartetSupports` (lines 59-77). -/
def superStep (taxa_index : Nat → Nat → Int) (site_concordance_partition : Bool)
    (quartet : List Nat) (part : Nat) (aln : Alignment) (support : List Nat) : List Nat :=
  let part_quartet := partQuartet taxa_index part quartet
  if part_quartet.length ≠ quartet.length then support
  else if site_concordance_partition then
    addPartSupport part (aln.computeQuartetSupports part_quartet [0, 0, 0]) support
  else aln.computeQuartetSupports part_quartet support

/-- The partition loop from partition number `part` on. -/
def superLoop (taxa_index : Nat → Nat → Int) (site_concordance_partition : Bool)
    (quartet : List Nat) : Nat → List Alignment → List Nat → List Nat
  | _, [], support => support
  | part, aln :: rest, support =>
    superLoop taxa_index site_concordance_partition quartet (part + 1) rest
      (superStep taxa_index site_concordance_partition quartet part aln support)

/-- The method `SuperAlignment::computeQuartetSupports(quartet, support)`; the flag is
`Params::getInstance().site_concordance_partition`. -/
def SuperAlignment.computeQuartetSupports (sa : SuperAlignment)
    (site_concordance_partition : Bool) (quartet : List Nat) (support : List Nat) : List Nat :=
  superLoop sa.taxa_index site_concordance_partition quartet 0 sa.partitions support

/-- All four quartet taxa are present in partition `part`. -/
def covers (sa : SuperAlignment) (part t0 t1 t2 t3 : Nat) : Bool :=
  decide (sa.taxa_index t0 part ≥ 0) && decide (sa.taxa_index t1 part ≥ 0)
    && decide (sa.taxa_index t2 part ≥ 0) && decide (sa.taxa_index t3 part ≥ 0)

/-- What partition `part` yields for counter `j` on the remapped quartet, counted from
zero by its own `computeQuartetSupports`; nothing when the partition does not cover the
quartet. -/
def partContribution (sa : SuperAlignment) (t0 t1 t2 t3 j : Nat) (part : Nat)
    (aln : Alignment) : Nat :=
  if covers sa part t0 t1 t2 t3 = true then
    (aln.computeQuartetSupports
      [(sa.taxa_index t0 part).toNat, (sa.taxa_index t1 part).toNat,
       (sa.taxa_index t2 part).toNat, (sa.taxa_index t3 part).toNat] [0, 0, 0]).getD j 0
  else 0

/-- Sum of the contributions of the partitions `parts`, numbered from `part` on. -/
def contributionSum (sa : SuperAlignment) (t0 t1 t2 t3 j : Nat) : Nat → List Alignment → Nat
  | _, [] => 0
  | part, aln :: rest =>
    partContribution sa t0 t1 t2 t3 j part aln + contributionSum sa t0 t1 t2 t3 j (part + 1) rest

/-- The alignment behind `aln->computeQuartetSupports`: plain or partitioned. -/
inductive Aln where
  | single (a : Alignment)
  | super (sa : SuperAlignment)

/-- The virtual call `aln->computeQuartetSupports(quartet, support)`. -/
def Aln.computeQuartetSupports (aln : Aln) (site_concordance_partition : Bool)
    (quartet : List Nat) (support : List Nat) : List Nat :=
  match aln with
  | .single a => a.computeQuartetSupports quartet support
  | .super sa => sa.computeQuartetSupports site_concordance_partition quartet support

/-! ## Doubles, attributes and node labels -/

/-- The C function `round`: the nearest integer, halves away from zero. -/
def cround (x : ℚ) : ℤ :=
  if 0 ≤ x then ⌊x + 1 / 2⌋ else -⌊-x + 1 / 2⌋

/-- A `double`: its value as a rational (every finite double is one), or `none` for the
undefined result of a division by zero (and of any operation on such a result). The
operations `dadd`, `dmul`, `ddiv` and `percent` below compute in exact arithmetic, the
reading in which the bounds on the stored percentages are stated; `fadd`, `fmul`, `fdiv`
and `fpercent` further down round every result to the nearest double, as the machine
does. -/
abbrev Double := Option ℚ

/-- Addition `x + y` on doubles. -/
def dadd (x y : Double) : Double :=
  x.bind fun a => y.map fun b => a + b

/-- Multiplication `x * y` on doubles. -/
def dmul (x y : Double) : Double :=
  x.bind fun a => y.map fun b => a * b

/-- Division `x / y` on doubles, not rounded: undefined when the divisor is zero. -/
def ddiv (x y : Double) : Double :=
  x.bind fun a => y.bind fun b => if b = 0 then none else some (a / b)

/-- The call `round(x)` on doubles. -/
def dround (x : Double) : Double :=
  x.map fun a => (cround a : ℚ)

/-- The expression `round(x / n * 10000) / 100` of lines 132-134 and 237-239, in exact
arithmetic. -/
def percent (x n : Double) : Double :=
  ddiv (dround (dmul (ddiv x n) (some 10000))) (some 100)

/-- A value handed to `putAttr`: a `double` or an `int`. -/
inductive AttrVal where
  | dbl (v : Double)
  | int (v : Int)
  deriving DecidableEq

/-- Number formatting used by discordance.cpp and defined elsewhere, taken as parameters:
`convertDoubleToString`, `convertIntToString`, and a stream with `precision(3)`. -/
structure Fmt where
  convertDoubleToString : Double → String
  convertIntToString : Int → String
  precision3 : Double → String

/-- The configuration read through `params` and `Params::getInstance()`; `verbose` is
`verbose_mode >= VB_MED`. -/
structure Params where
  site_concordance : Nat
  site_concordance_partition : Bool
  newick_extended_format : Bool
  verbose : Bool

/-- What the computations mutate: `attrs (n, m)` are the attributes of the Neighbor
`n->findNeighbor(m)`, `name n` is `n->name`, `meanings` is the map passed by reference. -/
structure Store where
  attrs : Nat × Nat → List (String × AttrVal)
  name : Nat → String
  meanings : List (String × String)

/-- The call `nei->putAttr(key, value)`: set or overwrite one attribute. -/
def putAttr (attrs : List (String × AttrVal)) (key : String) (v : AttrVal) :
    List (String × AttrVal) :=
  (key, v) :: attrs.filter (fun kv => decide (kv.1 ≠ key))

/-- Look an attribute up. -/
def getAttr (attrs : List (String × AttrVal)) (key : String) : Option AttrVal :=
  attrs.lookup key

/-- The macro `PUT_ATTR` on the Neighbor `nei` of the store. -/
def Store.putAttr (st : Store) (nei : Nat × Nat) (key : String) (v : AttrVal) : Store :=
  { st with attrs := Function.update st.attrs nei (Discordance.putAttr (st.attrs nei) key v) }

/-- The call `meanings.insert` of a key and its text: an existing key keeps its text. -/
def Store.insertMeaning (st : Store) (key text : String) : Store :=
  if (st.meanings.lookup key).isSome then st
  else { st with meanings := st.meanings ++ [(key, text)] }

/-- The label update of lines 21-30 and 253-262 on the characters of `node->name`:
`tag` is `sCF` or `CF`, `val` the formatted value. -/
def appendSupport (newick_extended_format : Bool) (tag : String) (name val : List Char) :
    List Char :=
  if newick_extended_format then
    if name.isEmpty || name.getLast? ≠ some ']' then
      name ++ ("[&".data ++ tag.data ++ "=".data ++ val ++ "]".data)
    else
      name.take (name.length - 1) ++ (",!".data ++ tag.data ++ "=".data ++ val ++ "]".data)
  else
    (if !name.isEmpty then name ++ "/".data else name) ++ val

/-- The label update applied to the name of `node` in the store. -/
def Store.appendSupport (st : Store) (newick_extended_format : Bool) (tag : String)
    (node : Nat) (val : String) : Store :=
  let label := Discordance.appendSupport newick_extended_format tag (st.name node).data val.data
  { st with name := Function.update st.name node (String.mk label) }

/-- Modelled from the spec: `outError` is fatal and aborts the whole computation at once.
An outcome is the store as the abort (or the return) leaves it, and the fatal message if
there was one. -/
structure Outcome where
  store : Store
  error : Option String

/-! ## Site concordance of one branch -/

/-- The reference tree as the site computation reads it. `neighbors n` lists the nodes
`(*it)->node` of `n->neighbors` in order, `getTaxaID node dad` is the list of leaf ids that
`getTaxaID(_, node, dad)` appends, `innerBranches` is the result of `getInnerBranches`, and
`aln` the alignment; `isSuperTree()` holds when the alignment is partitioned. -/
structure PhyloTree where
  neighbors : Nat → List Nat
  getTaxaID : Nat → Nat → List Nat
  innerBranches : List (Nat × Nat)
  aln : Aln

/-- The test `isSuperTree()`. -/
def PhyloTree.isSuperTree (tree : PhyloTree) : Bool :=
  match tree.aln with
  | .single _ => false
  | .super _ => true

/-- The call `((PhyloSuperTree*)this)->size()`: the number of partitions. -/
def PhyloTree.size (tree : PhyloTree) : Nat :=
  match tree.aln with
  | .single _ => 0
  | .super sa => sa.partitions.length

/-- Modelled from the spec: `FOR_NEIGHBOR(node, dad, it)` visits the neighbours of `node`
other than `dad`, in order. -/
def PhyloTree.otherNeighbors (tree : PhyloTree) (node dad : Nat) : List Nat :=
  (tree.neighbors node).filter (fun n => decide (n ≠ dad))

/-- The message of `outError(__func__, " only work with bifurcating tree")`. -/
def bifurcatingError : String := "computeSiteConcordance only work with bifurcating tree"

/-- The access `taxa[id]` with `id` past the end of the vector (lines 88 and 96 hand
`taxa[id]` to `getTaxaID` before `id` is tested): undefined behaviour, kept apart from the
fatal error by this marker. -/
def outOfRangeError : String := "taxa[id] is past the end of the vector"

/-- One of the two extraction loops (lines 87-92 with `limit = 2`, lines 95-100 with
`limit = 4`): `groups` are the leaf-id lists of the visited neighbours, `id` the running
index into `taxa`. Each round first appends to `taxa[id]`, then increments and tests
`id`. -/
def extractSide (limit : Nat) :
    List (List Nat) → List (List Nat) → Nat → Except String (List (List Nat) × Nat)
  | [], taxa, id => .ok (taxa, id)
  | ids :: groups, taxa, id =>
    if taxa.length ≤ id then .error outOfRangeError
    else
      let taxa := taxa.set id (taxa.getD id [] ++ ids)
      let id := id + 1
      if id > limit then .error bifurcatingError
      else extractSide limit groups taxa id

/-- Lines 82-100: the four taxon groups of a branch, or the fatal error. -/
def PhyloTree.extractTaxa (tree : PhyloTree) (branch : Nat × Nat) :
    Except String (List (List Nat)) :=
  let left := (tree.otherNeighbors branch.1 branch.2).map (fun n => tree.getTaxaID n branch.1)
  match extractSide 2 left (List.replicate 4 []) 0 with
  | .error e => .error e
  | .ok (taxa, id) =>
    let right :=
      (tree.otherNeighbors branch.2 branch.1).map (fun n => tree.getTaxaID n branch.2)
    match extractSide 4 right taxa id with
    | .error e => .error e
    | .ok (taxa, _) => .ok taxa

/-- Lines 116-120: one taxon from every group, drawn with `random_int(size, rstream)`. -/
def drawQuartet {R : Type} (random_int : Nat → R → Nat × R) :
    List (List Nat) → R → List Nat × R
  | [], r => ([], r)
  | g :: gs, r =>
    let k := random_int g.length r
    let rest := drawQuartet random_int gs k.2
    (g.getD k.1 0 :: rest.1, rest.2)

/-- The variables the sampling loop updates (lines 102-108). -/
structure SiteAcc (R : Type) where
  rstream : R
  support : List Nat
  sum_sites : Nat
  sCF : Double
  sDF1 : Double
  sDF2 : Double

/-- Lines 123-129: what one classified quartet adds to the running totals. -/
def accumulate {R : Type} (acc : SiteAcc R) (rstream : R) (support : List Nat) : SiteAcc R :=
  let sum := ((support.getD 0 0 + support.getD 1 0) % SIZE_T + support.getD 2 0) % SIZE_T
  let sum_sites := (acc.sum_sites + sum) % SIZE_T
  if sum > 0 then
    { rstream := rstream, support := support, sum_sites := sum_sites,
      sCF := dadd acc.sCF (ddiv (some (support.getD 0 0 : ℚ)) (some (sum : ℚ))),
      sDF1 := dadd acc.sDF1 (ddiv (some (support.getD 1 0 : ℚ)) (some (sum : ℚ))),
      sDF2 := dadd acc.sDF2 (ddiv (some (support.getD 2 0 : ℚ)) (some (sum : ℚ))) }
  else
    { rstream := rstream, support := support, sum_sites := sum_sites,
      sCF := acc.sCF, sDF1 := acc.sDF1, sDF2 := acc.sDF2 }

/-- The counters as line 122 hands them to the classifier: line 121 zeroes entries 0-2. -/
def resetSupport (support : List Nat) : List Nat :=
  ((support.set 2 0).set 1 0).set 0 0

/-- Body of the sampling loop (lines 114-129); `classify` is the call
`aln->computeQuartetSupports`. -/
def siteIter {R : Type} (classify : List Nat → List Nat → List Nat)
    (random_int : Nat → R → Nat × R) (taxa : List (List Nat)) (acc : SiteAcc R) : SiteAcc R :=
  let q := drawQuartet random_int taxa acc.rstream
  accumulate acc q.2 (classify q.1 (resetSupport acc.support))

/-- The sampling loop run `n` times. -/
def siteLoop {R : Type} (classify : List Nat → List Nat → List Nat)
    (random_int : Nat → R → Nat × R) (taxa : List (List Nat)) : Nat → SiteAcc R → SiteAcc R
  | 0, acc => acc
  | n + 1, acc => siteLoop classify random_int taxa n (siteIter classify random_int taxa acc)

/-- The tallies `(support[0], support[1], support[2])` the classifier returns in each of
the next `n` iterations. -/
def siteDraws {R : Type} (classify : List Nat → List Nat → List Nat)
    (random_int : Nat → R → Nat × R) (taxa : List (List Nat)) :
    Nat → SiteAcc R → List (Nat × Nat × Nat)
  | 0, _ => []
  | n + 1, acc =>
    let next := siteIter classify random_int taxa acc
    (next.support.getD 0 0, next.support.getD 1 0, next.support.getD 2 0) ::
      siteDraws classify random_int taxa n next

/-- Lines 108-112: the counters before the first draw. -/
def initialSupport (params : Params) (tree : PhyloTree) : List Nat :=
  if params.site_concordance_partition && tree.isSuperTree then
    List.replicate (tree.size * 3 + 3) 0
  else List.replicate 3 0

/-- Lines 102-112: the loop variables before the first draw. -/
def initialAcc {R : Type} (params : Params) (tree : PhyloTree) (rstream : R) : SiteAcc R :=
  { rstream := rstream, support := initialSupport params tree, sum_sites := 0,
    sCF := some 0, sDF1 := some 0, sDF2 := some 0 }

/-- Lines 143-148: the key of the per-partition attribute stored for counter `i`. -/
def partitionKey (fmt : Fmt) (i : Nat) : String :=
  (if i % 3 = 0 then "sC" else if i % 3 = 1 then "sD1" else "sD2") ++
    fmt.convertIntToString ((i / 3 : Nat) : Int)

/-- Lines 141-150: the per-partition attributes, for `i = 3 .. support.size() - 1`. -/
def putPartitionAttrs (fmt : Fmt) (nquartets : Nat) (support : List Nat)
    (nei : Nat × Nat) (st : Store) : Store :=
  (List.range (support.length - 3)).foldl
    (fun st k =>
      st.putAttr nei (partitionKey fmt (k + 3))
        (.dbl (ddiv (some (support.getD (k + 3) 0 : ℚ)) (some (nquartets : ℚ)))))
    st

/-- Lines 131-150: the final values and their storage on the Neighbor
`branch.second->findNeighbor(branch.first)`. -/
def storeSiteValues {R : Type} (fmt : Fmt) (nquartets : Nat) (branch : Nat × Nat)
    (acc : SiteAcc R) (st : Store) : Store :=
  let sN := ddiv (some (acc.sum_sites : ℚ)) (some (nquartets : ℚ))
  let sCF := percent acc.sCF (some (nquartets : ℚ))
  let sDF1 := percent acc.sDF1 (some (nquartets : ℚ))
  let sDF2 := percent acc.sDF2 (some (nquartets : ℚ))
  let nei := (branch.2, branch.1)
  let st := st.putAttr nei "sCF" (.dbl sCF)
  let st := st.putAttr nei "sN" (.dbl sN)
  let st := st.putAttr nei "sDF1" (.dbl sDF1)
  let st := st.putAttr nei "sDF2" (.dbl sDF2)
  putPartitionAttrs fmt nquartets acc.support nei st

/-- The method `PhyloTree::computeSiteConcordance(Branch &branch, int nquartets, int *rstream)`:
the store and the random stream it leaves, and the fatal error if it aborts. -/
def PhyloTree.computeSiteConcordanceBranch {R : Type} (tree : PhyloTree) (params : Params)
    (fmt : Fmt) (random_int : Nat → R → Nat × R) (branch : Nat × Nat) (nquartets : Nat)
    (rstream : R) (st : Store) : Outcome × R :=
  match tree.extractTaxa branch with
  | .error e => ({ store := st, error := some e }, rstream)
  | .ok taxa =>
    let acc := siteLoop (tree.aln.computeQuartetSupports params.site_concordance_partition)
      random_int taxa nquartets (initialAcc params tree rstream)
    ({ store := storeSiteValues fmt nquartets branch acc st, error := none }, acc.rstream)

/-- The attribute read back by `GET_ATTR(nei, sCF)`. -/
def getDouble (attrs : List (String × AttrVal)) (key : String) : Double :=
  match getAttr attrs key with
  | some (.dbl v) => v
  | _ => none

/-- The branch loop of `PhyloTree::computeSiteConcordance(map<string,string> &meanings)`
(lines 13-31). -/
def siteBranchLoop {R : Type} (tree : PhyloTree) (params : Params) (fmt : Fmt)
    (random_int : Nat → R → Nat × R) : List (Nat × Nat) → R → Store → Outcome × R
  | [], r, st => ({ store := st, error := none }, r)
  | branch :: rest, r, st =>
    match tree.computeSiteConcordanceBranch params fmt random_int branch
        params.site_concordance r st with
    | ({ store := st1, error := some e }, r1) => ({ store := st1, error := some e }, r1)
    | ({ store := st1, error := none }, r1) =>
      let sCF := getDouble (st1.attrs (branch.2, branch.1)) "sCF"
      let sup_str := fmt.convertDoubleToString sCF
      siteBranchLoop tree params fmt random_int rest r1
        (st1.appendSupport params.newick_extended_format "sCF" branch.2 sup_str)

/-- The method `PhyloTree::computeSiteConcordance(map<string,string> &meanings)`. -/
def PhyloTree.computeSiteConcordance {R : Type} (tree : PhyloTree) (params : Params)
    (fmt : Fmt) (random_int : Nat → R → Nat × R) (rstream : R) (st : Store) : Outcome × R :=
  match siteBranchLoop tree params fmt random_int tree.innerBranches rstream st with
  | ({ store := st1, error := some e }, r1) => ({ store := st1, error := some e }, r1)
  | ({ store := st1, error := none }, r1) =>
    let quartets := fmt.convertIntToString (params.site_concordance : Int)
    let st2 := st1.insertMeaning "sCF"
      ("Site concordance factor (%) averaged over " ++ quartets ++ " quartets")
    let st3 := st2.insertMeaning "sDF1" "Site discordance factor (%) for alternative quartet 1"
    let st4 := st3.insertMeaning "sDF2" "Site discordance factor (%) for alternative quartet 2"
    let st5 := st4.insertMeaning "sN"
      ("Number of informative sites averaged over " ++ quartets ++ " quartets")
    ({ store := st5, error := none }, r1)

/-! ## Gene concordance -/

/-- The operations of the `Split` class that `computeGeneConcordance` calls; the class is
defined elsewhere and enters as a parameter. `empty n` is the constructor `Split(n)`,
`union a b` is `a += b`, `extractSubSplit s mask` is `s.extractSubSplit(mask)`. -/
structure SplitLib (S : Type) where
  empty : Nat → S
  addTaxon : S → Nat → S
  containTaxon : S → Nat → Bool
  overlap : S → S → Bool
  union : S → S → S
  extractSubSplit : S → S → S
  shouldInvert : S → Bool
  invert : S → S

/-- A comparison tree of the `MTreeSet`: `taxname` is what `getTaxaName` returns,
`leafNum` its leaf count, and `convertSplits names` the split system `convertSplits`
produces once the leaves carry the ids `0, 1, ..` in the order of `names`. -/
structure MTree (S : Type) where
  taxname : List String
  leafNum : Nat
  convertSplits : List String → List S

/-- The reference tree as the gene computation reads it: `names` from `getTaxaName`,
`leafNum`, and the `branches` and quadrant splits `subtrees` filled by
`extractQuadSubtrees` (four splits for every branch). -/
structure GeneRef (S : Type) where
  names : List String
  leafNum : Nat
  branches : List (Nat × Nat)
  subtrees : List S

/-- Lines 159-161: the loop `name_map[*stri] = stri - names.begin()` from index `i` on; a
later entry for a name shadows an earlier one. -/
def buildNameMap : Nat → List String → List (String × Nat) → List (String × Nat)
  | _, [], m => m
  | i, n :: rest, m => buildNameMap (i + 1) rest ((n, i) :: m)

/-- The message of `outError("Taxon not found in full tree: ", *it)`. -/
def taxonNotFound (name : String) : String := "Taxon not found in full tree: " ++ name

/-- Lines 181-185: the taxon mask of a comparison tree, or the fatal error at the first
name missing from `name_map`. -/
def buildMask {S : Type} (lib : SplitLib S) (name_map : List (String × Nat)) :
    List String → S → Except String S
  | [], mask => .ok mask
  | n :: rest, mask =>
    match name_map.lookup n with
    | none => .error (taxonNotFound n)
    | some id => buildMask lib name_map rest (lib.addTaxon mask id)

/-- Lines 187-193: the reference names of the taxa in the mask, in reference order. -/
def orderedNames {S : Type} (lib : SplitLib S) (ref : GeneRef S) (taxa_mask : S) :
    List String :=
  ((List.range ref.leafNum).filter (fun taxid => lib.containTaxon taxa_mask taxid)).map
    (fun taxid => ref.names.getD taxid "")

/-- The message of the failed `ASSERT(taxname.size() == tree->leafNum)`; the macro is
defined elsewhere, and a failed assertion is taken to abort like `outError`. -/
def assertError : String := "ASSERT(taxname.size() == tree->leafNum)"

/-- The counters of lines 165-173. -/
structure GeneCounts where
  decisive_counts : List Int
  supports : List (List Int)
  occurence_trees : List String
  deriving DecidableEq

deriving instance DecidableEq for Except

/-- Lines 166-173: all counters zero, one entry per branch. -/
def initialCounts (params : Params) (nbranches : Nat) : GeneCounts :=
  { decisive_counts := List.replicate nbranches 0,
    supports := List.replicate 3 (List.replicate nbranches 0),
    occurence_trees := if params.verbose then List.replicate nbranches "" else [] }

/-- The quadrant split `*subtrees[qid + i]`. -/
def quadrant {S : Type} (lib : SplitLib S) (ref : GeneRef S) (qid i : Nat) : S :=
  ref.subtrees.getD (qid + i) (lib.empty ref.leafNum)

/-- Lines 207-214: every one of the four quadrants overlaps the taxon mask. -/
def isDecisive {S : Type} (lib : SplitLib S) (ref : GeneRef S) (taxa_mask : S) (qid : Nat) :
    Bool :=
  (List.range 4).all (fun i => lib.overlap taxa_mask (quadrant lib ref qid i))

/-- Lines 219-223: the union of quadrant 0 with quadrant `i + 1`, restricted to the mask
and inverted when `shouldInvert` says so. -/
def canonicalSplit {S : Type} (lib : SplitLib S) (ref : GeneRef S) (taxa_mask : S)
    (qid i : Nat) : S :=
  let this_split := lib.union (quadrant lib ref qid 0) (quadrant lib ref qid (i + 1))
  let subsp := lib.extractSubSplit this_split taxa_mask
  if lib.shouldInvert subsp then lib.invert subsp else subsp

/-- Lines 219-229: the body of the loop over the three groupings. -/
def supportStep {S : Type} [DecidableEq S] (lib : SplitLib S) (fmt : Fmt) (params : Params)
    (ref : GeneRef S) (taxa_mask : S) (hash_ss : List S) (treeid id : Nat)
    (c : GeneCounts) (i : Nat) : GeneCounts :=
  if canonicalSplit lib ref taxa_mask (4 * id) i ∈ hash_ss then
    let row := c.supports.getD i []
    let supports := c.supports.set i (row.set id (row.getD id 0 + 1))
    if params.verbose && i == 0 then
      let line := c.occurence_trees.getD id "" ++
        (fmt.convertIntToString ((treeid + 1 : Nat) : Int) ++ " ")
      { decisive_counts := c.decisive_counts, supports := supports,
        occurence_trees := c.occurence_trees.set id line }
    else
      { decisive_counts := c.decisive_counts, supports := supports,
        occurence_trees := c.occurence_trees }
  else c

/-- Lines 206-230: the body of the branch loop for branch `id` (`qid = 4 * id`). -/
def branchStep {S : Type} [DecidableEq S] (lib : SplitLib S) (fmt : Fmt) (params : Params)
    (ref : GeneRef S) (taxa_mask : S) (hash_ss : List S) (treeid : Nat)
    (c : GeneCounts) (id : Nat) : GeneCounts :=
  if !isDecisive lib ref taxa_mask (4 * id) then c
  else
    let counts := c.decisive_counts.set id (c.decisive_counts.getD id 0 + 1)
    let c1 : GeneCounts :=
      { decisive_counts := counts, supports := c.supports,
        occurence_trees := c.occurence_trees }
    (List.range 3).foldl (supportStep lib fmt params ref taxa_mask hash_ss treeid id) c1

/-- Lines 205-231: the loop `for (id = 0, qid = 0; qid < subtrees.size(); id++, qid += 4)`. -/
def scanBranches {S : Type} [DecidableEq S] (lib : SplitLib S) (fmt : Fmt) (params : Params)
    (ref : GeneRef S) (taxa_mask : S) (hash_ss : List S) (treeid : Nat)
    (c : GeneCounts) : GeneCounts :=
  (List.range ((ref.subtrees.length + 3) / 4)).foldl
    (branchStep lib fmt params ref taxa_mask hash_ss treeid) c

/-- Lines 176-231: one comparison tree. -/
def processTree {S : Type} [DecidableEq S] (lib : SplitLib S) (fmt : Fmt) (params : Params)
    (ref : GeneRef S) (name_map : List (String × Nat)) (treeid : Nat) (tree : MTree S)
    (c : GeneCounts) : Except String GeneCounts :=
  match buildMask lib name_map tree.taxname (lib.empty ref.leafNum) with
  | .error e => .error e
  | .ok taxa_mask =>
    let taxname := orderedNames lib ref taxa_mask
    if taxname.length ≠ tree.leafNum then .error assertError
    else
      let hash_ss := tree.convertSplits taxname
      .ok (scanBranches lib fmt params ref taxa_mask hash_ss treeid c)

/-- Lines 175-233: the loop over the comparison trees, from tree number `treeid` on. -/
def treeLoop {S : Type} [DecidableEq S] (lib : SplitLib S) (fmt : Fmt) (params : Params)
    (ref : GeneRef S) (name_map : List (String × Nat)) :
    Nat → List (MTree S) → GeneCounts → Except String GeneCounts
  | _, [], c => .ok c
  | treeid, tree :: rest, c =>
    match processTree lib fmt params ref name_map treeid tree c with
    | .error e => .error e
    | .ok c1 => treeLoop lib fmt params ref name_map (treeid + 1) rest c1

/-- The expression `(double)supports[k][i] / decisive_counts[i]`. -/
def supportRatio (c : GeneCounts) (k i : Nat) : Double :=
  ddiv (some (((c.supports.getD k []).getD i 0 : Int) : ℚ))
    (some ((c.decisive_counts.getD i 0 : Int) : ℚ))

/-- The expression `round((double)supports[k][i] / decisive_counts[i] * 10000) / 100` of
lines 237-239. -/
def genePercent (c : GeneCounts) (k i : Nat) : Double :=
  percent (some (((c.supports.getD k []).getD i 0 : Int) : ℚ))
    (some ((c.decisive_counts.getD i 0 : Int) : ℚ))

/-- Lines 246-250: the text written into the node label. -/
def geneLabel (fmt : Fmt) (params : Params) (c : GeneCounts) (i : Nat) : String :=
  let tmp := fmt.precision3 (dmul (supportRatio c 0 i) (some 100))
  if params.verbose then tmp ++ ("%" ++ fmt.convertIntToString (c.decisive_counts.getD i 0))
  else tmp

/-- Lines 236-262: the body of the final loop for branch `i`. -/
def storeGeneValues {S : Type} (fmt : Fmt) (params : Params) (ref : GeneRef S)
    (c : GeneCounts) (st : Store) (i : Nat) : Store :=
  let branch := ref.branches.getD i (0, 0)
  let nei := (branch.2, branch.1)
  let st := st.putAttr nei "gCF" (.dbl (genePercent c 0 i))
  let st := st.putAttr nei "gDF1" (.dbl (genePercent c 1 i))
  let st := st.putAttr nei "gDF2" (.dbl (genePercent c 2 i))
  let st := st.putAttr nei "gN" (.int (c.decisive_counts.getD i 0))
  st.appendSupport params.newick_extended_format "CF" branch.2 (geneLabel fmt params c i)

/-- The method `PhyloTree::computeGeneConcordance(MTreeSet &trees, map<string,string>
&meanings)`. -/
def computeGeneConcordance {S : Type} [DecidableEq S] (lib : SplitLib S) (fmt : Fmt)
    (params : Params) (ref : GeneRef S) (trees : List (MTree S)) (st : Store) : Outcome :=
  let name_map := buildNameMap 0 ref.names []
  match treeLoop lib fmt params ref name_map 0 trees
      (initialCounts params ref.branches.length) with
  | .error e => { store := st, error := some e }
  | .ok c =>
    let st1 := (List.range ref.branches.length).foldl (storeGeneValues fmt params ref c) st
    let st2 := st1.insertMeaning "gCF" "Gene concordance factor (%)"
    let st3 := st2.insertMeaning "gDF1" "Gene discordance factor (%) for alternative split 1"
    let st4 := st3.insertMeaning "gDF2" "Gene discordance factor (%) for alternative split 2"
    let st5 := st4.insertMeaning "gN" "Number of trees decisive for the branch"
    { store := st5, error := none }

/-- The counters after all comparison trees, when none of them aborts. -/
def finalCounts {S : Type} [DecidableEq S] (lib : SplitLib S) (fmt : Fmt) (params : Params)
    (ref : GeneRef S) (trees : List (MTree S)) : Except String GeneCounts :=
  treeLoop lib fmt params ref (buildNameMap 0 ref.names []) 0 trees
    (initialCounts params ref.branches.length)

/-! ## Quantities the statements below speak about -/

/-- The counter `decisive_counts[id]`. -/
def GeneCounts.decisive (c : GeneCounts) (id : Nat) : Int :=
  c.decisive_counts.getD id 0

/-- The counter `supports[i][id]`. -/
def GeneCounts.support (c : GeneCounts) (i id : Nat) : Int :=
  (c.supports.getD i []).getD id 0

/-- The counters have the sizes of lines 166-170 for `n` branches. -/
def GeneCounts.shaped (c : GeneCounts) (n : Nat) : Prop :=
  c.decisive_counts.length = n ∧ c.supports.length = 3 ∧
    ∀ i, i < 3 → (c.supports.getD i []).length = n

/-- The taxon mask lines 180-185 build for a comparison tree. -/
def treeMask {S : Type} (lib : SplitLib S) (ref : GeneRef S) (tree : MTree S) :
    Except String S :=
  buildMask lib (buildNameMap 0 ref.names []) tree.taxname (lib.empty ref.leafNum)

/-- The comparison tree is decisive for branch `id`. -/
def decisiveFor {S : Type} (lib : SplitLib S) (ref : GeneRef S) (tree : MTree S) (id : Nat) :
    Bool :=
  match treeMask lib ref tree with
  | .ok taxa_mask => isDecisive lib ref taxa_mask (4 * id)
  | .error _ => false

/-- The split set of the comparison tree holds grouping `i` of branch `id`. -/
def hasGrouping {S : Type} [DecidableEq S] (lib : SplitLib S) (ref : GeneRef S)
    (tree : MTree S) (id i : Nat) : Bool :=
  match treeMask lib ref tree with
  | .ok taxa_mask =>
    decide (canonicalSplit lib ref taxa_mask (4 * id) i ∈
      tree.convertSplits (orderedNames lib ref taxa_mask))
  | .error _ => false

/-- The sum `support[0] + support[1] + support[2]` of a tally, in exact arithmetic. -/
def tallySum (d : Nat × Nat × Nat) : Nat := d.1 + d.2.1 + d.2.2

/-- Component `j` of a tally. -/
def tallyGet (j : Nat) (d : Nat × Nat × Nat) : Nat :=
  if j = 0 then d.1 else if j = 1 then d.2.1 else d.2.2

/-- The tally `(support[0], support[1], support[2])` of a counter vector. -/
def tallyOf (support : List Nat) : Nat × Nat × Nat :=
  (support.getD 0 0, support.getD 1 0, support.getD 2 0)

/-- The share of counter `j` in a tally with a positive sum; nothing for an empty tally. -/
def share (j : Nat) (d : Nat × Nat × Nat) : ℚ :=
  if tallySum d > 0 then (tallyGet j d : ℚ) / (tallySum d : ℚ) else 0

/-- The sum, over the draws with a positive tally sum, of the share of counter `j`. -/
def fracSum (j : Nat) : List (Nat × Nat × Nat) → ℚ
  | [] => 0
  | d :: ds => share j d + fracSum j ds

/-- The sum of all tally sums. -/
def totalSites : List (Nat × Nat × Nat) → Nat
  | [] => 0
  | d :: ds => tallySum d + totalSites ds

/-- The four attributes of lines 241-244 as branch `i` stores them. -/
def geneStored (c : GeneCounts) (i : Nat) (attrs : List (String × AttrVal)) : Prop :=
  getAttr attrs "gCF" = some (.dbl (genePercent c 0 i)) ∧
  getAttr attrs "gDF1" = some (.dbl (genePercent c 1 i)) ∧
  getAttr attrs "gDF2" = some (.dbl (genePercent c 2 i)) ∧
  getAttr attrs "gN" = some (.int (c.decisive_counts.getD i 0))

/-! ## Example data -/

/-- Splits as lists of membership bits, one bit per taxon: an instance of the split
operations for the examples. -/
def bitLib : SplitLib (List Bool) where
  empty n := List.replicate n false
  addTaxon s i := s.set i true
  containTaxon s i := s.getD i false
  overlap a b := (List.zipWith (fun x y => x && y) a b).any id
  union a b := List.zipWith (fun x y => x || y) a b
  extractSubSplit s mask := ((s.zip mask).filter (fun p => p.2)).map (fun p => p.1)
  shouldInvert s := !s.headD false
  invert s := s.map (fun x => !x)

/-- Plain formatting for the examples. -/
def exFmt : Fmt where
  convertDoubleToString d := match d with
    | none => "nan"
    | some q => toString q
  convertIntToString n := toString n
  precision3 d := match d with
    | none => "nan"
    | some q => toString q

/-- Default configuration for the examples: 1 quartet, no partition report, legacy labels. -/
def exParams : Params :=
  { site_concordance := 1, site_concordance_partition := false,
    newick_extended_format := false, verbose := false }

/-- A store without attributes, labels or meanings. -/
def exStore : Store :=
  { attrs := fun _ => [], name := fun _ => "", meanings := [] }

/-- The reference tree `((A,B),(C,D))` for the gene computation: one inner branch
`(4, 5)` whose quadrants are the four leaves. -/
def exRef : GeneRef (List Bool) :=
  { names := ["A", "B", "C", "D"], leafNum := 4, branches := [(4, 5)],
    subtrees := [[true, false, false, false], [false, true, false, false],
                 [false, false, true, false], [false, false, false, true]] }

/-- A comparison tree on `A, B, C` only: it misses quadrant 3. -/
def exTreeABC : MTree (List Bool) :=
  { taxname := ["A", "B", "C"], leafNum := 3,
    convertSplits := fun _ => [[true, false, false], [true, false, true], [true, true, false]] }

/-- The comparison tree `((A,C),(B,D))`: its only inner split is `AC|BD`. -/
def exTreeACBD : MTree (List Bool) :=
  { taxname := ["A", "C", "B", "D"], leafNum := 4,
    convertSplits := fun _ =>
      [[true, false, true, false], [true, false, false, false], [true, false, true, true],
       [true, true, false, true], [true, true, true, false]] }

/-- A comparison tree with a taxon `E` the reference tree does not have. -/
def exTreeABCE : MTree (List Bool) :=
  { taxname := ["A", "B", "C", "E"], leafNum := 4,
    convertSplits := fun _ => [[true, true, false, false]] }

/-- A random stream for the examples: the state counts the draws, the `k`-th draw from a
range of `n` values is `k % n`. -/
def exRandom (n : Nat) (r : Nat) : Nat × Nat := (r % n, r + 1)

/-- A pattern over four taxa with the given states and frequency. -/
def exPattern (s0 s1 s2 s3 : Nat) (frequency : Nat) : Pattern :=
  { isInformative := true,
    state := fun t => if t = 0 then s0 else if t = 1 then s1 else if t = 2 then s2 else s3,
    frequency := frequency }

/-- One informative site grouping taxa 0, 1 against taxa 2, 3. -/
def exAlnOne : Alignment :=
  { patterns := [exPattern 0 0 1 1 1], num_states := 4 }

/-- Seven informative sites: one for the first grouping, one for the second and five for
the third. -/
def exAlnMixed : Alignment :=
  { patterns := [exPattern 0 0 1 1 1, exPattern 0 1 0 1 1, exPattern 0 1 1 0 5],
    num_states := 4 }

/-- The tree `((0,1),(2,3))` with inner nodes 4 and 5 over the alignment `a`. -/
def exQuartetTree (a : Alignment) : PhyloTree :=
  { neighbors := fun n =>
      if n = 4 then [0, 1, 5] else if n = 5 then [4, 2, 3] else if n < 2 then [4] else [5],
    getTaxaID := fun n _ => [n],
    innerBranches := [(4, 5)],
    aln := .single a }

/-- A tree that is not bifurcating at the branch `(4, 5)`: node 4 has the single other
neighbour 0, node 5 the three other neighbours 1, 2 and 3. -/
def exUnevenTree (a : Alignment) : PhyloTree :=
  { neighbors := fun n =>
      if n = 4 then [0, 5] else if n = 5 then [4, 1, 2, 3] else if n = 0 then [4] else [5],
    getTaxaID := fun n _ => [n],
    innerBranches := [(4, 5)],
    aln := .single a }

/-- A partitioned alignment for the examples: partition 0 holds all four taxa, partition 1
lacks taxon 3. -/
def exSuper : SuperAlignment :=
  { partitions := [exAlnOne, exAlnMixed],
    taxa_index := fun t part => if part = 0 then (t : Int) else if t = 3 then -1 else (t : Int) }

/-! ## Definitions for the invariants of the counters, tallies and labels -/

/-- The label that the update of lines 21-30 (tag `sCF`) or 253-262 (tag `CF`) leaves on a
node whose label was `name`, for the formatted value `val`. -/
def labelAfter (newick_extended_format : Bool) (tag : String) (name val : String) : String :=
  String.mk (appendSupport newick_extended_format tag name.data val.data)

/-- Mask `big` holds every taxon that mask `small` holds: `big` is a superset of `small`. -/
def maskSubset {S : Type} (lib : SplitLib S) (small big : S) : Prop :=
  ∀ t, lib.containTaxon small t = true → lib.containTaxon big t = true

/-- The law of the `Split` class that the overlap test is monotone in the mask: a split that
overlaps a mask overlaps every superset of it. -/
def overlapMonotone {S : Type} (lib : SplitLib S) : Prop :=
  ∀ small big q, maskSubset lib small big → lib.overlap small q = true →
    lib.overlap big q = true

/-- The comparison tree `((A,B),(C,D))`: its only inner split is `AB|CD`. -/
def exTreeABCD : MTree (List Bool) :=
  { taxname := ["A", "B", "C", "D"], leafNum := 4,
    convertSplits := fun _ =>
      [[true, true, false, false], [true, false, false, false], [true, false, true, true],
       [true, true, false, true], [true, true, true, false]] }

/-- The number of sites of an alignment: the total frequency of its patterns. -/
def Alignment.sites (a : Alignment) : Nat :=
  (a.patterns.map Pattern.frequency).sum

/-- The total frequency of the informative patterns of an alignment. -/
def Alignment.informativeSites (a : Alignment) : Nat :=
  freqSum a (fun p => p.isInformative)

/-- The number of sites of the alignment of a tree; for a partitioned alignment, summed
over all partitions. -/
def Aln.sites : Aln → Nat
  | .single a => a.sites
  | .super sa => (sa.partitions.map Alignment.sites).sum

/-- No pattern of the alignment counts for the quartet: each one is uninformative or has a
state outside the valid range at one of the four taxa. -/
def Alignment.silentOn (a : Alignment) (t0 t1 t2 t3 : Nat) : Prop :=
  ∀ pat, pat ∈ a.patterns → usable a.num_states t0 t1 t2 t3 pat = false

/-- No pattern counts for the quartet, in a plain alignment or, for a partitioned one, in
any partition that holds the four taxa (with the quartet remapped into the partition). -/
def Aln.silentOn : Aln → Nat → Nat → Nat → Nat → Prop
  | .single a, t0, t1, t2, t3 => a.silentOn t0 t1 t2 t3
  | .super sa, t0, t1, t2, t3 =>
    ∀ part aln, sa.partitions[part]? = some aln → covers sa part t0 t1 t2 t3 = true →
      aln.silentOn (sa.taxa_index t0 part).toNat (sa.taxa_index t1 part).toNat
        (sa.taxa_index t2 part).toNat (sa.taxa_index t3 part).toNat

/-- An alignment whose single site is not informative. -/
def exAlnSilent : Alignment :=
  { patterns := [{ isInformative := false, state := fun _ => 0, frequency := 3 }],
    num_states := 4 }

/-- The quartets drawn at lines 116-120 in the next `n` iterations of the sampling loop. -/
def siteQuartets {R : Type} (classify : List Nat → List Nat → List Nat)
    (random_int : Nat → R → Nat × R) (taxa : List (List Nat)) :
    Nat → SiteAcc R → List (List Nat)
  | 0, _ => []
  | n + 1, acc =>
    (drawQuartet random_int taxa acc.rstream).1 ::
      siteQuartets classify random_int taxa n (siteIter classify random_int taxa acc)

/-- The sum over the partitions `p < P` of the per-partition counter `support[3 + 3p + j]`. -/
def partSum (support : List Nat) (P j : Nat) : Nat :=
  Finset.sum (Finset.range P) (fun p => support.getD (p * 3 + 3 + j) 0)

/-- What partition `p` of a partitioned alignment yields for counter `j` on the quartet `q`
(nothing when there is no partition `p` or it does not hold the four taxa). -/
def partCount (sa : SuperAlignment) (q : List Nat) (p j : Nat) : Nat :=
  match sa.partitions[p]? with
  | some aln =>
    partContribution sa (q.getD 0 0) (q.getD 1 0) (q.getD 2 0) (q.getD 3 0) j p aln
  | none => 0

/-- The count of partition `p` for counter `j`, accumulated over a list of quartets. -/
def partTotal (sa : SuperAlignment) (quartets : List (List Nat)) (p j : Nat) : Nat :=
  (quartets.map (fun q => partCount sa q p j)).sum

/-- The configuration of the examples with the per-partition report switched on. -/
def exParamsPart : Params :=
  { site_concordance := 2, site_concordance_partition := true,
    newick_extended_format := false, verbose := false }

/-- The tree `((0,1),(2,3))` with inner nodes 4 and 5 over the partitioned alignment
`exSuper`. -/
def exSuperTree : PhyloTree :=
  { neighbors := fun n =>
      if n = 4 then [0, 1, 5] else if n = 5 then [4, 2, 3] else if n < 2 then [4] else [5],
    getTaxaID := fun n _ => [n],
    innerBranches := [(4, 5)],
    aln := .super exSuper }

/-! ## IEEE-754 doubles -/

/-- The integer nearest to `x`; of the two nearest at a tie, the even one. -/
def roundEven (x : ℚ) : ℤ :=
  let f := ⌊x⌋
  if x - f < 1 / 2 then f
  else if 1 / 2 < x - f then f + 1
  else if f % 2 = 0 then f else f + 1

/-- The exponent of the binary64 format for a non-zero `q`: `⌊log₂ |q|⌋`, and `-1022` in the
subnormal range. -/
def binadeExp (q : ℚ) : ℤ :=
  max (Int.log 2 |q|) (-1022)

/-- The rounding of every binary64 operation (round to nearest, ties to even): the
double nearest to the exact result `q`, with 53 significant bits. A result that rounds
out of the finite range (an infinity) is `none`, like the undefined result of a division
by zero. -/
def fl (q : ℚ) : Double :=
  if q = 0 then some 0
  else
    let ulp : ℚ := 2 ^ (binadeExp q - 52)
    let r : ℚ := (roundEven (q / ulp) : ℚ) * ulp
    if |r| < 2 ^ 1024 then some r else none

/-- The conversion `(double)n` of an unsigned integer. -/
def fofNat (n : Nat) : Double := fl (n : ℚ)

/-- The conversion `(double)n` of an `int`. -/
def fofInt (n : Int) : Double := fl (n : ℚ)

/-- The binary64 sum `x + y`. -/
def fadd (x y : Double) : Double := (dadd x y).bind fl

/-- The binary64 product `x * y`. -/
def fmul (x y : Double) : Double := (dmul x y).bind fl

/-- The binary64 quotient `x / y`; not a finite number when the divisor is zero. -/
def fdiv (x y : Double) : Double := (ddiv x y).bind fl

/-- The expression `round(x / n * 10000) / 100` of lines 132-134 and 237-239 in binary64
arithmetic: both divisions and the product are rounded to the nearest double, `round`
gives the nearest integer with halves away from zero. -/
def fpercent (x n : Double) : Double :=
  fdiv (dround (fmul (fdiv x n) (some 10000))) (some 100)

/-! ## The computations in binary64 arithmetic

The definitions above read `double` as an exact rational, the reading in which the bounds
on the stored percentages are stated. The definitions of this section are the same source
lines with every `double` operation rounded as the machine rounds it. -/

/-- Lines 123-129 in binary64 arithmetic: `sum` is converted to `double` for the
divisions, each quotient and each sum is rounded. -/
def IEEE.accumulate {R : Type} (acc : SiteAcc R) (rstream : R) (support : List Nat) :
    SiteAcc R :=
  let sum := ((support.getD 0 0 + support.getD 1 0) % SIZE_T + support.getD 2 0) % SIZE_T
  let sum_sites := (acc.sum_sites + sum) % SIZE_T
  if sum > 0 then
    { rstream := rstream, support := support, sum_sites := sum_sites,
      sCF := fadd acc.sCF (fdiv (fofNat (support.getD 0 0)) (fofNat sum)),
      sDF1 := fadd acc.sDF1 (fdiv (fofNat (support.getD 1 0)) (fofNat sum)),
      sDF2 := fadd acc.sDF2 (fdiv (fofNat (support.getD 2 0)) (fofNat sum)) }
  else
    { rstream := rstream, support := support, sum_sites := sum_sites,
      sCF := acc.sCF, sDF1 := acc.sDF1, sDF2 := acc.sDF2 }

/-- Body of the sampling loop (lines 114-129) in binary64 arithmetic; `classify` is the
call `aln->computeQuartetSupports`. -/
def IEEE.siteIter {R : Type} (classify : List Nat → List Nat → List Nat)
    (random_int : Nat → R → Nat × R) (taxa : List (List Nat)) (acc : SiteAcc R) : SiteAcc R :=
  let q := drawQuartet random_int taxa acc.rstream
  IEEE.accumulate acc q.2 (classify q.1 (resetSupport acc.support))

/-- The sampling loop run `n` times, in binary64 arithmetic. -/
def IEEE.siteLoop {R : Type} (classify : List Nat → List Nat → List Nat)
    (random_int : Nat → R → Nat × R) (taxa : List (List Nat)) : Nat → SiteAcc R → SiteAcc R
  | 0, acc => acc
  | n + 1, acc =>
    IEEE.siteLoop classify random_int taxa n (IEEE.siteIter classify random_int taxa acc)

/-- The tallies `(support[0], support[1], support[2])` the classifier returns in each of
the next `n` iterations of the loop. -/
def IEEE.siteDraws {R : Type} (classify : List Nat → List Nat → List Nat)
    (random_int : Nat → R → Nat × R) (taxa : List (List Nat)) :
    Nat → SiteAcc R → List (Nat × Nat × Nat)
  | 0, _ => []
  | n + 1, acc =>
    let next := IEEE.siteIter classify random_int taxa acc
    (next.support.getD 0 0, next.support.getD 1 0, next.support.getD 2 0) ::
      IEEE.siteDraws classify random_int taxa n next

/-- The quartets drawn at lines 116-120 in the next `n` iterations of the loop. -/
def IEEE.siteQuartets {R : Type} (classify : List Nat → List Nat → List Nat)
    (random_int : Nat → R → Nat × R) (taxa : List (List Nat)) :
    Nat → SiteAcc R → List (List Nat)
  | 0, _ => []
  | n + 1, acc =>
    (drawQuartet random_int taxa acc.rstream).1 ::
      IEEE.siteQuartets classify random_int taxa n (IEEE.siteIter classify random_int taxa acc)

/-- Lines 141-150 in binary64 arithmetic: the per-partition attributes
`(double)support[i] / nquartets`, for `i = 3 .. support.size() - 1`. -/
def IEEE.putPartitionAttrs (fmt : Fmt) (nquartets : Nat) (support : List Nat)
    (nei : Nat × Nat) (st : Store) : Store :=
  (List.range (support.length - 3)).foldl
    (fun st k =>
      st.putAttr nei (partitionKey fmt (k + 3))
        (.dbl (fdiv (fofNat (support.getD (k + 3) 0)) (fofNat nquartets))))
    st

/-- Lines 131-150 in binary64 arithmetic: the final values and their storage on the
Neighbor `branch.second->findNeighbor(branch.first)`. -/
def IEEE.storeSiteValues {R : Type} (fmt : Fmt) (nquartets : Nat) (branch : Nat × Nat)
    (acc : SiteAcc R) (st : Store) : Store :=
  let sN := fdiv (fofNat acc.sum_sites) (fofNat nquartets)
  let sCF := fpercent acc.sCF (fofNat nquartets)
  let sDF1 := fpercent acc.sDF1 (fofNat nquartets)
  let sDF2 := fpercent acc.sDF2 (fofNat nquartets)
  let nei := (branch.2, branch.1)
  let st := st.putAttr nei "sCF" (.dbl sCF)
  let st := st.putAttr nei "sN" (.dbl sN)
  let st := st.putAttr nei "sDF1" (.dbl sDF1)
  let st := st.putAttr nei "sDF2" (.dbl sDF2)
  IEEE.putPartitionAttrs fmt nquartets acc.support nei st

/-- The method `PhyloTree::computeSiteConcordance(Branch &branch, int nquartets, int *rstream)`
in binary64 arithmetic: the store and the random stream it leaves, and the fatal error if
it aborts. -/
def IEEE.computeSiteConcordanceBranch {R : Type} (tree : PhyloTree) (params : Params)
    (fmt : Fmt) (random_int : Nat → R → Nat × R) (branch : Nat × Nat) (nquartets : Nat)
    (rstream : R) (st : Store) : Outcome × R :=
  match tree.extractTaxa branch with
  | .error e => ({ store := st, error := some e }, rstream)
  | .ok taxa =>
    let acc := IEEE.siteLoop (tree.aln.computeQuartetSupports params.site_concordance_partition)
      random_int taxa nquartets (initialAcc params tree rstream)
    ({ store := IEEE.storeSiteValues fmt nquartets branch acc st, error := none }, acc.rstream)

/-- The expression `(double)supports[k][i] / decisive_counts[i]` in binary64 arithmetic. -/
def IEEE.supportRatio (c : GeneCounts) (k i : Nat) : Double :=
  fdiv (fofInt ((c.supports.getD k []).getD i 0)) (fofInt (c.decisive_counts.getD i 0))

/-- The expression `round((double)supports[k][i] / decisive_counts[i] * 10000) / 100` of
lines 237-239 in binary64 arithmetic. -/
def IEEE.genePercent (c : GeneCounts) (k i : Nat) : Double :=
  fpercent (fofInt ((c.supports.getD k []).getD i 0)) (fofInt (c.decisive_counts.getD i 0))

/-- Lines 246-250: the text written into the node label, from the binary64 value. -/
def IEEE.geneLabel (fmt : Fmt) (params : Params) (c : GeneCounts) (i : Nat) : String :=
  let tmp := fmt.precision3 (fmul (IEEE.supportRatio c 0 i) (some 100))
  if params.verbose then tmp ++ ("%" ++ fmt.convertIntToString (c.decisive_counts.getD i 0))
  else tmp

/-- Lines 236-262 in binary64 arithmetic: the body of the final loop for branch `i`. -/
def IEEE.storeGeneValues {S : Type} (fmt : Fmt) (params : Params) (ref : GeneRef S)
    (c : GeneCounts) (st : Store) (i : Nat) : Store :=
  let branch := ref.branches.getD i (0, 0)
  let nei := (branch.2, branch.1)
  let st := st.putAttr nei "gCF" (.dbl (IEEE.genePercent c 0 i))
  let st := st.putAttr nei "gDF1" (.dbl (IEEE.genePercent c 1 i))
  let st := st.putAttr nei "gDF2" (.dbl (IEEE.genePercent c 2 i))
  let st := st.putAttr nei "gN" (.int (c.decisive_counts.getD i 0))
  st.appendSupport params.newick_extended_format "CF" branch.2 (IEEE.geneLabel fmt params c i)

/-- The method `PhyloTree::computeGeneConcordance(MTreeSet &trees, map<string,string>
&meanings)` in binary64 arithmetic. -/
def IEEE.computeGeneConcordance {S : Type} [DecidableEq S] (lib : SplitLib S) (fmt : Fmt)
    (params : Params) (ref : GeneRef S) (trees : List (MTree S)) (st : Store) : Outcome :=
  let name_map := buildNameMap 0 ref.names []
  match treeLoop lib fmt params ref name_map 0 trees
      (initialCounts params ref.branches.length) with
  | .error e => { store := st, error := some e }
  | .ok c =>
    let st1 := (List.range ref.branches.length).foldl (IEEE.storeGeneValues fmt params ref c) st
    let st2 := st1.insertMeaning "gCF" "Gene concordance factor (%)"
    let st3 := st2.insertMeaning "gDF1" "Gene discordance factor (%) for alternative split 1"
    let st4 := st3.insertMeaning "gDF2" "Gene discordance factor (%) for alternative split 2"
    let st5 := st4.insertMeaning "gN" "Number of trees decisive for the branch"
    { store := st5, error := none }

/-- The running sum of lines 126-128 over a list of tallies, in binary64 arithmetic and
in the order of the draws: from `acc`, each tally `d` with a positive sum adds the rounded
quotient of its counter `j` by its sum, and the sum is rounded again. -/
def flFracSum (j : Nat) : Double → List (Nat × Nat × Nat) → Double
  | acc, [] => acc
  | acc, d :: ds =>
    flFracSum j
      (if tallySum d > 0 then fadd acc (fdiv (fofNat (tallyGet j d)) (fofNat (tallySum d)))
       else acc) ds

/-! ## Example data for the binary64 computations -/

/-- An alignment of 800 informative sites on four taxa: 57 group taxa 0, 1 against 2, 3
and 743 group taxa 0, 2 against 1, 3. -/
def exAlnHalf : Alignment :=
  { patterns := [exPattern 0 0 1 1 57, exPattern 0 1 0 1 743], num_states := 4 }

/-- Eight hundred comparison trees on `A, B, C, D`: 57 with the split `AB|CD` and 743
with the split `AC|BD`. -/
def exHalfTrees : List (MTree (List Bool)) :=
  List.replicate 57 exTreeABCD ++ List.replicate 743 exTreeACBD

/-- A partitioned alignment on six taxa, every taxon present in both partitions, one site
each. The site of partition 0 groups taxa 0, 1 against taxa 2, 3 and sets taxa 4, 5 apart;
the site of partition 1 groups taxa 0, 1 against taxa 2, 4, 5 and sets taxon 3 apart. -/
def exSuperSix : SuperAlignment :=
  { partitions :=
      [{ patterns := [{ isInformative := true, state := fun t => [0, 0, 1, 1, 2, 2].getD t 0,
                        frequency := 1 }], num_states := 4 },
       { patterns := [{ isInformative := true, state := fun t => [0, 0, 1, 2, 1, 1].getD t 0,
                        frequency := 1 }], num_states := 4 }],
    taxa_index := fun t _ => (t : Int) }

/-- The tree `((0,1),(2,(3,4,5)))` read at its branch `(6, 7)`: node 6 joins the leaves 0
and 1, node 7 joins leaf 2 and the node 8 above the leaves 3, 4 and 5; over the
partitioned alignment `exSuperSix`. -/
def exSixTree : PhyloTree :=
  { neighbors := fun n =>
      if n = 6 then [0, 1, 7] else if n = 7 then [6, 2, 8] else if n < 2 then [6] else [7],
    getTaxaID := fun n _ => if n = 8 then [3, 4, 5] else [n],
    innerBranches := [(6, 7)],
    aln := .super exSuperSix }

/-! # Theorems -/

/-! ### the alignment classifier -/

theorem addSupport_length (s : List Nat) (i f : Nat) : (addSupport s i f).length = s.length := by
  simp [addSupport]

theorem getD_addSupport_self (s : List Nat) (i f : Nat) (h : i < s.length) :
    (addSupport s i f).getD i 0 = (s.getD i 0 + f) % SIZE_T := by
  simp [addSupport, List.getD_eq_getElem?_getD, List.getElem?_set, h]

theorem getD_addSupport_ne (s : List Nat) (i j f : Nat) (h : i ≠ j) :
    (addSupport s i f).getD j 0 = s.getD j 0 := by
  simp [addSupport, List.getD_eq_getElem?_getD, List.getElem?_set, h]

theorem quartetStep_length (n : Nat) (q s : List Nat) (pat : Pattern) :
    (quartetStep n q s pat).length = s.length := by
  unfold quartetStep
  simp only []
  split_ifs <;> simp [addSupport_length]

/-- The loop body on a four-taxon quartet, in terms of the selection predicates. -/
theorem quartetStep_eq (n t0 t1 t2 t3 : Nat) (s : List Nat) (pat : Pattern) :
    quartetStep n [t0, t1, t2, t3] s pat =
      if usable n t0 t1 t2 t3 pat = true then
        let s1 := if matches0 t0 t1 t2 t3 pat = true then addSupport s 0 pat.frequency else s
        let s2 := if matches1 t0 t1 t2 t3 pat = true then addSupport s1 1 pat.frequency else s1
        if matches2 t0 t1 t2 t3 pat = true then addSupport s2 2 pat.frequency else s2
      else s := by
  unfold quartetStep usable matches0 matches1 matches2
  simp only [List.getD_cons_zero, List.getD_cons_succ, List.any_cons, List.any_nil]
  cases hinf : pat.isInformative
  · simp
  · by_cases h0 : pat.state t0 < n <;> by_cases h1 : pat.state t1 < n <;>
      by_cases h2 : pat.state t2 < n <;> by_cases h3 : pat.state t3 < n <;>
      simp [h0, h1, h2, h3, Nat.not_le.mpr, Nat.le_of_not_lt, and_assoc]

theorem quartetStep_getD0 (n t0 t1 t2 t3 : Nat) (s : List Nat) (pat : Pattern)
    (hlen : 3 ≤ s.length) :
    (quartetStep n [t0, t1, t2, t3] s pat).getD 0 0 =
      if (usable n t0 t1 t2 t3 pat && matches0 t0 t1 t2 t3 pat) = true
      then (s.getD 0 0 + pat.frequency) % SIZE_T else s.getD 0 0 := by
  rw [quartetStep_eq]
  cases usable n t0 t1 t2 t3 pat <;> cases matches0 t0 t1 t2 t3 pat <;>
    cases matches1 t0 t1 t2 t3 pat <;> cases matches2 t0 t1 t2 t3 pat <;>
    simp only [Bool.and_true, Bool.and_false, Bool.false_and, if_true, if_false,
      Bool.false_eq_true, Bool.true_and] <;>
    (repeat rw [getD_addSupport_ne _ _ _ _ (by decide)]) <;>
    (try rw [getD_addSupport_self _ _ _ (by omega)])

theorem quartetStep_getD1 (n t0 t1 t2 t3 : Nat) (s : List Nat) (pat : Pattern)
    (hlen : 3 ≤ s.length) :
    (quartetStep n [t0, t1, t2, t3] s pat).getD 1 0 =
      if (usable n t0 t1 t2 t3 pat && matches1 t0 t1 t2 t3 pat) = true
      then (s.getD 1 0 + pat.frequency) % SIZE_T else s.getD 1 0 := by
  rw [quartetStep_eq]
  cases usable n t0 t1 t2 t3 pat <;> cases matches0 t0 t1 t2 t3 pat <;>
    cases matches1 t0 t1 t2 t3 pat <;> cases matches2 t0 t1 t2 t3 pat <;>
    simp only [Bool.and_true, Bool.and_false, Bool.false_and, if_true, if_false,
      Bool.false_eq_true, Bool.true_and] <;>
    (repeat rw [getD_addSupport_ne _ _ _ _ (by decide)]) <;>
    (try rw [getD_addSupport_self _ _ _ (by first | omega | (simp only [addSupport_length]; omega))]) <;>
    (repeat rw [getD_addSupport_ne _ _ _ _ (by decide)])

theorem quartetStep_getD2 (n t0 t1 t2 t3 : Nat) (s : List Nat) (pat : Pattern)
    (hlen : 3 ≤ s.length) :
    (quartetStep n [t0, t1, t2, t3] s pat).getD 2 0 =
      if (usable n t0 t1 t2 t3 pat && matches2 t0 t1 t2 t3 pat) = true
      then (s.getD 2 0 + pat.frequency) % SIZE_T else s.getD 2 0 := by
  rw [quartetStep_eq]
  cases usable n t0 t1 t2 t3 pat <;> cases matches0 t0 t1 t2 t3 pat <;>
    cases matches1 t0 t1 t2 t3 pat <;> cases matches2 t0 t1 t2 t3 pat <;>
    simp only [Bool.and_true, Bool.and_false, Bool.false_and, if_true, if_false,
      Bool.false_eq_true, Bool.true_and] <;>
    (repeat rw [getD_addSupport_ne _ _ _ _ (by decide)]) <;>
    (try rw [getD_addSupport_self _ _ _ (by first | omega | (simp only [addSupport_length]; omega))]) <;>
    (repeat rw [getD_addSupport_ne _ _ _ _ (by decide)])

theorem quartetStep_getD_ge (n t0 t1 t2 t3 : Nat) (s : List Nat) (pat : Pattern)
    (j : Nat) (hj : 3 ≤ j) :
    (quartetStep n [t0, t1, t2, t3] s pat).getD j 0 = s.getD j 0 := by
  rw [quartetStep_eq]
  cases usable n t0 t1 t2 t3 pat <;> cases matches0 t0 t1 t2 t3 pat <;>
    cases matches1 t0 t1 t2 t3 pat <;> cases matches2 t0 t1 t2 t3 pat <;>
    simp only [Bool.and_true, Bool.and_false, Bool.false_and, if_true, if_false,
      Bool.false_eq_true, Bool.true_and] <;>
    (repeat rw [getD_addSupport_ne _ _ _ _ (by omega)])

theorem quartetStep_lt (n t0 t1 t2 t3 : Nat) (s : List Nat) (pat : Pattern) (j : Nat)
    (hlen : 3 ≤ s.length) (hj : j < 3) (h : s.getD j 0 < SIZE_T) :
    (quartetStep n [t0, t1, t2, t3] s pat).getD j 0 < SIZE_T := by
  have hpos : 0 < SIZE_T := by decide
  interval_cases j
  · rw [quartetStep_getD0 _ _ _ _ _ _ _ hlen]; split_ifs
    · exact Nat.mod_lt _ hpos
    · exact h
  · rw [quartetStep_getD1 _ _ _ _ _ _ _ hlen]; split_ifs
    · exact Nat.mod_lt _ hpos
    · exact h
  · rw [quartetStep_getD2 _ _ _ _ _ _ _ hlen]; split_ifs
    · exact Nat.mod_lt _ hpos
    · exact h

/-- Folding a step that adds `c pat` modulo `SIZE_T` to a counter adds the total. -/
theorem foldl_counter (step : List Nat → Pattern → List Nat) (sel : Pattern → Bool) (j : Nat)
    (hstep : ∀ s pat, 3 ≤ s.length → (3 ≤ (step s pat).length ∧
      (step s pat).getD j 0 = if sel pat = true then (s.getD j 0 + pat.frequency) % SIZE_T
        else s.getD j 0))
    (pats : List Pattern) (s : List Nat) (hlen : 3 ≤ s.length) (h : s.getD j 0 < SIZE_T) :
    (pats.foldl step s).getD j 0 =
      (s.getD j 0 + ((pats.filter sel).map Pattern.frequency).sum) % SIZE_T := by
  induction pats generalizing s with
  | nil =>
    simp only [List.foldl_nil, List.filter_nil, List.map_nil, List.sum_nil, Nat.add_zero]
    exact (Nat.mod_eq_of_lt h).symm
  | cons p ps ih =>
    obtain ⟨hl, hg⟩ := hstep s p hlen
    have hpos : 0 < SIZE_T := by decide
    rw [List.foldl_cons, ih _ hl]
    · rw [hg]
      by_cases hs : sel p = true
      · simp only [hs, if_true, List.filter_cons_of_pos, List.map_cons, List.sum_cons]
        rw [Nat.add_mod, Nat.mod_mod, ← Nat.add_mod, Nat.add_assoc]
      · simp only [hs, if_false, List.filter_cons_of_neg, not_false_eq_true, Bool.false_eq_true]
    · rw [hg]; split_ifs
      · exact Nat.mod_lt _ hpos
      · exact h

theorem computeQuartetSupports_getD_ge (aln : Alignment) (t0 t1 t2 t3 : Nat) (s : List Nat)
    (j : Nat) (hj : 3 ≤ j) :
    (aln.computeQuartetSupports [t0, t1, t2, t3] s).getD j 0 = s.getD j 0 := by
  unfold Alignment.computeQuartetSupports
  induction aln.patterns generalizing s with
  | nil => rfl
  | cons p ps ih => rw [List.foldl_cons, ih, quartetStep_getD_ge _ _ _ _ _ _ _ _ hj]

theorem computeQuartetSupports_length (aln : Alignment) (q s : List Nat) :
    (aln.computeQuartetSupports q s).length = s.length := by
  unfold Alignment.computeQuartetSupports
  induction aln.patterns generalizing s with
  | nil => rfl
  | cons p ps ih => rw [List.foldl_cons, ih, quartetStep_length]

/-- C1. `Alignment::computeQuartetSupports` on the quartet `(t0, t1, t2, t3)`, for every
alignment and every initial vector of `size_t` counters with at least three entries.
Counter 0 ends at its initial value plus, in `size_t` arithmetic, the total frequency of
exactly the patterns that are informative, have all four quartet states below `num_states`
and satisfy `s(t0) = s(t1)`, `s(t2) = s(t3)`, `s(t0) ≠ s(t2)`; counter 1 likewise with
`s(t0) = s(t2)`, `s(t1) = s(t3)`, `s(t0) ≠ s(t1)`; counter 2 likewise with `s(t0) = s(t3)`,
`s(t1) = s(t2)`, `s(t0) ≠ s(t1)`. When the sum stays below `2 ^ 64` it is the plain sum.
Entries from index 3 on and the length are untouched, and a pattern that is uninformative,
has a state `≥ num_states` at a quartet taxon, or matches none of the three conditions
leaves every counter as it was. -/
theorem computeQuartetSupports_spec (aln : Alignment) (t0 t1 t2 t3 : Nat) (support : List Nat)
    (hlen : 3 ≤ support.length) (hval : ∀ j, j < 3 → support.getD j 0 < SIZE_T) :
    let out := aln.computeQuartetSupports [t0, t1, t2, t3] support
    let n := aln.num_states
    let add0 := freqSum aln (fun p => usable n t0 t1 t2 t3 p && matches0 t0 t1 t2 t3 p)
    let add1 := freqSum aln (fun p => usable n t0 t1 t2 t3 p && matches1 t0 t1 t2 t3 p)
    let add2 := freqSum aln (fun p => usable n t0 t1 t2 t3 p && matches2 t0 t1 t2 t3 p)
    (out.getD 0 0 = (support.getD 0 0 + add0) % SIZE_T ∧
      out.getD 1 0 = (support.getD 1 0 + add1) % SIZE_T ∧
      out.getD 2 0 = (support.getD 2 0 + add2) % SIZE_T) ∧
    ((support.getD 0 0 + add0 < SIZE_T → out.getD 0 0 = support.getD 0 0 + add0) ∧
      (support.getD 1 0 + add1 < SIZE_T → out.getD 1 0 = support.getD 1 0 + add1) ∧
      (support.getD 2 0 + add2 < SIZE_T → out.getD 2 0 = support.getD 2 0 + add2)) ∧
    (∀ j, 3 ≤ j → out.getD j 0 = support.getD j 0) ∧ out.length = support.length ∧
    (∀ (s : List Nat) (p : Pattern),
      (usable n t0 t1 t2 t3 p = false ∨ (matches0 t0 t1 t2 t3 p = false ∧
        matches1 t0 t1 t2 t3 p = false ∧ matches2 t0 t1 t2 t3 p = false)) →
      quartetStep n [t0, t1, t2, t3] s p = s) := by
  intro out n add0 add1 add2
  have h0 : out.getD 0 0 = (support.getD 0 0 + add0) % SIZE_T :=
    foldl_counter _ _ 0 (fun s pat h => ⟨by rw [quartetStep_length]; exact h,
      quartetStep_getD0 _ _ _ _ _ _ _ h⟩) _ _ hlen (hval 0 (by decide))
  have h1 : out.getD 1 0 = (support.getD 1 0 + add1) % SIZE_T :=
    foldl_counter _ _ 1 (fun s pat h => ⟨by rw [quartetStep_length]; exact h,
      quartetStep_getD1 _ _ _ _ _ _ _ h⟩) _ _ hlen (hval 1 (by decide))
  have h2 : out.getD 2 0 = (support.getD 2 0 + add2) % SIZE_T :=
    foldl_counter _ _ 2 (fun s pat h => ⟨by rw [quartetStep_length]; exact h,
      quartetStep_getD2 _ _ _ _ _ _ _ h⟩) _ _ hlen (hval 2 (by decide))
  refine ⟨⟨h0, h1, h2⟩, ⟨fun h => ?_, fun h => ?_, fun h => ?_⟩, ?_, ?_, ?_⟩
  · rw [h0, Nat.mod_eq_of_lt h]
  · rw [h1, Nat.mod_eq_of_lt h]
  · rw [h2, Nat.mod_eq_of_lt h]
  · exact fun j hj => computeQuartetSupports_getD_ge _ _ _ _ _ _ _ hj
  · exact computeQuartetSupports_length _ _ _
  · intro s p h
    rw [quartetStep_eq]
    rcases h with h | ⟨h0, h1, h2⟩
    · simp [h]
    · simp [h0, h1, h2]

/-- C1, witness: the third counter on `exAlnMixed`, started at 30. -/
theorem computeQuartetSupports_spec_witness :
    (exAlnMixed.computeQuartetSupports [0, 1, 2, 3] [10, 20, 30]).getD 2 0 =
      (30 + freqSum exAlnMixed (fun p => usable 4 0 1 2 3 p && matches2 0 1 2 3 p)) % SIZE_T :=
  (computeQuartetSupports_spec exAlnMixed 0 1 2 3 [10, 20, 30] (by decide)
    (by decide)).1.2.2

/-! ### the partitioned classifier -/

/-- Counter `j < 3` after a classifier call is the old value plus a quantity that does not
depend on the old counters. -/
theorem computeQuartetSupports_shift (aln : Alignment) (t0 t1 t2 t3 j : Nat) (hj : j < 3) :
    ∃ c, ∀ s : List Nat, 3 ≤ s.length → s.getD j 0 < SIZE_T →
      (aln.computeQuartetSupports [t0, t1, t2, t3] s).getD j 0 = (s.getD j 0 + c) % SIZE_T := by
  interval_cases j
  · exact ⟨_, fun s hl hv => foldl_counter _ _ 0 (fun s pat h =>
      ⟨by rw [quartetStep_length]; exact h, quartetStep_getD0 _ _ _ _ _ _ _ h⟩) _ _ hl hv⟩
  · exact ⟨_, fun s hl hv => foldl_counter _ _ 1 (fun s pat h =>
      ⟨by rw [quartetStep_length]; exact h, quartetStep_getD1 _ _ _ _ _ _ _ h⟩) _ _ hl hv⟩
  · exact ⟨_, fun s hl hv => foldl_counter _ _ 2 (fun s pat h =>
      ⟨by rw [quartetStep_length]; exact h, quartetStep_getD2 _ _ _ _ _ _ _ h⟩) _ _ hl hv⟩

theorem partQuartet_of_covers (sa : SuperAlignment) (part t0 t1 t2 t3 : Nat)
    (h : covers sa part t0 t1 t2 t3 = true) :
    partQuartet sa.taxa_index part [t0, t1, t2, t3] =
      [(sa.taxa_index t0 part).toNat, (sa.taxa_index t1 part).toNat,
       (sa.taxa_index t2 part).toNat, (sa.taxa_index t3 part).toNat] := by
  simp only [covers, Bool.and_eq_true, decide_eq_true_eq] at h
  obtain ⟨⟨⟨h0, h1⟩, h2⟩, h3⟩ := h
  simp [partQuartet, h0, h1, h2, h3]

theorem partQuartet_length_le (ti : Nat → Nat → Int) (part : Nat) (q : List Nat) :
    (partQuartet ti part q).length ≤ q.length := by
  induction q with
  | nil => simp [partQuartet]
  | cons t ts ih =>
    unfold partQuartet
    split_ifs
    · simp only [List.length_cons]; omega
    · simp

theorem partQuartet_length_of_not_covers (sa : SuperAlignment) (part t0 t1 t2 t3 : Nat)
    (h : covers sa part t0 t1 t2 t3 = false) :
    (partQuartet sa.taxa_index part [t0, t1, t2, t3]).length ≠ [t0, t1, t2, t3].length := by
  intro hl
  have : covers sa part t0 t1 t2 t3 = true := by
    simp only [covers, Bool.and_eq_true, decide_eq_true_eq]
    simp only [partQuartet] at hl
    by_cases h0 : sa.taxa_index t0 part ≥ 0 <;> by_cases h1 : sa.taxa_index t1 part ≥ 0 <;>
      by_cases h2 : sa.taxa_index t2 part ≥ 0 <;> by_cases h3 : sa.taxa_index t3 part ≥ 0 <;>
      simp [h0, h1, h2, h3] at hl ⊢
  rw [h] at this
  exact Bool.false_ne_true this

theorem superStep_not_covers (sa : SuperAlignment) (flag : Bool) (part t0 t1 t2 t3 : Nat)
    (aln : Alignment) (s : List Nat) (h : covers sa part t0 t1 t2 t3 = false) :
    superStep sa.taxa_index flag [t0, t1, t2, t3] part aln s = s := by
  unfold superStep
  simp only [partQuartet_length_of_not_covers sa part t0 t1 t2 t3 h, if_true, ne_eq,
    not_false_eq_true]

theorem superStep_length (ti : Nat → Nat → Int) (flag : Bool) (q : List Nat) (part : Nat)
    (aln : Alignment) (s : List Nat) : (superStep ti flag q part aln s).length = s.length := by
  unfold superStep
  simp only []
  split_ifs
  · rfl
  · simp [addPartSupport, addSupport_length]
  · exact computeQuartetSupports_length _ _ _

theorem addPartSupport_getD (part : Nat) (ps s : List Nat) (j : Nat) (hj : j < 3)
    (hl : 3 ≤ s.length) :
    (addPartSupport part ps s).getD j 0 = (s.getD j 0 + ps.getD j 0) % SIZE_T := by
  unfold addPartSupport
  simp only [List.foldl_cons, List.foldl_nil]
  interval_cases j
  · rw [getD_addSupport_ne _ _ _ _ (by decide), getD_addSupport_ne _ _ _ _ (by omega),
      getD_addSupport_ne _ _ _ _ (by decide), getD_addSupport_ne _ _ _ _ (by omega),
      getD_addSupport_self _ _ _ (by simp only [addSupport_length]; omega),
      getD_addSupport_ne _ _ _ _ (by omega)]
  · rw [getD_addSupport_ne _ _ _ _ (by decide), getD_addSupport_ne _ _ _ _ (by omega),
      getD_addSupport_self _ _ _ (by simp only [addSupport_length]; omega),
      getD_addSupport_ne _ _ _ _ (by omega),
      getD_addSupport_ne _ _ _ _ (by decide), getD_addSupport_ne _ _ _ _ (by omega)]
  · rw [getD_addSupport_self _ _ _ (by simp only [addSupport_length]; omega),
      getD_addSupport_ne _ _ _ _ (by omega),
      getD_addSupport_ne _ _ _ _ (by decide), getD_addSupport_ne _ _ _ _ (by omega),
      getD_addSupport_ne _ _ _ _ (by decide), getD_addSupport_ne _ _ _ _ (by omega)]

theorem superStep_covers (sa : SuperAlignment) (flag : Bool) (part t0 t1 t2 t3 : Nat)
    (aln : Alignment) (s : List Nat) (h : covers sa part t0 t1 t2 t3 = true)
    (j : Nat) (hj : j < 3) (hl : 3 ≤ s.length) (hv : s.getD j 0 < SIZE_T) :
    (superStep sa.taxa_index flag [t0, t1, t2, t3] part aln s).getD j 0 =
      (s.getD j 0 + partContribution sa t0 t1 t2 t3 j part aln) % SIZE_T := by
  obtain ⟨c, hc⟩ := computeQuartetSupports_shift aln (sa.taxa_index t0 part).toNat
    (sa.taxa_index t1 part).toNat (sa.taxa_index t2 part).toNat (sa.taxa_index t3 part).toNat j hj
  have hz : ([0, 0, 0] : List Nat).getD j 0 = 0 := by interval_cases j <;> rfl
  have hpc : partContribution sa t0 t1 t2 t3 j part aln = c % SIZE_T := by
    unfold partContribution
    rw [if_pos h, hc [0, 0, 0] (by simp) (by rw [hz]; decide), hz, Nat.zero_add]
  unfold superStep
  simp only [partQuartet_of_covers sa part t0 t1 t2 t3 h, List.length_cons, List.length_nil,
    ne_eq, not_true_eq_false, if_false]
  cases flag
  · simp only [Bool.false_eq_true, if_false]
    rw [hc s hl hv, hpc, Nat.add_mod_mod]
  · simp only [if_true]
    rw [addPartSupport_getD _ _ _ _ hj hl, hpc, hc [0, 0, 0] (by simp) (by rw [hz]; decide), hz,
      Nat.zero_add]

theorem superStep_getD (sa : SuperAlignment) (flag : Bool) (part t0 t1 t2 t3 : Nat)
    (aln : Alignment) (s : List Nat)
    (j : Nat) (hj : j < 3) (hl : 3 ≤ s.length) (hv : s.getD j 0 < SIZE_T) :
    (superStep sa.taxa_index flag [t0, t1, t2, t3] part aln s).getD j 0 =
      (s.getD j 0 + partContribution sa t0 t1 t2 t3 j part aln) % SIZE_T := by
  cases h : covers sa part t0 t1 t2 t3
  · rw [superStep_not_covers _ _ _ _ _ _ _ _ _ h]
    simp only [partContribution, h, Bool.false_eq_true, if_false, Nat.add_zero]
    exact (Nat.mod_eq_of_lt hv).symm
  · exact superStep_covers sa flag part t0 t1 t2 t3 aln s h j hj hl hv

theorem superLoop_getD (sa : SuperAlignment) (flag : Bool) (t0 t1 t2 t3 : Nat)
    (j : Nat) (hj : j < 3) (parts : List Alignment) (part : Nat) (s : List Nat)
    (hl : 3 ≤ s.length) (hv : s.getD j 0 < SIZE_T) :
    (superLoop sa.taxa_index flag [t0, t1, t2, t3] part parts s).getD j 0 =
      (s.getD j 0 + contributionSum sa t0 t1 t2 t3 j part parts) % SIZE_T := by
  induction parts generalizing part s with
  | nil =>
    simp only [superLoop, contributionSum, Nat.add_zero]
    exact (Nat.mod_eq_of_lt hv).symm
  | cons a rest ih =>
    have hpos : 0 < SIZE_T := by decide
    simp only [superLoop, contributionSum]
    rw [ih _ _ (by rw [superStep_length]; exact hl)
      (by rw [superStep_getD sa flag part t0 t1 t2 t3 a s j hj hl hv]; exact Nat.mod_lt _ hpos),
      superStep_getD sa flag part t0 t1 t2 t3 a s j hj hl hv, Nat.mod_add_mod, Nat.add_assoc]

/-- C5. `SuperAlignment::computeQuartetSupports` on the quartet `(t0, t1, t2, t3)`, for every
partitioned alignment, every initial vector of `size_t` counters with at least three
entries and both settings of the reporting flag. Each global counter `j < 3` ends at its
initial value plus, in `size_t` arithmetic, the sum over the partitions of
`partContribution`: what the sub-alignment yields on the remapped quartet when all four
taxa have a non-negative `taxa_index`, and nothing otherwise. The result is the same with
the flag on and off. One step of the partition loop leaves the whole vector unchanged for
a partition that lacks one of the four taxa, and adds the sub-alignment's count on the
remapped quartet for a partition that has all four. -/
theorem super_computeQuartetSupports_spec (sa : SuperAlignment) (t0 t1 t2 t3 : Nat)
    (support : List Nat) (hlen : 3 ≤ support.length)
    (hval : ∀ j, j < 3 → support.getD j 0 < SIZE_T) :
    (∀ (flag : Bool) (j : Nat), j < 3 →
      (sa.computeQuartetSupports flag [t0, t1, t2, t3] support).getD j 0 =
        (support.getD j 0 + contributionSum sa t0 t1 t2 t3 j 0 sa.partitions) % SIZE_T) ∧
    (∀ j, j < 3 →
      (sa.computeQuartetSupports true [t0, t1, t2, t3] support).getD j 0 =
        (sa.computeQuartetSupports false [t0, t1, t2, t3] support).getD j 0) ∧
    (∀ (flag : Bool) (part : Nat) (aln : Alignment) (s : List Nat),
      covers sa part t0 t1 t2 t3 = false →
        superStep sa.taxa_index flag [t0, t1, t2, t3] part aln s = s) ∧
    (∀ (flag : Bool) (part : Nat) (aln : Alignment) (s : List Nat) (j : Nat),
      covers sa part t0 t1 t2 t3 = true → j < 3 → 3 ≤ s.length → s.getD j 0 < SIZE_T →
        (superStep sa.taxa_index flag [t0, t1, t2, t3] part aln s).getD j 0 =
          (s.getD j 0 + (aln.computeQuartetSupports
            [(sa.taxa_index t0 part).toNat, (sa.taxa_index t1 part).toNat,
             (sa.taxa_index t2 part).toNat, (sa.taxa_index t3 part).toNat]
            [0, 0, 0]).getD j 0) % SIZE_T) := by
  refine ⟨fun flag j hj => ?_, fun j hj => ?_, fun flag part aln s h => ?_,
    fun flag part aln s j h hj hl hv => ?_⟩
  · exact superLoop_getD sa flag t0 t1 t2 t3 j hj _ 0 support hlen (hval j hj)
  · unfold SuperAlignment.computeQuartetSupports
    rw [superLoop_getD sa true t0 t1 t2 t3 j hj _ 0 support hlen (hval j hj),
      superLoop_getD sa false t0 t1 t2 t3 j hj _ 0 support hlen (hval j hj)]
  · exact superStep_not_covers sa flag part t0 t1 t2 t3 aln s h
  · have := superStep_covers sa flag part t0 t1 t2 t3 aln s h j hj hl hv
    rw [this, partContribution, if_pos h]

/-- C5, witness: the first global counter on `exSuper` with the flag on. -/
theorem super_computeQuartetSupports_spec_witness :
    (exSuper.computeQuartetSupports true [0, 1, 2, 3] [0, 0, 0, 0, 0, 0, 0, 0, 0]).getD 0 0 =
      (0 + contributionSum exSuper 0 1 2 3 0 0 exSuper.partitions) % SIZE_T :=
  (super_computeQuartetSupports_spec exSuper 0 1 2 3 [0, 0, 0, 0, 0, 0, 0, 0, 0] (by decide)
    (by decide)).1 true 0 (by decide)

/-! ### lists of counters -/

theorem getD_set_int (l : List Int) (i j : Nat) (v : Int) :
    (l.set i v).getD j 0 = if i = j ∧ i < l.length then v else l.getD j 0 := by
  simp only [List.getD_eq_getElem?_getD, List.getElem?_set]
  by_cases h : i = j
  · subst h
    by_cases hl : i < l.length
    · simp [hl]
    · simp [hl, List.getElem?_eq_none (Nat.le_of_not_lt hl)]
  · simp [h]

theorem getD_set_row (l : List (List Int)) (i j : Nat) (v : List Int) :
    (l.set i v).getD j [] = if i = j ∧ i < l.length then v else l.getD j [] := by
  simp only [List.getD_eq_getElem?_getD, List.getElem?_set]
  by_cases h : i = j
  · subst h
    by_cases hl : i < l.length
    · simp [hl]
    · simp [hl, List.getElem?_eq_none (Nat.le_of_not_lt hl)]
  · simp [h]

/-! ### one grouping -/

theorem supportStep_decisive_counts {S : Type} [DecidableEq S] (lib : SplitLib S) (fmt : Fmt)
    (params : Params) (ref : GeneRef S) (M : S) (H : List S) (treeid id : Nat)
    (c : GeneCounts) (i : Nat) :
    (supportStep lib fmt params ref M H treeid id c i).decisive_counts = c.decisive_counts := by
  unfold supportStep
  simp only []
  split_ifs <;> rfl

theorem supportStep_shaped {S : Type} [DecidableEq S] (lib : SplitLib S) (fmt : Fmt)
    (params : Params) (ref : GeneRef S) (M : S) (H : List S) (treeid id : Nat)
    (c : GeneCounts) (i n : Nat) (h : c.shaped n) :
    (supportStep lib fmt params ref M H treeid id c i).shaped n := by
  obtain ⟨h1, h2, h3⟩ := h
  have key : (c.supports.set i ((c.supports.getD i []).set id
      ((c.supports.getD i []).getD id 0 + 1))).length = 3 ∧
      ∀ k, k < 3 → ((c.supports.set i ((c.supports.getD i []).set id
      ((c.supports.getD i []).getD id 0 + 1))).getD k []).length = n := by
    refine ⟨by simp [h2], fun k hk => ?_⟩
    rw [getD_set_row]
    split_ifs with hc
    · rw [List.length_set]; exact h3 i (by omega)
    · exact h3 k hk
  unfold supportStep
  simp only []
  split_ifs
  · exact ⟨h1, key.1, key.2⟩
  · exact ⟨h1, key.1, key.2⟩
  · exact ⟨h1, h2, h3⟩

theorem supportStep_support {S : Type} [DecidableEq S] (lib : SplitLib S) (fmt : Fmt)
    (params : Params) (ref : GeneRef S) (M : S) (H : List S) (treeid id : Nat)
    (c : GeneCounts) (i n : Nat) (h : c.shaped n) (hi : i < 3) (hid : id < n) (k id' : Nat) :
    (supportStep lib fmt params ref M H treeid id c i).support k id' =
      c.support k id' +
        (if k = i ∧ id' = id ∧ canonicalSplit lib ref M (4 * id) i ∈ H then 1 else 0) := by
  obtain ⟨h1, h2, h3⟩ := h
  have key : ((c.supports.set i ((c.supports.getD i []).set id
      ((c.supports.getD i []).getD id 0 + 1))).getD k []).getD id' 0 =
      (c.supports.getD k []).getD id' 0 + (if k = i ∧ id' = id then 1 else 0) := by
    rw [getD_set_row]
    by_cases hk : i = k
    · subst hk
      rw [if_pos ⟨rfl, by omega⟩, getD_set_int]
      by_cases hd : id = id'
      · subst hd
        rw [if_pos ⟨rfl, by rw [h3 i hi]; exact hid⟩]
        simp
      · rw [if_neg (fun hh => hd hh.1)]
        simp [Ne.symm hd]
    · rw [if_neg (fun hh => hk hh.1)]
      simp [Ne.symm hk]
  unfold supportStep GeneCounts.support
  simp only []
  by_cases hm : canonicalSplit lib ref M (4 * id) i ∈ H
  · simp only [hm, if_true, and_true]
    split_ifs <;> simp_all
  · simp only [hm, if_false, and_false, add_zero]

/-! ### one branch -/

theorem range3 : List.range 3 = [0, 1, 2] := by decide

theorem branchStep_shaped {S : Type} [DecidableEq S] (lib : SplitLib S) (fmt : Fmt)
    (params : Params) (ref : GeneRef S) (M : S) (H : List S) (treeid : Nat)
    (c : GeneCounts) (id n : Nat) (h : c.shaped n) :
    (branchStep lib fmt params ref M H treeid c id).shaped n := by
  unfold branchStep
  simp only [range3, List.foldl_cons, List.foldl_nil]
  split_ifs
  · exact h
  · refine supportStep_shaped _ _ _ _ _ _ _ _ _ _ _ (supportStep_shaped _ _ _ _ _ _ _ _ _ _ _
      (supportStep_shaped _ _ _ _ _ _ _ _ _ _ _ ?_))
    exact ⟨by simp [h.1], h.2.1, h.2.2⟩

theorem branchStep_decisive {S : Type} [DecidableEq S] (lib : SplitLib S) (fmt : Fmt)
    (params : Params) (ref : GeneRef S) (M : S) (H : List S) (treeid : Nat)
    (c : GeneCounts) (id n : Nat) (h : c.shaped n) (hid : id < n) (id' : Nat) :
    (branchStep lib fmt params ref M H treeid c id).decisive id' =
      c.decisive id' + (if id' = id ∧ isDecisive lib ref M (4 * id) = true then 1 else 0) := by
  unfold branchStep GeneCounts.decisive
  simp only [range3, List.foldl_cons, List.foldl_nil]
  cases hd : isDecisive lib ref M (4 * id)
  · simp
  · simp only [Bool.not_true, Bool.false_eq_true, if_false, supportStep_decisive_counts,
      and_true]
    rw [getD_set_int]
    by_cases he : id = id'
    · subst he
      rw [if_pos ⟨rfl, by rw [h.1]; exact hid⟩]
      simp
    · rw [if_neg (fun hh => he hh.1)]
      simp [Ne.symm he]

theorem branchStep_support {S : Type} [DecidableEq S] (lib : SplitLib S) (fmt : Fmt)
    (params : Params) (ref : GeneRef S) (M : S) (H : List S) (treeid : Nat)
    (c : GeneCounts) (id n : Nat) (h : c.shaped n) (hid : id < n) (k id' : Nat) (hk : k < 3) :
    (branchStep lib fmt params ref M H treeid c id).support k id' =
      c.support k id' + (if id' = id ∧ isDecisive lib ref M (4 * id) = true ∧
        canonicalSplit lib ref M (4 * id) k ∈ H then 1 else 0) := by
  unfold branchStep
  simp only [range3, List.foldl_cons, List.foldl_nil]
  cases hd : isDecisive lib ref M (4 * id)
  · simp
  · simp only [Bool.not_true, Bool.false_eq_true, if_false, true_and]
    have h0 : GeneCounts.shaped
        { decisive_counts := c.decisive_counts.set id (c.decisive_counts.getD id 0 + 1),
          supports := c.supports, occurence_trees := c.occurence_trees } n :=
      ⟨by simp [h.1], h.2.1, h.2.2⟩
    have h1 := supportStep_shaped lib fmt params ref M H treeid id _ 0 n h0
    have h2 := supportStep_shaped lib fmt params ref M H treeid id _ 1 n h1
    rw [supportStep_support lib fmt params ref M H treeid id _ 2 n h2 (by decide) hid,
      supportStep_support lib fmt params ref M H treeid id _ 1 n h1 (by decide) hid,
      supportStep_support lib fmt params ref M H treeid id _ 0 n h0 (by decide) hid]
    have hc : GeneCounts.support
        { decisive_counts := c.decisive_counts.set id (c.decisive_counts.getD id 0 + 1),
          supports := c.supports, occurence_trees := c.occurence_trees } k id' =
        c.support k id' := rfl
    rw [hc]
    interval_cases k <;> simp

/-! ### all branches of one tree -/

theorem scanBranches_aux {S : Type} [DecidableEq S] (lib : SplitLib S) (fmt : Fmt)
    (params : Params) (ref : GeneRef S) (M : S) (H : List S) (treeid : Nat)
    (c : GeneCounts) (n : Nat) (h : c.shaped n) (m : Nat) (hm : m ≤ n) :
    let c' := (List.range m).foldl (branchStep lib fmt params ref M H treeid) c
    c'.shaped n ∧
    (∀ id, c'.decisive id = c.decisive id +
      (if id < m ∧ isDecisive lib ref M (4 * id) = true then 1 else 0)) ∧
    (∀ k id, k < 3 → c'.support k id = c.support k id +
      (if id < m ∧ isDecisive lib ref M (4 * id) = true ∧
        canonicalSplit lib ref M (4 * id) k ∈ H then 1 else 0)) := by
  induction m with
  | zero => simp [h]
  | succ m ih =>
    obtain ⟨ih1, ih2, ih3⟩ := ih (by omega)
    simp only [List.range_succ, List.foldl_append, List.foldl_cons, List.foldl_nil]
    refine ⟨branchStep_shaped _ _ _ _ _ _ _ _ _ _ ih1, fun id => ?_, fun k id hk => ?_⟩
    · rw [branchStep_decisive lib fmt params ref M H treeid _ m n ih1 (by omega), ih2]
      by_cases he : id = m
      · subst he; simp
      · have : id < m + 1 ↔ id < m := by omega
        simp [he, this]
    · rw [branchStep_support lib fmt params ref M H treeid _ m n ih1 (by omega) k id hk,
        ih3 k id hk]
      by_cases he : id = m
      · subst he; simp
      · have : id < m + 1 ↔ id < m := by omega
        simp [he, this]

theorem isDecisive_iff {S : Type} (lib : SplitLib S) (ref : GeneRef S) (M : S) (qid : Nat) :
    isDecisive lib ref M qid = true ↔ ∀ i, i < 4 → lib.overlap M (quadrant lib ref qid i) = true := by
  simp [isDecisive, List.all_eq_true]

theorem scanBranches_spec {S : Type} [DecidableEq S] (lib : SplitLib S) (fmt : Fmt)
    (params : Params) (ref : GeneRef S) (M : S) (H : List S) (treeid : Nat)
    (c : GeneCounts) (hq : ref.subtrees.length = 4 * ref.branches.length)
    (h : c.shaped ref.branches.length) :
    let c' := scanBranches lib fmt params ref M H treeid c
    c'.shaped ref.branches.length ∧
    (∀ id, id < ref.branches.length → c'.decisive id = c.decisive id +
      (if isDecisive lib ref M (4 * id) = true then 1 else 0)) ∧
    (∀ k id, k < 3 → id < ref.branches.length → c'.support k id = c.support k id +
      (if isDecisive lib ref M (4 * id) = true ∧
        canonicalSplit lib ref M (4 * id) k ∈ H then 1 else 0)) := by
  have hn : (ref.subtrees.length + 3) / 4 = ref.branches.length := by omega
  have := scanBranches_aux lib fmt params ref M H treeid c ref.branches.length h
    ref.branches.length (le_refl _)
  simp only [scanBranches, hn]
  simp only at this
  obtain ⟨h1, h2, h3⟩ := this
  refine ⟨h1, fun id hid => ?_, fun k id hk hid => ?_⟩
  · rw [h2]; simp [hid]
  · rw [h3 k id hk]; simp [hid]

/-- A successful `processTree` is a branch scan with the tree's mask and split set. -/
theorem processTree_ok {S : Type} [DecidableEq S] (lib : SplitLib S) (fmt : Fmt)
    (params : Params) (ref : GeneRef S) (treeid : Nat) (tree : MTree S) (c c' : GeneCounts)
    (hp : processTree lib fmt params ref (buildNameMap 0 ref.names []) treeid tree c = .ok c') :
    ∃ M, treeMask lib ref tree = .ok M ∧
      (orderedNames lib ref M).length = tree.leafNum ∧
      c' = scanBranches lib fmt params ref M (tree.convertSplits (orderedNames lib ref M))
        treeid c := by
  unfold processTree at hp
  unfold treeMask
  cases hm : buildMask lib (buildNameMap 0 ref.names []) tree.taxname (lib.empty ref.leafNum) with
  | error e => rw [hm] at hp; simp at hp
  | ok M =>
    rw [hm] at hp
    simp only [ne_eq, ite_not] at hp
    by_cases hl : (orderedNames lib ref M).length = tree.leafNum
    · rw [if_pos hl] at hp
      exact ⟨M, rfl, hl, by injection hp with hp; exact hp.symm⟩
    · rw [if_neg hl] at hp; simp at hp

theorem processTree_spec {S : Type} [DecidableEq S] (lib : SplitLib S) (fmt : Fmt)
    (params : Params) (ref : GeneRef S) (treeid : Nat) (tree : MTree S) (c c' : GeneCounts)
    (hq : ref.subtrees.length = 4 * ref.branches.length)
    (h : c.shaped ref.branches.length)
    (hp : processTree lib fmt params ref (buildNameMap 0 ref.names []) treeid tree c = .ok c') :
    c'.shaped ref.branches.length ∧
    (∀ id, id < ref.branches.length → c'.decisive id = c.decisive id +
      (if decisiveFor lib ref tree id = true then 1 else 0)) ∧
    (∀ k id, k < 3 → id < ref.branches.length → c'.support k id = c.support k id +
      (if (decisiveFor lib ref tree id && hasGrouping lib ref tree id k) = true
        then 1 else 0)) := by
  obtain ⟨M, hM, _, rfl⟩ := processTree_ok lib fmt params ref treeid tree c c' hp
  have := scanBranches_spec lib fmt params ref M
    (tree.convertSplits (orderedNames lib ref M)) treeid c hq h
  simp only at this
  obtain ⟨h1, h2, h3⟩ := this
  refine ⟨h1, fun id hid => ?_, fun k id hk hid => ?_⟩
  · rw [h2 id hid]; simp [decisiveFor, hM]
  · rw [h3 k id hk hid]; simp [decisiveFor, hasGrouping, hM]

/-- The counters after a run of the tree loop count the decisive and the supporting
trees. -/
theorem treeLoop_spec {S : Type} [DecidableEq S] (lib : SplitLib S) (fmt : Fmt)
    (params : Params) (ref : GeneRef S) (trees : List (MTree S)) (treeid : Nat)
    (c c' : GeneCounts)
    (hq : ref.subtrees.length = 4 * ref.branches.length)
    (h : c.shaped ref.branches.length)
    (hp : treeLoop lib fmt params ref (buildNameMap 0 ref.names []) treeid trees c = .ok c') :
    c'.shaped ref.branches.length ∧
    (∀ id, id < ref.branches.length → c'.decisive id = c.decisive id +
      ((trees.filter (fun t => decisiveFor lib ref t id)).length : Int)) ∧
    (∀ k id, k < 3 → id < ref.branches.length → c'.support k id = c.support k id +
      ((trees.filter (fun t => decisiveFor lib ref t id && hasGrouping lib ref t id k)).length
        : Int)) := by
  induction trees generalizing treeid c with
  | nil =>
    simp only [treeLoop] at hp
    injection hp with hp
    subst hp
    simp [h]
  | cons t rest ih =>
    simp only [treeLoop] at hp
    cases hpt : processTree lib fmt params ref (buildNameMap 0 ref.names []) treeid t c with
    | error e => rw [hpt] at hp; simp at hp
    | ok c1 =>
      rw [hpt] at hp
      obtain ⟨s1, d1, g1⟩ := processTree_spec lib fmt params ref treeid t c c1 hq h hpt
      obtain ⟨s2, d2, g2⟩ := ih (treeid + 1) c1 s1 hp
      refine ⟨s2, fun id hid => ?_, fun k id hk hid => ?_⟩
      · rw [d2 id hid, d1 id hid, List.filter_cons]
        split_ifs <;> simp; ring
      · rw [g2 k id hk hid, g1 k id hk hid, List.filter_cons]
        split_ifs <;> simp; ring

theorem initialCounts_shaped (params : Params) (n : Nat) : (initialCounts params n).shaped n := by
  refine ⟨by simp [initialCounts], by simp [initialCounts], fun i hi => ?_⟩
  simp only [initialCounts]
  interval_cases i <;> simp

theorem initialCounts_decisive (params : Params) (n id : Nat) :
    (initialCounts params n).decisive id = 0 := by
  simp only [initialCounts, GeneCounts.decisive, List.getD_eq_getElem?_getD,
    List.getElem?_replicate]
  split_ifs <;> rfl

theorem initialCounts_support (params : Params) (n k id : Nat) :
    (initialCounts params n).support k id = 0 := by
  simp only [initialCounts, GeneCounts.support, List.getD_eq_getElem?_getD,
    List.getElem?_replicate]
  split_ifs
  · simp only [Option.getD_some, List.getElem?_replicate]
    split_ifs <;> rfl
  · rfl

/-- The final counters count the decisive and the supporting trees. -/
theorem finalCounts_spec {S : Type} [DecidableEq S] (lib : SplitLib S) (fmt : Fmt)
    (params : Params) (ref : GeneRef S) (trees : List (MTree S)) (c : GeneCounts)
    (hq : ref.subtrees.length = 4 * ref.branches.length)
    (hp : finalCounts lib fmt params ref trees = .ok c) :
    c.shaped ref.branches.length ∧
    (∀ id, id < ref.branches.length → c.decisive id =
      ((trees.filter (fun t => decisiveFor lib ref t id)).length : Int)) ∧
    (∀ k id, k < 3 → id < ref.branches.length → c.support k id =
      ((trees.filter (fun t => decisiveFor lib ref t id && hasGrouping lib ref t id k)).length
        : Int)) := by
  obtain ⟨s, d, g⟩ := treeLoop_spec lib fmt params ref trees 0 _ c hq
    (initialCounts_shaped params _) hp
  refine ⟨s, fun id hid => ?_, fun k id hk hid => ?_⟩
  · rw [d id hid, initialCounts_decisive, zero_add]
  · rw [g k id hk hid, initialCounts_support, zero_add]

/-! ### attributes -/

theorem getAttr_putAttr_self (a : List (String × AttrVal)) (k : String) (v : AttrVal) :
    getAttr (putAttr a k v) k = some v := by
  simp [getAttr, putAttr, List.lookup_cons]

theorem lookup_filter_ne (a : List (String × AttrVal)) (k k' : String) (h : k' ≠ k) :
    (a.filter (fun kv => decide (kv.1 ≠ k))).lookup k' = a.lookup k' := by
  induction a with
  | nil => rfl
  | cons x xs ih =>
    obtain ⟨xk, xv⟩ := x
    by_cases hx : xk = k
    · subst hx
      have : (k' == xk) = false := by simpa using h
      rw [List.filter_cons_of_neg (by simp), List.lookup_cons, this]
      exact ih
    · rw [List.filter_cons_of_pos (by simpa using hx), List.lookup_cons, List.lookup_cons, ih]

theorem getAttr_putAttr_ne (a : List (String × AttrVal)) (k k' : String) (v : AttrVal)
    (h : k' ≠ k) : getAttr (putAttr a k v) k' = getAttr a k' := by
  have : (k' == k) = false := by simpa using h
  simp only [getAttr, putAttr, List.lookup_cons, this]
  exact lookup_filter_ne a k k' h

theorem store_putAttr_attrs_self (st : Store) (nei : Nat × Nat) (k : String) (v : AttrVal) :
    (st.putAttr nei k v).attrs nei = Discordance.putAttr (st.attrs nei) k v := by
  simp [Store.putAttr]

theorem store_putAttr_attrs_ne (st : Store) (nei nei' : Nat × Nat) (k : String) (v : AttrVal)
    (h : nei' ≠ nei) : (st.putAttr nei k v).attrs nei' = st.attrs nei' := by
  simp [Store.putAttr, Function.update_noteq h]

theorem store_putAttr_name (st : Store) (nei : Nat × Nat) (k : String) (v : AttrVal) :
    (st.putAttr nei k v).name = st.name := rfl

theorem store_appendSupport_attrs (st : Store) (b : Bool) (tag : String) (node : Nat)
    (val : String) : (st.appendSupport b tag node val).attrs = st.attrs := rfl

theorem store_insertMeaning_attrs (st : Store) (k t : String) :
    (st.insertMeaning k t).attrs = st.attrs := by
  unfold Store.insertMeaning
  split_ifs <;> rfl

theorem store_insertMeaning_name (st : Store) (k t : String) :
    (st.insertMeaning k t).name = st.name := by
  unfold Store.insertMeaning
  split_ifs <;> rfl

/-! ### the final loop of the gene computation -/

theorem storeGeneValues_attrs_ne {S : Type} (fmt : Fmt) (params : Params) (ref : GeneRef S)
    (c : GeneCounts) (st : Store) (i : Nat) (nei : Nat × Nat)
    (h : nei ≠ ((ref.branches.getD i (0, 0)).2, (ref.branches.getD i (0, 0)).1)) :
    (storeGeneValues fmt params ref c st i).attrs nei = st.attrs nei := by
  simp only [storeGeneValues, store_appendSupport_attrs]
  rw [store_putAttr_attrs_ne _ _ _ _ _ h, store_putAttr_attrs_ne _ _ _ _ _ h,
    store_putAttr_attrs_ne _ _ _ _ _ h, store_putAttr_attrs_ne _ _ _ _ _ h]

theorem storeGeneValues_attrs_self {S : Type} (fmt : Fmt) (params : Params) (ref : GeneRef S)
    (c : GeneCounts) (st : Store) (i : Nat) :
    geneStored c i ((storeGeneValues fmt params ref c st i).attrs
      ((ref.branches.getD i (0, 0)).2, (ref.branches.getD i (0, 0)).1)) := by
  simp only [storeGeneValues, store_appendSupport_attrs, store_putAttr_attrs_self, geneStored]
  refine ⟨?_, ?_, ?_, ?_⟩
  · rw [getAttr_putAttr_ne _ _ _ _ (by decide), getAttr_putAttr_ne _ _ _ _ (by decide),
      getAttr_putAttr_ne _ _ _ _ (by decide), getAttr_putAttr_self]
  · rw [getAttr_putAttr_ne _ _ _ _ (by decide), getAttr_putAttr_ne _ _ _ _ (by decide),
      getAttr_putAttr_self]
  · rw [getAttr_putAttr_ne _ _ _ _ (by decide), getAttr_putAttr_self]
  · rw [getAttr_putAttr_self]

theorem nei_ne_of_nodup (branches : List (Nat × Nat)) (hnd : branches.Nodup) (i j : Nat)
    (hi : i < branches.length) (hj : j < branches.length) (hij : i ≠ j) :
    ((branches.getD i (0, 0)).2, (branches.getD i (0, 0)).1) ≠
      ((branches.getD j (0, 0)).2, (branches.getD j (0, 0)).1) := by
  intro h
  have h1 : branches.getD i (0, 0) = branches.getD j (0, 0) := by
    have := congrArg Prod.fst h
    have := congrArg Prod.snd h
    exact Prod.ext (by simp_all) (by simp_all)
  rw [List.getD_eq_getElem _ _ hi, List.getD_eq_getElem _ _ hj] at h1
  exact hij ((List.Nodup.getElem_inj_iff hnd).mp h1)

theorem geneFold_attrs {S : Type} (fmt : Fmt) (params : Params) (ref : GeneRef S)
    (c : GeneCounts) (st : Store) (hnd : ref.branches.Nodup) (i : Nat)
    (hi : i < ref.branches.length) (m : Nat) (hm : m ≤ ref.branches.length) (him : i < m) :
    geneStored c i (((List.range m).foldl (storeGeneValues fmt params ref c) st).attrs
      ((ref.branches.getD i (0, 0)).2, (ref.branches.getD i (0, 0)).1)) := by
  induction m with
  | zero => omega
  | succ m ih =>
    simp only [List.range_succ, List.foldl_append, List.foldl_cons, List.foldl_nil]
    by_cases he : i = m
    · subst he
      exact storeGeneValues_attrs_self fmt params ref c _ i
    · rw [storeGeneValues_attrs_ne fmt params ref c _ m _
        (nei_ne_of_nodup ref.branches hnd i m hi (by omega) he)]
      exact ih (by omega) (by omega)

theorem percent_some (x n : ℚ) (hn : n ≠ 0) :
    percent (some x) (some n) = some ((cround (x / n * 10000) : ℚ) / 100) := by
  simp [percent, ddiv, dmul, dround, hn]

theorem percent_zero (x : Double) : percent x (some 0) = none := by
  cases x <;> simp [percent, ddiv, dmul, dround]

theorem cround_zero : cround 0 = 0 := by
  simp only [cround, le_refl, if_true, zero_add]
  rw [Int.floor_eq_iff]
  constructor <;> norm_num

theorem cround_intCast (z : ℤ) (hz : 0 ≤ z) : cround (z : ℚ) = z := by
  have h0 : (0 : ℚ) ≤ (z : ℚ) := by exact_mod_cast hz
  simp only [cround, h0, if_true]
  rw [Int.floor_eq_iff]
  constructor <;> linarith

/-- C3. One comparison tree in `computeGeneConcordance`, with taxon mask `M` and split set
`H`, and an internal reference branch `id` with quadrants `Q0 .. Q3`. If every quadrant
overlaps `M` then `decisive_counts[id]` grows by exactly 1, and for each `i < 3`
`supports[i][id]` grows by exactly 1 when the restriction to `M` of `Q0 ∪ Q(i+1)`,
inverted when `shouldInvert` holds, is a member of `H`, and is unchanged when it is not.
If some quadrant does not overlap `M` then `decisive_counts[id]` and `supports[0..2][id]`
are all unchanged. -/
theorem processTree_counts {S : Type} [DecidableEq S] (lib : SplitLib S) (fmt : Fmt)
    (params : Params) (ref : GeneRef S) (treeid : Nat) (tree : MTree S) (c c' : GeneCounts)
    (M : S) (id : Nat)
    (hq : ref.subtrees.length = 4 * ref.branches.length)
    (hc : c.shaped ref.branches.length) (hid : id < ref.branches.length)
    (hM : treeMask lib ref tree = .ok M)
    (hp : processTree lib fmt params ref (buildNameMap 0 ref.names []) treeid tree c = .ok c') :
    let H := tree.convertSplits (orderedNames lib ref M)
    let decisive := ∀ i, i < 4 → lib.overlap M (quadrant lib ref (4 * id) i) = true
    let grouping := fun i =>
      let restricted := lib.extractSubSplit
        (lib.union (quadrant lib ref (4 * id) 0) (quadrant lib ref (4 * id) (i + 1))) M
      if lib.shouldInvert restricted then lib.invert restricted else restricted
    (decisive → c'.decisive id = c.decisive id + 1) ∧
    (¬ decisive → c'.decisive id = c.decisive id ∧
      ∀ i, i < 3 → c'.support i id = c.support i id) ∧
    (decisive → ∀ i, i < 3 →
      (grouping i ∈ H → c'.support i id = c.support i id + 1) ∧
      (grouping i ∉ H → c'.support i id = c.support i id)) := by
  intro H decisive grouping
  obtain ⟨M', hM', _, rfl⟩ := processTree_ok lib fmt params ref treeid tree c c' hp
  rw [hM] at hM'
  injection hM' with hM'
  subst hM'
  have := scanBranches_spec lib fmt params ref M H treeid c hq hc
  simp only at this
  obtain ⟨_, h2, h3⟩ := this
  have hdec : isDecisive lib ref M (4 * id) = true ↔ decisive := isDecisive_iff lib ref M _
  refine ⟨fun hd => ?_, fun hd => ⟨?_, fun i hi => ?_⟩, fun hd i hi => ⟨fun hg => ?_, fun hg => ?_⟩⟩
  · rw [h2 id hid, if_pos (hdec.mpr hd)]
  · rw [h2 id hid, if_neg (fun h => hd (hdec.mp h)), add_zero]
  · rw [h3 i id hi hid, if_neg (fun h => hd (hdec.mp h.1)), add_zero]
  · rw [h3 i id hi hid, if_pos ⟨hdec.mpr hd, hg⟩]
  · rw [h3 i id hi hid, if_neg (fun h => hg h.2), add_zero]

/-- C3, witness: `exTreeACBD` is decisive for the branch of `exRef`. -/
theorem processTree_counts_witness :
    GeneCounts.decisive
        { decisive_counts := [1], supports := [[0], [1], [0]], occurence_trees := [] } 0 =
      (initialCounts exParams 1).decisive 0 + 1 :=
  (processTree_counts bitLib exFmt exParams exRef 0 exTreeACBD (initialCounts exParams 1)
    { decisive_counts := [1], supports := [[0], [1], [0]], occurence_trees := [] }
    [true, true, true, true] 0 (by decide) (initialCounts_shaped exParams 1) (by decide)
    (by decide) (by decide)).1 (by decide)

theorem genePercent_eq (c : GeneCounts) (k i : Nat) (hd : c.decisive i ≠ 0) :
    genePercent c k i =
      some ((cround ((c.support k i : ℚ) / (c.decisive i : ℚ) * 10000) : ℚ) / 100) := by
  unfold genePercent
  rw [percent_some _ _ (by exact_mod_cast hd)]
  rfl

theorem computeGene_ok {S : Type} [DecidableEq S] (lib : SplitLib S) (fmt : Fmt)
    (params : Params) (ref : GeneRef S) (trees : List (MTree S)) (st : Store) (c : GeneCounts)
    (hc : finalCounts lib fmt params ref trees = .ok c) :
    (computeGeneConcordance lib fmt params ref trees st).error = none ∧
    (computeGeneConcordance lib fmt params ref trees st).store.attrs =
      ((List.range ref.branches.length).foldl (storeGeneValues fmt params ref c) st).attrs := by
  unfold finalCounts at hc
  unfold computeGeneConcordance
  simp only [hc, store_insertMeaning_attrs, and_self]

theorem computeGene_stored {S : Type} [DecidableEq S] (lib : SplitLib S) (fmt : Fmt)
    (params : Params) (ref : GeneRef S) (trees : List (MTree S)) (st : Store) (c : GeneCounts)
    (i : Nat) (hnd : ref.branches.Nodup) (hi : i < ref.branches.length)
    (hc : finalCounts lib fmt params ref trees = .ok c) :
    geneStored c i ((computeGeneConcordance lib fmt params ref trees st).store.attrs
      ((ref.branches.getD i (0, 0)).2, (ref.branches.getD i (0, 0)).1)) := by
  rw [(computeGene_ok lib fmt params ref trees st c hc).2]
  exact geneFold_attrs fmt params ref c st hnd i hi _ (le_refl _) hi

theorem lookup_buildNameMap (names : List String) (i : Nat) (m : List (String × Nat))
    (n : String) :
    (buildNameMap i names m).lookup n = none ↔ n ∉ names ∧ m.lookup n = none := by
  induction names generalizing i m with
  | nil => simp [buildNameMap]
  | cons x xs ih =>
    simp only [buildNameMap, ih, List.lookup_cons, List.mem_cons, not_or]
    by_cases h : n = x
    · subst h; simp
    · have : (n == x) = false := by simpa using h
      simp [this, h, and_comm]

theorem buildMask_missing {S : Type} (lib : SplitLib S) (names : List String)
    (taxname : List String) (mask : S) (m : String)
    (h : taxname.find? (fun n => decide (n ∉ names)) = some m) :
    buildMask lib (buildNameMap 0 names []) taxname mask = .error (taxonNotFound m) := by
  induction taxname generalizing mask with
  | nil => simp at h
  | cons x xs ih =>
    simp only [buildMask]
    by_cases hx : x ∈ names
    · have hl : (buildNameMap 0 names []).lookup x ≠ none := by
        rw [Ne, lookup_buildNameMap]; simp [hx]
      obtain ⟨id, hid⟩ := Option.ne_none_iff_exists'.mp hl
      rw [hid]
      simp only []
      apply ih
      rw [List.find?_cons_of_neg _ (by simpa using hx)] at h
      exact h
    · have hl : (buildNameMap 0 names []).lookup x = none := by
        rw [lookup_buildNameMap]; simp [hx]
      rw [hl]
      rw [List.find?_cons_of_pos _ (by simpa using hx)] at h
      injection h with h
      rw [h]

theorem processTree_missing {S : Type} [DecidableEq S] (lib : SplitLib S) (fmt : Fmt)
    (params : Params) (ref : GeneRef S) (treeid : Nat) (tree : MTree S) (c : GeneCounts)
    (m : String) (h : tree.taxname.find? (fun n => decide (n ∉ ref.names)) = some m) :
    processTree lib fmt params ref (buildNameMap 0 ref.names []) treeid tree c =
      .error (taxonNotFound m) := by
  unfold processTree
  rw [buildMask_missing lib ref.names tree.taxname _ m h]

theorem treeLoop_missing {S : Type} [DecidableEq S] (lib : SplitLib S) (fmt : Fmt)
    (params : Params) (ref : GeneRef S) (pre post : List (MTree S)) (tree : MTree S)
    (treeid : Nat) (c : GeneCounts) (m : String)
    (hpre : ∀ t, t ∈ pre → ∀ k c, ∃ c',
      processTree lib fmt params ref (buildNameMap 0 ref.names []) k t c = .ok c')
    (h : tree.taxname.find? (fun n => decide (n ∉ ref.names)) = some m) :
    treeLoop lib fmt params ref (buildNameMap 0 ref.names []) treeid (pre ++ tree :: post) c =
      .error (taxonNotFound m) := by
  induction pre generalizing treeid c with
  | nil =>
    simp only [List.nil_append, treeLoop]
    rw [processTree_missing lib fmt params ref treeid tree c m h]
  | cons t rest ih =>
    obtain ⟨c1, hc1⟩ := hpre t (List.mem_cons_self _ _) treeid c
    simp only [List.cons_append, treeLoop]
    rw [hc1]
    exact ih (treeid + 1) c1 (fun t' ht' => hpre t' (List.mem_cons_of_mem _ ht'))

/-- C7. When a comparison tree has a taxon name that is not among the reference names,
and every tree before it was processed successfully, `computeGeneConcordance` aborts with
`Taxon not found in full tree: ` followed by such a name of that tree, and the store is
the one it started from: no attribute is written and no node label is changed. -/
theorem computeGeneConcordance_unknown_taxon {S : Type} [DecidableEq S] (lib : SplitLib S)
    (fmt : Fmt) (params : Params) (ref : GeneRef S) (pre post : List (MTree S))
    (tree : MTree S) (name : String) (st : Store)
    (hpre : ∀ t, t ∈ pre → ∀ k c, ∃ c',
      processTree lib fmt params ref (buildNameMap 0 ref.names []) k t c = .ok c')
    (hname : name ∈ tree.taxname) (hmiss : name ∉ ref.names) :
    ∃ m, m ∈ tree.taxname ∧ m ∉ ref.names ∧
      computeGeneConcordance lib fmt params ref (pre ++ tree :: post) st =
        { store := st, error := some (taxonNotFound m) } := by
  cases hf : tree.taxname.find? (fun n => decide (n ∉ ref.names)) with
  | none =>
    rw [List.find?_eq_none] at hf
    have := hf name hname
    simp [hmiss] at this
  | some m =>
    refine ⟨m, List.mem_of_find?_eq_some hf, ?_, ?_⟩
    · simpa using List.find?_some hf
    · unfold computeGeneConcordance
      simp only [treeLoop_missing lib fmt params ref pre post tree 0 _ m hpre hf]

/-- C7, witness: the tree set `exTreeACBD, exTreeABCE, exTreeABC`; the second tree has
the unknown taxon `E`. -/
theorem computeGeneConcordance_unknown_taxon_witness :
    ∃ m, m ∈ exTreeABCE.taxname ∧ m ∉ exRef.names ∧
      computeGeneConcordance bitLib exFmt exParams exRef
          ([exTreeACBD] ++ exTreeABCE :: [exTreeABC]) exStore =
        { store := exStore, error := some (taxonNotFound m) } :=
  computeGeneConcordance_unknown_taxon bitLib exFmt exParams exRef [exTreeACBD] [exTreeABC]
    exTreeABCE "E" exStore
    (fun t ht k c => by
      rw [List.mem_singleton] at ht
      subst ht
      exact ⟨_, rfl⟩)
    (by decide) (by decide)

/-! ### the sampling loop -/

theorem tallySum_mod (d : Nat × Nat × Nat) (h : tallySum d < SIZE_T) :
    ((d.1 + d.2.1) % SIZE_T + d.2.2) % SIZE_T = tallySum d := by
  unfold tallySum at *
  have h1 : d.1 + d.2.1 < SIZE_T := by omega
  rw [Nat.mod_eq_of_lt h1, Nat.mod_eq_of_lt h]

theorem accumulate_support {R : Type} (acc : SiteAcc R) (r : R) (support : List Nat) :
    (accumulate acc r support).support = support := by
  unfold accumulate
  simp only []
  split_ifs <;> rfl

theorem accumulate_sum_sites {R : Type} (acc : SiteAcc R) (r : R) (support : List Nat)
    (hfit : tallySum (tallyOf support) < SIZE_T) :
    (accumulate acc r support).sum_sites =
      (acc.sum_sites + tallySum (tallyOf support)) % SIZE_T := by
  have hs := tallySum_mod (tallyOf support) hfit
  unfold tallyOf at hs
  unfold accumulate
  simp only [hs]
  split_ifs <;> rfl

theorem accumulate_fractions {R : Type} (acc : SiteAcc R) (r : R) (support : List Nat)
    (x0 x1 x2 : ℚ) (h0 : acc.sCF = some x0) (h1 : acc.sDF1 = some x1) (h2 : acc.sDF2 = some x2)
    (hfit : tallySum (tallyOf support) < SIZE_T) :
    (accumulate acc r support).sCF = some (x0 + share 0 (tallyOf support)) ∧
    (accumulate acc r support).sDF1 = some (x1 + share 1 (tallyOf support)) ∧
    (accumulate acc r support).sDF2 = some (x2 + share 2 (tallyOf support)) := by
  have hs := tallySum_mod (tallyOf support) hfit
  unfold tallyOf at hs
  unfold accumulate share
  simp only [hs]
  by_cases hp : tallySum (tallyOf support) > 0
  · have hne : ((tallySum (tallyOf support) : ℕ) : ℚ) ≠ 0 := by
      exact_mod_cast (Nat.pos_iff_ne_zero.mp hp)
    have hp' : tallySum (support.getD 0 0, support.getD 1 0, support.getD 2 0) > 0 := hp
    have hne' : ((tallySum (support.getD 0 0, support.getD 1 0, support.getD 2 0) : ℕ) : ℚ) ≠ 0 :=
      hne
    rw [if_pos hp', if_pos hp, if_pos hp, if_pos hp]
    simp only [h0, h1, h2, dadd, ddiv, Option.some_bind, Option.map_some', if_neg hne']
    exact ⟨rfl, rfl, rfl⟩
  · have hp' : ¬ tallySum (support.getD 0 0, support.getD 1 0, support.getD 2 0) > 0 := hp
    rw [if_neg hp', if_neg hp, if_neg hp, if_neg hp]
    simp only [h0, h1, h2, add_zero, and_self]

theorem siteIter_support_tally {R : Type} (classify : List Nat → List Nat → List Nat)
    (random_int : Nat → R → Nat × R) (taxa : List (List Nat)) (acc : SiteAcc R) :
    ((siteIter classify random_int taxa acc).support.getD 0 0,
      (siteIter classify random_int taxa acc).support.getD 1 0,
      (siteIter classify random_int taxa acc).support.getD 2 0) =
    tallyOf (siteIter classify random_int taxa acc).support := rfl

theorem siteLoop_spec {R : Type} (classify : List Nat → List Nat → List Nat)
    (random_int : Nat → R → Nat × R) (taxa : List (List Nat)) (n : Nat) (acc : SiteAcc R)
    (x0 x1 x2 : ℚ) (h0 : acc.sCF = some x0) (h1 : acc.sDF1 = some x1) (h2 : acc.sDF2 = some x2)
    (hfit : ∀ d, d ∈ siteDraws classify random_int taxa n acc → tallySum d < SIZE_T) :
    (siteLoop classify random_int taxa n acc).sCF =
      some (x0 + fracSum 0 (siteDraws classify random_int taxa n acc)) ∧
    (siteLoop classify random_int taxa n acc).sDF1 =
      some (x1 + fracSum 1 (siteDraws classify random_int taxa n acc)) ∧
    (siteLoop classify random_int taxa n acc).sDF2 =
      some (x2 + fracSum 2 (siteDraws classify random_int taxa n acc)) ∧
    (acc.sum_sites + totalSites (siteDraws classify random_int taxa n acc) < SIZE_T →
      (siteLoop classify random_int taxa n acc).sum_sites =
        acc.sum_sites + totalSites (siteDraws classify random_int taxa n acc)) := by
  induction n generalizing acc x0 x1 x2 with
  | zero => simp [siteDraws, siteLoop, fracSum, totalSites, h0, h1, h2]
  | succ n ih =>
    simp only [siteDraws, siteLoop, fracSum, totalSites, siteIter_support_tally]
    simp only [siteDraws, List.mem_cons, forall_eq_or_imp, siteIter_support_tally] at hfit
    obtain ⟨hd, hrest⟩ := hfit
    have hsup : (siteIter classify random_int taxa acc).support =
        classify (drawQuartet random_int taxa acc.rstream).1 (resetSupport acc.support) :=
      accumulate_support _ _ _
    rw [hsup] at hd
    obtain ⟨a0, a1, a2⟩ := accumulate_fractions acc (drawQuartet random_int taxa acc.rstream).2
      (classify (drawQuartet random_int taxa acc.rstream).1 (resetSupport acc.support))
      x0 x1 x2 h0 h1 h2 hd
    have hsum := accumulate_sum_sites acc (drawQuartet random_int taxa acc.rstream).2
      (classify (drawQuartet random_int taxa acc.rstream).1 (resetSupport acc.support)) hd
    obtain ⟨i0, i1, i2, isum⟩ := ih (siteIter classify random_int taxa acc) _ _ _ a0 a1 a2 hrest
    rw [hsup]
    refine ⟨by rw [i0, add_assoc], by rw [i1, add_assoc], by rw [i2, add_assoc], fun hlt => ?_⟩
    have hs' : (siteIter classify random_int taxa acc).sum_sites = acc.sum_sites +
        tallySum (tallyOf (classify (drawQuartet random_int taxa acc.rstream).1
          (resetSupport acc.support))) := by
      have : (siteIter classify random_int taxa acc).sum_sites = _ := hsum
      rw [this, Nat.mod_eq_of_lt (by omega)]
    rw [isum (by rw [hs']; omega), hs']
    omega

theorem siteDraws_length {R : Type} (classify : List Nat → List Nat → List Nat)
    (random_int : Nat → R → Nat × R) (taxa : List (List Nat)) (n : Nat) (acc : SiteAcc R) :
    (siteDraws classify random_int taxa n acc).length = n := by
  induction n generalizing acc with
  | zero => rfl
  | succ n ih => simp [siteDraws, ih]

theorem le_totalSites (draws : List (Nat × Nat × Nat)) (d : Nat × Nat × Nat) (h : d ∈ draws) :
    tallySum d ≤ totalSites draws := by
  induction draws with
  | nil => simp at h
  | cons x xs ih =>
    simp only [totalSites]
    rcases List.mem_cons.mp h with h | h
    · subst h; omega
    · have := ih h; omega

/-! ### counter vector sizes -/

theorem superLoop_length (ti : Nat → Nat → Int) (flag : Bool) (q : List Nat)
    (parts : List Alignment) (part : Nat) (s : List Nat) :
    (superLoop ti flag q part parts s).length = s.length := by
  induction parts generalizing part s with
  | nil => rfl
  | cons a rest ih => simp only [superLoop, ih, superStep_length]

theorem aln_computeQuartetSupports_length (aln : Aln) (flag : Bool) (q s : List Nat) :
    (aln.computeQuartetSupports flag q s).length = s.length := by
  cases aln with
  | single a => exact computeQuartetSupports_length a q s
  | super sa => exact superLoop_length _ _ _ _ _ _

theorem siteLoop_support_length {R : Type} (classify : List Nat → List Nat → List Nat)
    (random_int : Nat → R → Nat × R) (taxa : List (List Nat))
    (hcl : ∀ q s, (classify q s).length = s.length) (n : Nat) (acc : SiteAcc R) :
    (siteLoop classify random_int taxa n acc).support.length = acc.support.length := by
  induction n generalizing acc with
  | zero => rfl
  | succ n ih =>
    simp only [siteLoop]
    rw [ih, siteIter, accumulate_support, hcl]
    simp [resetSupport]

/-! ### reading the stored attributes back -/

theorem partitionKey_ne (fmt : Fmt) (i : Nat)
    (hF : fmt.convertIntToString ((i / 3 : Nat) : Int) ≠ "F") :
    partitionKey fmt i ≠ "sCF" ∧ partitionKey fmt i ≠ "sN" ∧ partitionKey fmt i ≠ "sDF1" ∧
      partitionKey fmt i ≠ "sDF2" := by
  have hdata : ∀ a b : String, a = b → a.data = b.data := fun a b h => by rw [h]
  have hF' : (fmt.convertIntToString ((i / 3 : Nat) : Int)).data ≠ ['F'] := by
    intro h
    apply hF
    exact String.ext h
  unfold partitionKey
  refine ⟨fun h => ?_, fun h => ?_, fun h => ?_, fun h => ?_⟩ <;>
    · have h' := hdata _ _ h
      rw [String.data_append] at h'
      split_ifs at h' <;> simp_all

theorem putPartitionAttrs_getAttr (fmt : Fmt) (nquartets : Nat) (support : List Nat)
    (nei : Nat × Nat) (st : Store) (key : String)
    (hkey : ∀ k, k < support.length - 3 → partitionKey fmt (k + 3) ≠ key) :
    getAttr ((putPartitionAttrs fmt nquartets support nei st).attrs nei) key =
      getAttr (st.attrs nei) key := by
  unfold putPartitionAttrs
  generalize support.length - 3 = m at hkey
  induction m with
  | zero => rfl
  | succ m ih =>
    simp only [List.range_succ, List.foldl_append, List.foldl_cons, List.foldl_nil]
    rw [store_putAttr_attrs_self, getAttr_putAttr_ne _ _ _ _ (Ne.symm (hkey m (by omega)))]
    exact ih (fun k hk => hkey k (by omega))

/-- The four attributes of lines 136-139 as read back from the final store. -/
theorem storeSiteValues_getAttr {R : Type} (fmt : Fmt) (nquartets : Nat) (branch : Nat × Nat)
    (acc : SiteAcc R) (st : Store)
    (hfmt : ∀ i, 3 ≤ i → i < acc.support.length →
      fmt.convertIntToString ((i / 3 : Nat) : Int) ≠ "F") :
    let attrs := (storeSiteValues fmt nquartets branch acc st).attrs (branch.2, branch.1)
    getAttr attrs "sCF" = some (.dbl (percent acc.sCF (some (nquartets : ℚ)))) ∧
    getAttr attrs "sN" =
      some (.dbl (ddiv (some (acc.sum_sites : ℚ)) (some (nquartets : ℚ)))) ∧
    getAttr attrs "sDF1" = some (.dbl (percent acc.sDF1 (some (nquartets : ℚ)))) ∧
    getAttr attrs "sDF2" = some (.dbl (percent acc.sDF2 (some (nquartets : ℚ)))) := by
  intro attrs
  have hk : ∀ k, k < acc.support.length - 3 →
      partitionKey fmt (k + 3) ≠ "sCF" ∧ partitionKey fmt (k + 3) ≠ "sN" ∧
      partitionKey fmt (k + 3) ≠ "sDF1" ∧ partitionKey fmt (k + 3) ≠ "sDF2" :=
    fun k hk => partitionKey_ne fmt (k + 3) (hfmt (k + 3) (by omega) (by omega))
  simp only [attrs, storeSiteValues]
  refine ⟨?_, ?_, ?_, ?_⟩
  · rw [putPartitionAttrs_getAttr _ _ _ _ _ _ (fun k h => (hk k h).1)]
    simp only [store_putAttr_attrs_self]
    rw [getAttr_putAttr_ne _ _ _ _ (by decide), getAttr_putAttr_ne _ _ _ _ (by decide),
      getAttr_putAttr_ne _ _ _ _ (by decide), getAttr_putAttr_self]
  · rw [putPartitionAttrs_getAttr _ _ _ _ _ _ (fun k h => (hk k h).2.1)]
    simp only [store_putAttr_attrs_self]
    rw [getAttr_putAttr_ne _ _ _ _ (by decide), getAttr_putAttr_ne _ _ _ _ (by decide),
      getAttr_putAttr_self]
  · rw [putPartitionAttrs_getAttr _ _ _ _ _ _ (fun k h => (hk k h).2.2.1)]
    simp only [store_putAttr_attrs_self]
    rw [getAttr_putAttr_ne _ _ _ _ (by decide), getAttr_putAttr_self]
  · rw [putPartitionAttrs_getAttr _ _ _ _ _ _ (fun k h => (hk k h).2.2.2)]
    simp only [store_putAttr_attrs_self]
    rw [getAttr_putAttr_self]

/-! ### rounding and shares -/

theorem cround_nonneg (u : ℚ) (h : 0 ≤ u) : 0 ≤ cround u := by
  simp only [cround, h, if_true]
  exact Int.floor_nonneg.mpr (by linarith)

theorem cround_le_of_le (u : ℚ) (K : ℤ) (h : 0 ≤ u) (hK : u ≤ K) : cround u ≤ K := by
  simp only [cround, h, if_true]
  have : ⌊u + 1 / 2⌋ < K + 1 := by
    rw [Int.floor_lt]
    push_cast
    linarith
  omega

theorem cround_eq (u : ℚ) (z : ℤ) (h0 : 0 ≤ u) (h1 : (z : ℚ) ≤ u + 1 / 2)
    (h2 : u + 1 / 2 < (z : ℚ) + 1) : cround u = z := by
  simp only [cround, h0, if_true]
  exact Int.floor_eq_iff.mpr ⟨h1, h2⟩

theorem share_nonneg (j : Nat) (d : Nat × Nat × Nat) : 0 ≤ share j d := by
  unfold share
  split_ifs
  · positivity
  · exact le_refl _

theorem share_total (d : Nat × Nat × Nat) : share 0 d + share 1 d + share 2 d ≤ 1 := by
  unfold share
  split_ifs with h
  · have hne : ((tallySum d : ℕ) : ℚ) ≠ 0 := by exact_mod_cast (Nat.pos_iff_ne_zero.mp h)
    rw [← add_div, ← add_div, div_le_one (by positivity)]
    simp only [tallyGet, tallySum]
    norm_num
  · norm_num

theorem fracSum_nonneg (j : Nat) (draws : List (Nat × Nat × Nat)) : 0 ≤ fracSum j draws := by
  induction draws with
  | nil => exact le_refl _
  | cons d ds ih =>
    simp only [fracSum]
    exact add_nonneg (share_nonneg j d) ih

theorem fracSum_total (draws : List (Nat × Nat × Nat)) :
    fracSum 0 draws + fracSum 1 draws + fracSum 2 draws ≤ (draws.length : ℚ) := by
  induction draws with
  | nil => simp [fracSum]
  | cons d ds ih =>
    simp only [fracSum, List.length_cons, Nat.cast_add, Nat.cast_one]
    have := share_total d
    linarith

theorem fracSum_le (j : Nat) (hj : j < 3) (draws : List (Nat × Nat × Nat)) :
    fracSum j draws ≤ (draws.length : ℚ) := by
  have h0 := fracSum_nonneg 0 draws
  have h1 := fracSum_nonneg 1 draws
  have h2 := fracSum_nonneg 2 draws
  have ht := fracSum_total draws
  interval_cases j <;> linarith

/-! ### the values stored for one branch -/

theorem initialAcc_support_length {R : Type} (params : Params) (tree : PhyloTree) (r : R) :
    (initialAcc params tree r).support = initialSupport params tree := rfl

/-- The stored site attributes in terms of the tallies of the draws. -/
theorem site_stored {R : Type} (tree : PhyloTree) (params : Params) (fmt : Fmt)
    (random_int : Nat → R → Nat × R) (branch : Nat × Nat) (N : Nat) (rstream : R) (st : Store)
    (taxa : List (List Nat)) (hN : 0 < N)
    (htaxa : tree.extractTaxa branch = .ok taxa)
    (hfit : ∀ d, d ∈ siteDraws (tree.aln.computeQuartetSupports params.site_concordance_partition)
      random_int taxa N (initialAcc params tree rstream) → tallySum d < SIZE_T)
    (hfmt : ∀ i, 3 ≤ i → i < (initialSupport params tree).length →
      fmt.convertIntToString ((i / 3 : Nat) : Int) ≠ "F") :
    let draws := siteDraws (tree.aln.computeQuartetSupports params.site_concordance_partition)
      random_int taxa N (initialAcc params tree rstream)
    let out := (tree.computeSiteConcordanceBranch params fmt random_int branch N rstream st).1
    let attrs := out.store.attrs (branch.2, branch.1)
    out.error = none ∧
    getAttr attrs "sCF" =
      some (.dbl (some ((cround (fracSum 0 draws / (N : ℚ) * 10000) : ℚ) / 100))) ∧
    getAttr attrs "sDF1" =
      some (.dbl (some ((cround (fracSum 1 draws / (N : ℚ) * 10000) : ℚ) / 100))) ∧
    getAttr attrs "sDF2" =
      some (.dbl (some ((cround (fracSum 2 draws / (N : ℚ) * 10000) : ℚ) / 100))) ∧
    (totalSites draws < SIZE_T →
      getAttr attrs "sN" = some (.dbl (some ((totalSites draws : ℚ) / (N : ℚ))))) := by
  intro draws out attrs
  have hNq : ((N : ℕ) : ℚ) ≠ 0 := by exact_mod_cast (Nat.pos_iff_ne_zero.mp hN)
  obtain ⟨l0, l1, l2, lsum⟩ := siteLoop_spec
    (tree.aln.computeQuartetSupports params.site_concordance_partition) random_int taxa N
    (initialAcc params tree rstream) 0 0 0 rfl rfl rfl hfit
  have hlen := siteLoop_support_length
    (tree.aln.computeQuartetSupports params.site_concordance_partition) random_int taxa
    (fun q s => aln_computeQuartetSupports_length tree.aln _ q s) N
    (initialAcc params tree rstream)
  rw [initialAcc_support_length] at hlen
  have hst := storeSiteValues_getAttr fmt N branch
    (siteLoop (tree.aln.computeQuartetSupports params.site_concordance_partition) random_int
      taxa N (initialAcc params tree rstream)) st (by rw [hlen]; exact hfmt)
  simp only at hst
  obtain ⟨s0, sn, s1, s2⟩ := hst
  have hstore : out.store = storeSiteValues fmt N branch
      (siteLoop (tree.aln.computeQuartetSupports params.site_concordance_partition) random_int
        taxa N (initialAcc params tree rstream)) st := by
    simp only [out, PhyloTree.computeSiteConcordanceBranch, htaxa]
  have herr : out.error = none := by
    simp only [out, PhyloTree.computeSiteConcordanceBranch, htaxa]
  simp only [attrs, hstore]
  rw [l0, percent_some _ _ hNq, zero_add] at s0
  rw [l1, percent_some _ _ hNq, zero_add] at s1
  rw [l2, percent_some _ _ hNq, zero_add] at s2
  refine ⟨herr, s0, s1, s2, fun htot => ?_⟩
  have hz : (initialAcc params tree rstream).sum_sites = 0 := rfl
  rw [lsum (by rw [hz, zero_add]; exact htot), hz, zero_add] at sn
  rw [sn]
  simp [ddiv, hNq]

/-! ### draws that all support the first grouping -/

theorem fracSum_all_first (draws : List (Nat × Nat × Nat))
    (h : ∀ d, d ∈ draws → d = (1, 0, 0)) :
    fracSum 0 draws = (draws.length : ℚ) ∧ fracSum 1 draws = 0 ∧ fracSum 2 draws = 0 ∧
      totalSites draws = draws.length := by
  induction draws with
  | nil => simp [fracSum, totalSites]
  | cons d ds ih =>
    obtain ⟨i0, i1, i2, it⟩ := ih (fun x hx => h x (List.mem_cons_of_mem _ hx))
    have hd := h d (List.mem_cons_self _ _)
    subst hd
    simp only [fracSum, totalSites, i0, i1, i2, it, List.length_cons]
    refine ⟨?_, ?_, ?_, ?_⟩
    · simp [share, tallySum, tallyGet]; ring
    · simp [share, tallySum, tallyGet]
    · simp [share, tallySum, tallyGet]
    · simp [tallySum]; ring

/-- C10. For `N > 0`, on a branch whose taxon groups are extracted without error and with
tallies whose sums fit `size_t`, each of the stored `sCF`, `sDF1`, `sDF2` lies in the
closed interval from 0 to 100. -/
theorem site_factors_range {R : Type} (tree : PhyloTree) (params : Params)
    (fmt : Fmt) (random_int : Nat → R → Nat × R) (branch : Nat × Nat) (N : Nat) (rstream : R)
    (st : Store) (taxa : List (List Nat)) (hN : 0 < N)
    (htaxa : tree.extractTaxa branch = .ok taxa)
    (hfit : ∀ d, d ∈ siteDraws (tree.aln.computeQuartetSupports params.site_concordance_partition)
      random_int taxa N (initialAcc params tree rstream) → tallySum d < SIZE_T)
    (hfmt : ∀ i, 3 ≤ i → i < (initialSupport params tree).length →
      fmt.convertIntToString ((i / 3 : Nat) : Int) ≠ "F") :
    let out := (tree.computeSiteConcordanceBranch params fmt random_int branch N rstream st).1
    let attrs := out.store.attrs (branch.2, branch.1)
    ∃ sCF sDF1 sDF2 : ℚ,
      getAttr attrs "sCF" = some (.dbl (some sCF)) ∧
      getAttr attrs "sDF1" = some (.dbl (some sDF1)) ∧
      getAttr attrs "sDF2" = some (.dbl (some sDF2)) ∧
      (0 ≤ sCF ∧ sCF ≤ 100) ∧ (0 ≤ sDF1 ∧ sDF1 ≤ 100) ∧ (0 ≤ sDF2 ∧ sDF2 ≤ 100) := by
  intro out attrs
  obtain ⟨_, s0, s1, s2, _⟩ := site_stored tree params fmt random_int branch N rstream st
    taxa hN htaxa hfit hfmt
  have hNq : (0 : ℚ) < (N : ℚ) := by exact_mod_cast hN
  have hlen := siteDraws_length (tree.aln.computeQuartetSupports
    params.site_concordance_partition) random_int taxa N (initialAcc params tree rstream)
  have key : ∀ j, j < 3 →
      0 ≤ ((cround (fracSum j (siteDraws (tree.aln.computeQuartetSupports
        params.site_concordance_partition) random_int taxa N
        (initialAcc params tree rstream)) / (N : ℚ) * 10000) : ℤ) : ℚ) / 100 ∧
      ((cround (fracSum j (siteDraws (tree.aln.computeQuartetSupports
        params.site_concordance_partition) random_int taxa N
        (initialAcc params tree rstream)) / (N : ℚ) * 10000) : ℤ) : ℚ) / 100 ≤ 100 := by
    intro j hj
    have h0 := fracSum_nonneg j (siteDraws (tree.aln.computeQuartetSupports
      params.site_concordance_partition) random_int taxa N (initialAcc params tree rstream))
    have h1 := fracSum_le j hj (siteDraws (tree.aln.computeQuartetSupports
      params.site_concordance_partition) random_int taxa N (initialAcc params tree rstream))
    rw [hlen] at h1
    have hu0 : 0 ≤ fracSum j (siteDraws (tree.aln.computeQuartetSupports
        params.site_concordance_partition) random_int taxa N
        (initialAcc params tree rstream)) / (N : ℚ) * 10000 := by positivity
    have hu1 : fracSum j (siteDraws (tree.aln.computeQuartetSupports
        params.site_concordance_partition) random_int taxa N
        (initialAcc params tree rstream)) / (N : ℚ) * 10000 ≤ ((10000 : ℤ) : ℚ) := by
      have : fracSum j (siteDraws (tree.aln.computeQuartetSupports
        params.site_concordance_partition) random_int taxa N
        (initialAcc params tree rstream)) / (N : ℚ) ≤ 1 := (div_le_one hNq).mpr h1
      push_cast
      linarith
    have c0 := cround_nonneg _ hu0
    have c1 := cround_le_of_le _ 10000 hu0 hu1
    have c0' : (0 : ℚ) ≤ ((cround (fracSum j (siteDraws (tree.aln.computeQuartetSupports
        params.site_concordance_partition) random_int taxa N
        (initialAcc params tree rstream)) / (N : ℚ) * 10000) : ℤ) : ℚ) := by exact_mod_cast c0
    have c1' : ((cround (fracSum j (siteDraws (tree.aln.computeQuartetSupports
        params.site_concordance_partition) random_int taxa N
        (initialAcc params tree rstream)) / (N : ℚ) * 10000) : ℤ) : ℚ) ≤ 10000 := by
      exact_mod_cast c1
    constructor
    · positivity
    · linarith
  exact ⟨_, _, _, s0, s1, s2, key 0 (by decide), key 1 (by decide), key 2 (by decide)⟩

/-- C10, witness: one draw on the quartet tree over `exAlnMixed`. -/
theorem site_factors_range_witness :
    ∃ sCF sDF1 sDF2 : ℚ,
      getAttr (((exQuartetTree exAlnMixed).computeSiteConcordanceBranch exParams exFmt exRandom
        (4, 5) 1 0 exStore).1.store.attrs (5, 4)) "sCF" = some (.dbl (some sCF)) ∧
      getAttr (((exQuartetTree exAlnMixed).computeSiteConcordanceBranch exParams exFmt exRandom
        (4, 5) 1 0 exStore).1.store.attrs (5, 4)) "sDF1" = some (.dbl (some sDF1)) ∧
      getAttr (((exQuartetTree exAlnMixed).computeSiteConcordanceBranch exParams exFmt exRandom
        (4, 5) 1 0 exStore).1.store.attrs (5, 4)) "sDF2" = some (.dbl (some sDF2)) ∧
      (0 ≤ sCF ∧ sCF ≤ 100) ∧ (0 ≤ sDF1 ∧ sDF1 ≤ 100) ∧ (0 ≤ sDF2 ∧ sDF2 ≤ 100) :=
  site_factors_range (exQuartetTree exAlnMixed) exParams exFmt exRandom (4, 5) 1 0
    exStore [[0], [1], [2], [3]] (by decide) (by decide) (by decide)
    (fun i h3 hi => absurd hi (by
      have : (initialSupport exParams (exQuartetTree exAlnMixed)).length = 3 := by decide
      omega))

theorem extractSide_length (limit : Nat) (groups taxa taxa' : List (List Nat)) (id id' : Nat)
    (h : extractSide limit groups taxa id = .ok (taxa', id')) : taxa'.length = taxa.length := by
  induction groups generalizing taxa id with
  | nil =>
    simp only [extractSide] at h
    injection h with h
    injection h with h1 h2
    rw [← h1]
  | cons g gs ih =>
    simp only [extractSide] at h
    split_ifs at h
    rw [ih _ _ h, List.length_set]

theorem extractSide_spec (limit : Nat) (groups taxa : List (List Nat)) (id : Nat)
    (hid : id ≤ limit) (hlim : limit ≤ taxa.length) :
    (limit < id + groups.length → extractSide limit groups taxa id =
      .error (if limit < taxa.length then bifurcatingError else outOfRangeError)) ∧
    (id + groups.length ≤ limit →
      ∃ taxa', extractSide limit groups taxa id = .ok (taxa', id + groups.length)) := by
  induction groups generalizing taxa id with
  | nil =>
    simp only [extractSide, List.length_nil, Nat.add_zero]
    exact ⟨fun h => by omega, fun _ => ⟨taxa, rfl⟩⟩
  | cons g gs ih =>
    simp only [extractSide, List.length_cons]
    by_cases hr : taxa.length ≤ id
    · rw [if_pos hr, if_neg (by omega)]
      exact ⟨fun _ => rfl, fun h' => by omega⟩
    · rw [if_neg hr]
      by_cases h : id + 1 > limit
      · rw [if_pos h, if_pos (by omega)]
        exact ⟨fun _ => rfl, fun h' => by omega⟩
      · rw [if_neg h]
        obtain ⟨i1, i2⟩ := ih (taxa.set id (taxa.getD id [] ++ g)) (id + 1) (by omega)
          (by rw [List.length_set]; exact hlim)
        rw [List.length_set] at i1
        refine ⟨fun h' => i1 (by omega), fun h' => ?_⟩
        obtain ⟨t, ht⟩ := i2 (by omega)
        exact ⟨t, by rw [ht]; congr 2; omega⟩

theorem bifurcatingError_ne : bifurcatingError ≠ outOfRangeError := by decide

/-- What the extraction does, by the numbers of groups on the two sides: the fatal error
exactly when the first side has more than two groups; with at most two groups on the first
side and more than four in all, `taxa[4]` is accessed past the end of the vector before
the test `id > 4` of line 98 can fire. -/
theorem extractTaxa_error_iff (tree : PhyloTree) (branch : Nat × Nat) :
    (tree.extractTaxa branch = .error bifurcatingError ↔
      2 < (tree.otherNeighbors branch.1 branch.2).length) ∧
    (tree.extractTaxa branch = .error outOfRangeError ↔
      ((tree.otherNeighbors branch.1 branch.2).length ≤ 2 ∧
        4 < (tree.otherNeighbors branch.1 branch.2).length +
          (tree.otherNeighbors branch.2 branch.1).length)) := by
  have hne := bifurcatingError_ne
  unfold PhyloTree.extractTaxa
  simp only []
  obtain ⟨l1, l2⟩ := extractSide_spec 2
    ((tree.otherNeighbors branch.1 branch.2).map (fun n => tree.getTaxaID n branch.1))
    (List.replicate 4 []) 0 (by omega) (by simp)
  simp only [List.length_map, zero_add, List.length_replicate] at l1 l2
  by_cases hL : 2 < (tree.otherNeighbors branch.1 branch.2).length
  · rw [l1 hL, if_pos (by decide)]
    refine ⟨⟨fun _ => hL, fun _ => rfl⟩, ⟨fun h => ?_, fun h => by omega⟩⟩
    injection h with h
    exact absurd h hne
  · obtain ⟨taxa, ht⟩ := l2 (by omega)
    have hlen : taxa.length = 4 := by
      have := extractSide_length _ _ _ _ _ _ ht
      simpa using this
    rw [ht]
    simp only []
    obtain ⟨r1, r2⟩ := extractSide_spec 4
      ((tree.otherNeighbors branch.2 branch.1).map (fun n => tree.getTaxaID n branch.2))
      taxa (tree.otherNeighbors branch.1 branch.2).length (by omega) (by omega)
    simp only [List.length_map, hlen, Nat.lt_irrefl, if_false] at r1 r2
    by_cases hR : 4 < (tree.otherNeighbors branch.1 branch.2).length +
        (tree.otherNeighbors branch.2 branch.1).length
    · rw [r1 hR]
      refine ⟨⟨fun h => ?_, fun h => absurd h hL⟩, ⟨fun _ => ⟨by omega, hR⟩, fun _ => rfl⟩⟩
      injection h with h
      exact absurd h.symm hne
    · obtain ⟨taxa', ht'⟩ := r2 (by omega)
      rw [ht']
      refine ⟨⟨fun h => ?_, fun h => absurd h hL⟩, ⟨fun h => ?_, fun h => absurd h.2 hR⟩⟩
      · injection h
      · injection h

/-- C6. The branch `(4, 5)` of `exUnevenTree` has one neighbour of node 4 other than node
5 and three neighbours of node 5 other than node 4, so it is not bifurcating on the second
side; `computeSiteConcordance` nevertheless raises no error and stores `sCF = 100`. -/
theorem site_uneven_branch_accepted :
    ((exUnevenTree exAlnOne).otherNeighbors 4 5).length = 1 ∧
    ((exUnevenTree exAlnOne).otherNeighbors 5 4).length = 3 ∧
    ((exUnevenTree exAlnOne).computeSiteConcordanceBranch exParams exFmt exRandom
      (4, 5) 1 0 exStore).1.error = none ∧
    getAttr (((exUnevenTree exAlnOne).computeSiteConcordanceBranch exParams exFmt exRandom
      (4, 5) 1 0 exStore).1.store.attrs (5, 4)) "sCF" = some (.dbl (some 100)) := by
  have hdraws : siteDraws ((exUnevenTree exAlnOne).aln.computeQuartetSupports
      exParams.site_concordance_partition) exRandom [[0], [1], [2], [3]] 1
      (initialAcc exParams (exUnevenTree exAlnOne) 0) = [(1, 0, 0)] := by decide
  obtain ⟨herr, s0, _, _, _⟩ := site_stored (exUnevenTree exAlnOne) exParams exFmt exRandom
    (4, 5) 1 0 exStore [[0], [1], [2], [3]] (by decide) (by decide)
    (by rw [hdraws]; decide)
    (fun i h3 hi => absurd hi (by
      have : (initialSupport exParams (exUnevenTree exAlnOne)).length = 3 := by decide
      omega))
  rw [hdraws] at s0
  have f0 : fracSum 0 [(1, 0, 0)] = 1 := by
    simp [fracSum, share, tallySum, tallyGet]
  have c1 : cround ((1 : ℚ) / ((1 : ℕ) : ℚ) * 10000) = 10000 :=
    cround_eq _ _ (by norm_num) (by norm_num) (by norm_num)
  rw [f0, c1] at s0
  refine ⟨by decide, by decide, herr, ?_⟩
  rw [s0]
  norm_num

theorem filter_and_length_le {α : Type} (p q : α → Bool) (l : List α) :
    (l.filter (fun t => p t && q t)).length ≤ (l.filter p).length := by
  induction l with
  | nil => simp
  | cons x xs ih =>
    simp only [List.filter_cons]
    cases hp : p x <;> cases hq : q x <;> simp <;> omega

/-- C13. For every reference tree, every set of comparison trees that is processed without
error and every internal branch `i`, the stored `gN` is the final `decisive_counts[i]`,
and it is at most the number of comparison trees: one comparison tree raises
`decisive_counts[i]` by 0 or by 1. -/
theorem gene_gN_le_trees {S : Type} [DecidableEq S] (lib : SplitLib S) (fmt : Fmt)
    (params : Params) (ref : GeneRef S) (trees : List (MTree S)) (st : Store)
    (c : GeneCounts) (i : Nat)
    (hq : ref.subtrees.length = 4 * ref.branches.length) (hnd : ref.branches.Nodup)
    (hi : i < ref.branches.length)
    (hc : finalCounts lib fmt params ref trees = .ok c) :
    let out := computeGeneConcordance lib fmt params ref trees st
    let branch := ref.branches.getD i (0, 0)
    getAttr (out.store.attrs (branch.2, branch.1)) "gN" = some (.int (c.decisive i)) ∧
    c.decisive i ≤ (trees.length : Int) ∧
    (∀ (treeid : Nat) (tree : MTree S) (c0 c1 : GeneCounts),
      c0.shaped ref.branches.length →
      processTree lib fmt params ref (buildNameMap 0 ref.names []) treeid tree c0 = .ok c1 →
      c1.decisive i = c0.decisive i ∨ c1.decisive i = c0.decisive i + 1) := by
  intro out branch
  obtain ⟨_, _, _, gn⟩ := computeGene_stored lib fmt params ref trees st c i hnd hi hc
  obtain ⟨_, hdec, _⟩ := finalCounts_spec lib fmt params ref trees c hq hc
  refine ⟨gn, ?_, fun treeid tree c0 c1 hs hp => ?_⟩
  · rw [hdec i hi]
    exact_mod_cast List.length_filter_le _ _
  · obtain ⟨_, d1, _⟩ := processTree_spec lib fmt params ref treeid tree c0 c1 hq hs hp
    rw [d1 i hi]
    split_ifs
    · exact Or.inr rfl
    · exact Or.inl (add_zero _)

/-- C13, witness: two comparison trees, of which one is decisive for the branch of
`exRef`. -/
theorem gene_gN_le_trees_witness :
    GeneCounts.decisive
      { decisive_counts := [1], supports := [[0], [1], [0]], occurence_trees := [] } 0 ≤
      (([exTreeABC, exTreeACBD] : List (MTree (List Bool))).length : Int) :=
  (gene_gN_le_trees bitLib exFmt exParams exRef [exTreeABC, exTreeACBD] exStore
    { decisive_counts := [1], supports := [[0], [1], [0]], occurence_trees := [] } 0
    (by decide) (by decide) (by decide) (by decide)).2.1

theorem genePercent_range (c : GeneCounts) (k i : Nat) (hd : 0 < c.decisive i)
    (h0 : 0 ≤ c.support k i) (h1 : c.support k i ≤ c.decisive i) :
    ∃ g : ℚ, genePercent c k i = some g ∧ 0 ≤ g ∧ g ≤ 100 := by
  have hne : c.decisive i ≠ 0 := by omega
  refine ⟨_, genePercent_eq c k i hne, ?_, ?_⟩
  · have hdq : (0 : ℚ) < (c.decisive i : ℚ) := by exact_mod_cast hd
    have hsq : (0 : ℚ) ≤ (c.support k i : ℚ) := by exact_mod_cast h0
    have hu : 0 ≤ (c.support k i : ℚ) / (c.decisive i : ℚ) * 10000 := by positivity
    have := cround_nonneg _ hu
    have hq : (0 : ℚ) ≤ ((cround ((c.support k i : ℚ) / (c.decisive i : ℚ) * 10000) : ℤ) : ℚ) := by
      exact_mod_cast this
    positivity
  · have hdq : (0 : ℚ) < (c.decisive i : ℚ) := by exact_mod_cast hd
    have hsq : (0 : ℚ) ≤ (c.support k i : ℚ) := by exact_mod_cast h0
    have hle : (c.support k i : ℚ) ≤ (c.decisive i : ℚ) := by exact_mod_cast h1
    have hu : 0 ≤ (c.support k i : ℚ) / (c.decisive i : ℚ) * 10000 := by positivity
    have h1' : (c.support k i : ℚ) / (c.decisive i : ℚ) ≤ 1 := (div_le_one hdq).mpr hle
    have hK : (c.support k i : ℚ) / (c.decisive i : ℚ) * 10000 ≤ ((10000 : ℤ) : ℚ) := by
      push_cast; linarith
    have := cround_le_of_le _ 10000 hu hK
    have hq : ((cround ((c.support k i : ℚ) / (c.decisive i : ℚ) * 10000) : ℤ) : ℚ) ≤ 10000 := by
      exact_mod_cast this
    linarith

/-- C19. In `computeGeneConcordance`, after any prefix of the tree set has been processed
every `supports[k][id]` (`k < 3`) lies between 0 and `decisive_counts[id]`; and for a branch
`i` with at least one decisive tree each of the stored `gCF`, `gDF1`, `gDF2` lies in the
closed interval from 0 to 100. -/
theorem gene_support_le_decisive {S : Type} [DecidableEq S] (lib : SplitLib S) (fmt : Fmt)
    (params : Params) (ref : GeneRef S) (trees : List (MTree S)) (st : Store)
    (c : GeneCounts) (i : Nat)
    (hq : ref.subtrees.length = 4 * ref.branches.length) (hnd : ref.branches.Nodup)
    (hi : i < ref.branches.length)
    (hc : finalCounts lib fmt params ref trees = .ok c) (hd : 0 < c.decisive i) :
    let out := computeGeneConcordance lib fmt params ref trees st
    let branch := ref.branches.getD i (0, 0)
    let attrs := out.store.attrs (branch.2, branch.1)
    (∀ (pre post : List (MTree S)) (cp : GeneCounts), trees = pre ++ post →
      finalCounts lib fmt params ref pre = .ok cp →
      ∀ k id, k < 3 → id < ref.branches.length →
        0 ≤ cp.support k id ∧ cp.support k id ≤ cp.decisive id) ∧
    ∃ gCF gDF1 gDF2 : ℚ,
      getAttr attrs "gCF" = some (.dbl (some gCF)) ∧
      getAttr attrs "gDF1" = some (.dbl (some gDF1)) ∧
      getAttr attrs "gDF2" = some (.dbl (some gDF2)) ∧
      (0 ≤ gCF ∧ gCF ≤ 100) ∧ (0 ≤ gDF1 ∧ gDF1 ≤ 100) ∧ (0 ≤ gDF2 ∧ gDF2 ≤ 100) := by
  intro out branch attrs
  have hinv : ∀ (l : List (MTree S)) (cp : GeneCounts),
      finalCounts lib fmt params ref l = .ok cp →
      ∀ k id, k < 3 → id < ref.branches.length →
        0 ≤ cp.support k id ∧ cp.support k id ≤ cp.decisive id := by
    intro l cp hcp k id hk hid
    obtain ⟨_, hdec, hsup⟩ := finalCounts_spec lib fmt params ref l cp hq hcp
    rw [hsup k id hk hid, hdec id hid]
    exact ⟨by positivity, by exact_mod_cast filter_and_length_le _ _ l⟩
  refine ⟨fun pre post cp _ hcp => hinv pre cp hcp, ?_⟩
  obtain ⟨g0, g1, g2, _⟩ := computeGene_stored lib fmt params ref trees st c i hnd hi hc
  obtain ⟨x0, e0, r0⟩ := genePercent_range c 0 i hd (hinv trees c hc 0 i (by decide) hi).1
    (hinv trees c hc 0 i (by decide) hi).2
  obtain ⟨x1, e1, r1⟩ := genePercent_range c 1 i hd (hinv trees c hc 1 i (by decide) hi).1
    (hinv trees c hc 1 i (by decide) hi).2
  obtain ⟨x2, e2, r2⟩ := genePercent_range c 2 i hd (hinv trees c hc 2 i (by decide) hi).1
    (hinv trees c hc 2 i (by decide) hi).2
  rw [e0] at g0
  rw [e1] at g1
  rw [e2] at g2
  exact ⟨x0, x1, x2, g0, g1, g2, r0, r1, r2⟩

/-- C19, witness: the prefix `exTreeABC` of the tree set `exTreeABC, exTreeACBD`. -/
theorem gene_support_le_decisive_witness :
    (0 : Int) ≤ GeneCounts.support
        { decisive_counts := [0], supports := [[0], [0], [0]], occurence_trees := [] } 1 0 ∧
      GeneCounts.support
        { decisive_counts := [0], supports := [[0], [0], [0]], occurence_trees := [] } 1 0 ≤
      GeneCounts.decisive
        { decisive_counts := [0], supports := [[0], [0], [0]], occurence_trees := [] } 0 :=
  (gene_support_le_decisive bitLib exFmt exParams exRef [exTreeABC, exTreeACBD] exStore
    { decisive_counts := [1], supports := [[0], [1], [0]], occurence_trees := [] } 0
    (by decide) (by decide) (by decide) (by decide) (by decide)).1 [exTreeABC] [exTreeACBD]
    { decisive_counts := [0], supports := [[0], [0], [0]], occurence_trees := [] } rfl
    (by decide) 1 0 (by decide) (by decide)

theorem labelAfter_data (f : Bool) (tag name val : String) :
    (labelAfter f tag name val).data = appendSupport f tag name.data val.data := rfl

theorem appendSupport_open (tag : String) (name val : List Char)
    (h : name.getLast? ≠ some ']') :
    appendSupport true tag name val =
      name ++ ("[&".data ++ tag.data ++ "=".data ++ val ++ "]".data) := by
  unfold appendSupport
  simp [h]

theorem appendSupport_merge (tag : String) (name0 val : List Char) :
    appendSupport true tag (name0 ++ [']']) val =
      name0 ++ (",!".data ++ tag.data ++ "=".data ++ val ++ "]".data) := by
  unfold appendSupport
  simp

theorem appendSupport_legacy_empty (tag : String) (val : List Char) :
    appendSupport false tag [] val = val := by
  simp [appendSupport]

theorem appendSupport_legacy_cons (tag : String) (name val : List Char) (h : name ≠ []) :
    appendSupport false tag name val = name ++ "/".data ++ val := by
  unfold appendSupport
  simp [h]

theorem store_appendSupport_name (st : Store) (f : Bool) (tag : String) (node : Nat)
    (val : String) :
    (st.appendSupport f tag node val).name node = labelAfter f tag (st.name node) val := by
  simp [Store.appendSupport, labelAfter]


theorem storeSiteValues_name {R : Type} (fmt : Fmt) (nquartets : Nat) (branch : Nat × Nat)
    (acc : SiteAcc R) (st : Store) : (storeSiteValues fmt nquartets branch acc st).name = st.name := by
  have hfold : ∀ (m : Nat) (s0 : Store),
      ((List.range m).foldl (fun st k =>
        st.putAttr (branch.2, branch.1) (partitionKey fmt (k + 3))
          (.dbl (ddiv (some (acc.support.getD (k + 3) 0 : ℚ)) (some (nquartets : ℚ))))) s0).name
        = s0.name := by
    intro m
    induction m with
    | zero => intro s0; rfl
    | succ m ih =>
      intro s0
      simp only [List.range_succ, List.foldl_append, List.foldl_cons, List.foldl_nil]
      rw [store_putAttr_name, ih]
  unfold storeSiteValues putPartitionAttrs
  simp only []
  rw [hfold]
  rfl

/-- C16. Node-label updates compose by appending. In extended-Newick mode the site step
(tag `sCF`) maps a label `L` that is empty or does not end in `]` to `L[&sCF=a]` and a
label `L0]` to `L0,!sCF=a]`, and the gene step does the same with tag `CF`; so on a label
not ending in `]` site-then-gene gives `L[&sCF=a,!CF=b]` and gene-then-site gives
`L[&CF=b,!sCF=a]`. In legacy mode a step maps the empty label to the value and a non-empty
label `L` to `L/value`, so the old label is a prefix of the new one. The last two parts
tie `labelAfter` to the code: it is the label the gene loop body and the site branch loop
leave on the node `branch.second`. -/
theorem label_steps_compose (L a b : String) :
    (L.data.getLast? ≠ some ']' →
      labelAfter true "sCF" L a = L ++ "[&sCF=" ++ a ++ "]" ∧
      labelAfter true "CF" L b = L ++ "[&CF=" ++ b ++ "]") ∧
    (∀ L0 : String, L = L0 ++ "]" →
      labelAfter true "sCF" L a = L0 ++ ",!sCF=" ++ a ++ "]" ∧
      labelAfter true "CF" L b = L0 ++ ",!CF=" ++ b ++ "]") ∧
    (L.data.getLast? ≠ some ']' →
      labelAfter true "CF" (labelAfter true "sCF" L a) b =
        L ++ "[&sCF=" ++ a ++ ",!CF=" ++ b ++ "]" ∧
      labelAfter true "sCF" (labelAfter true "CF" L b) a =
        L ++ "[&CF=" ++ b ++ ",!sCF=" ++ a ++ "]") ∧
    (∀ tag v : String, labelAfter false tag "" v = v) ∧
    (∀ tag v : String, L ≠ "" → labelAfter false tag L v = L ++ "/" ++ v) ∧
    (∀ tag v : String, L.data <+: (labelAfter false tag L v).data) ∧
    (∀ {S : Type} (fmt : Fmt) (params : Params) (ref : GeneRef S) (c : GeneCounts)
      (st : Store) (i : Nat),
      (storeGeneValues fmt params ref c st i).name (ref.branches.getD i (0, 0)).2 =
        labelAfter params.newick_extended_format "CF"
          (st.name (ref.branches.getD i (0, 0)).2) (geneLabel fmt params c i)) ∧
    (∀ {R : Type} (tree : PhyloTree) (params : Params) (fmt : Fmt)
      (random_int : Nat → R → Nat × R) (branch : Nat × Nat) (r : R) (st : Store),
      (tree.computeSiteConcordanceBranch params fmt random_int branch
        params.site_concordance r st).1.error = none →
      (siteBranchLoop tree params fmt random_int [branch] r st).1.store.name branch.2 =
        labelAfter params.newick_extended_format "sCF" (st.name branch.2)
          (fmt.convertDoubleToString (getDouble
            ((tree.computeSiteConcordanceBranch params fmt random_int branch
              params.site_concordance r st).1.store.attrs (branch.2, branch.1)) "sCF"))) := by
  have hb : ("]" : String).data = [']'] := by decide
  have hopen : ∀ (M v : String), M.data.getLast? ≠ some ']' →
      labelAfter true "sCF" M v = M ++ "[&sCF=" ++ v ++ "]" ∧
      labelAfter true "CF" M v = M ++ "[&CF=" ++ v ++ "]" := by
    intro M v h
    constructor
    · apply String.ext
      rw [labelAfter_data, appendSupport_open _ _ _ h]
      simp only [String.data_append, List.append_assoc]
      rfl
    · apply String.ext
      rw [labelAfter_data, appendSupport_open _ _ _ h]
      simp only [String.data_append, List.append_assoc]
      rfl
  have hmerge : ∀ (M0 v : String),
      labelAfter true "sCF" (M0 ++ "]") v = M0 ++ ",!sCF=" ++ v ++ "]" ∧
      labelAfter true "CF" (M0 ++ "]") v = M0 ++ ",!CF=" ++ v ++ "]" := by
    intro M0 v
    constructor
    · apply String.ext
      rw [labelAfter_data, String.data_append, hb, appendSupport_merge]
      simp only [String.data_append, List.append_assoc]
      rfl
    · apply String.ext
      rw [labelAfter_data, String.data_append, hb, appendSupport_merge]
      simp only [String.data_append, List.append_assoc]
      rfl
  refine ⟨fun h => ⟨(hopen L a h).1, (hopen L b h).2⟩, ?_, ?_, ?_, ?_, ?_, ?_, ?_⟩
  · intro L0 hL
    subst hL
    exact ⟨(hmerge L0 a).1, (hmerge L0 b).2⟩
  · intro h
    constructor
    · have e1 : labelAfter true "sCF" L a = (L ++ "[&sCF=" ++ a) ++ "]" := (hopen L a h).1
      rw [e1, (hmerge _ b).2]
    · have e1 : labelAfter true "CF" L b = (L ++ "[&CF=" ++ b) ++ "]" := (hopen L b h).2
      rw [e1, (hmerge _ a).1]
  · intro tag v
    apply String.ext
    rw [labelAfter_data]
    exact appendSupport_legacy_empty tag v.data
  · intro tag v hne
    apply String.ext
    have hd : L.data ≠ [] := fun h => hne (String.ext h)
    rw [labelAfter_data, appendSupport_legacy_cons _ _ _ hd]
    simp only [String.data_append]
  · intro tag v
    rw [labelAfter_data]
    by_cases hd : L.data = []
    · rw [hd]; exact List.nil_prefix
    · rw [appendSupport_legacy_cons _ _ _ hd, List.append_assoc]
      exact List.prefix_append _ _
  · intro S fmt params ref c st i
    simp only [storeGeneValues]
    rw [store_appendSupport_name]
    rfl
  · intro R tree params fmt random_int branch r st herr
    cases hrun : tree.computeSiteConcordanceBranch params fmt random_int branch
        params.site_concordance r st with
    | mk o r1 =>
      obtain ⟨st1, e⟩ := o
      rw [hrun] at herr
      simp only at herr
      subst herr
      have hname : st1.name = st.name := by
        unfold PhyloTree.computeSiteConcordanceBranch at hrun
        cases ht : tree.extractTaxa branch with
        | error e => rw [ht] at hrun; simp at hrun
        | ok taxa =>
          rw [ht] at hrun
          simp only [Prod.mk.injEq, Outcome.mk.injEq] at hrun
          rw [← hrun.1.1]
          exact storeSiteValues_name _ _ _ _ _
      simp only [siteBranchLoop, hrun]
      rw [store_appendSupport_name, hname]

/-- C16, witness: the label `A` after the site step with value `50` and the gene step with
value `25`. -/
theorem label_steps_compose_witness :
    labelAfter true "CF" (labelAfter true "sCF" "A" "50") "25" =
      "A" ++ "[&sCF=" ++ "50" ++ ",!CF=" ++ "25" ++ "]" :=
  ((label_steps_compose "A" "50" "25").2.2.1 (by decide)).1

theorem bitLib_overlapMonotone : overlapMonotone bitLib := by
  intro small
  induction small with
  | nil =>
    intro big q _ h
    simp [bitLib] at h
  | cons x xs ih =>
    intro big q hsub h
    cases q with
    | nil => simp [bitLib] at h
    | cons y ys =>
      have hsub0 := hsub 0
      have hsubs : ∀ t, xs.getD t false = true → big.getD (t + 1) false = true :=
        fun t ht => hsub (t + 1) (by simpa [bitLib] using ht)
      cases big with
      | nil =>
        simp only [bitLib, List.zipWith_cons_cons, List.any_cons, id_eq, Bool.or_eq_true,
          Bool.and_eq_true] at h
        rcases h with ⟨hx, _⟩ | h
        · have := hsub0 (by simpa [bitLib] using hx)
          simp [bitLib] at this
        · have := ih [] ys (fun t ht => by
            have := hsubs t (by simpa [bitLib] using ht)
            simp at this) (by simpa [bitLib] using h)
          simp [bitLib] at this
      | cons b bs =>
        simp only [bitLib, List.zipWith_cons_cons, List.any_cons, id_eq, Bool.or_eq_true,
          Bool.and_eq_true] at h ⊢
        rcases h with ⟨hx, hy⟩ | h
        · left
          have := hsub0 (by simpa [bitLib] using hx)
          exact ⟨by simpa [bitLib] using this, hy⟩
        · right
          have := ih bs ys (fun t ht => by
            have := hsubs t (by simpa [bitLib] using ht)
            simpa [bitLib] using this) (by simpa [bitLib] using h)
          simpa [bitLib] using this

theorem decisiveFor_of_mask {S : Type} (lib : SplitLib S) (ref : GeneRef S) (tree : MTree S)
    (M : S) (id : Nat) (hM : treeMask lib ref tree = .ok M) :
    decisiveFor lib ref tree id = isDecisive lib ref M (4 * id) := by
  simp [decisiveFor, hM]

theorem filter_insert_length {α : Type} (p : α → Bool) (pre post : List α) (x : α) :
    ((pre ++ x :: post).filter p).length =
      ((pre ++ post).filter p).length + (if p x = true then 1 else 0) := by
  simp only [List.filter_append, List.length_append, List.filter_cons]
  split_ifs
  · simp only [List.length_cons]; omega
  · simp

/-- C17. Decisiveness monotonicity. When a comparison tree `T'` is added to a tree set,
and both sets are processed without error, `decisive_counts[id]` for the larger set is not
smaller than for the set without `T'`. If moreover the mask of `T'` is a superset of the
mask of a tree of the set that is decisive for `id`, and the overlap test of the split
class is monotone in the mask, then `T'` is decisive for `id` and the count grows by
exactly one. -/
theorem decisive_count_monotone {S : Type} [DecidableEq S] (lib : SplitLib S) (fmt : Fmt)
    (params : Params) (ref : GeneRef S) (pre post : List (MTree S)) (T' : MTree S)
    (M' : S) (id : Nat) (c c' : GeneCounts)
    (hq : ref.subtrees.length = 4 * ref.branches.length) (hid : id < ref.branches.length)
    (hM' : treeMask lib ref T' = .ok M')
    (hc : finalCounts lib fmt params ref (pre ++ post) = .ok c)
    (hc' : finalCounts lib fmt params ref (pre ++ T' :: post) = .ok c') :
    c.decisive id ≤ c'.decisive id ∧
    (∀ (T : MTree S) (M : S), T ∈ pre ++ post → treeMask lib ref T = .ok M →
      decisiveFor lib ref T id = true → overlapMonotone lib → maskSubset lib M M' →
      decisiveFor lib ref T' id = true ∧ c'.decisive id = c.decisive id + 1) := by
  obtain ⟨_, hd, _⟩ := finalCounts_spec lib fmt params ref _ c hq hc
  obtain ⟨_, hd', _⟩ := finalCounts_spec lib fmt params ref _ c' hq hc'
  have hins := filter_insert_length (fun t => decisiveFor lib ref t id) pre post T'
  rw [hd id hid, hd' id hid, hins]
  refine ⟨by push_cast; split_ifs <;> omega, fun T M _ hTM hTd hlaw hsub => ?_⟩
  have hdec : decisiveFor lib ref T' id = true := by
    rw [decisiveFor_of_mask lib ref T' M' id hM', isDecisive_iff]
    rw [decisiveFor_of_mask lib ref T M id hTM, isDecisive_iff] at hTd
    exact fun i hi => hlaw M M' _ hsub (hTd i hi)
  refine ⟨hdec, ?_⟩
  rw [if_pos hdec]
  push_cast
  rfl

/-- C17, witness: `exTreeACBD` added to the set `exTreeABC, exTreeACBD`. -/
theorem decisive_count_monotone_witness :
    GeneCounts.decisive
        { decisive_counts := [1], supports := [[0], [1], [0]], occurence_trees := [] } 0 ≤
      GeneCounts.decisive
        { decisive_counts := [2], supports := [[0], [2], [0]], occurence_trees := [] } 0 :=
  (decisive_count_monotone bitLib exFmt exParams exRef [exTreeABC] [exTreeACBD] exTreeACBD
    [true, true, true, true] 0
    { decisive_counts := [1], supports := [[0], [1], [0]], occurence_trees := [] }
    { decisive_counts := [2], supports := [[0], [2], [0]], occurence_trees := [] }
    (by decide) (by decide) (by decide) (by decide) (by decide)).1

/-- The three counters after a classifier call, in terms of the selected frequencies. -/
theorem computeQuartetSupports_counters (aln : Alignment) (t0 t1 t2 t3 : Nat) (s : List Nat)
    (hlen : 3 ≤ s.length) (hval : ∀ j, j < 3 → s.getD j 0 < SIZE_T) :
    (aln.computeQuartetSupports [t0, t1, t2, t3] s).getD 0 0 = (s.getD 0 0 +
      freqSum aln (fun p => usable aln.num_states t0 t1 t2 t3 p && matches0 t0 t1 t2 t3 p))
        % SIZE_T ∧
    (aln.computeQuartetSupports [t0, t1, t2, t3] s).getD 1 0 = (s.getD 1 0 +
      freqSum aln (fun p => usable aln.num_states t0 t1 t2 t3 p && matches1 t0 t1 t2 t3 p))
        % SIZE_T ∧
    (aln.computeQuartetSupports [t0, t1, t2, t3] s).getD 2 0 = (s.getD 2 0 +
      freqSum aln (fun p => usable aln.num_states t0 t1 t2 t3 p && matches2 t0 t1 t2 t3 p))
        % SIZE_T :=
  ⟨foldl_counter _ _ 0 (fun s pat h => ⟨by rw [quartetStep_length]; exact h,
      quartetStep_getD0 _ _ _ _ _ _ _ h⟩) _ _ hlen (hval 0 (by decide)),
   foldl_counter _ _ 1 (fun s pat h => ⟨by rw [quartetStep_length]; exact h,
      quartetStep_getD1 _ _ _ _ _ _ _ h⟩) _ _ hlen (hval 1 (by decide)),
   foldl_counter _ _ 2 (fun s pat h => ⟨by rw [quartetStep_length]; exact h,
      quartetStep_getD2 _ _ _ _ _ _ _ h⟩) _ _ hlen (hval 2 (by decide))⟩

/-- A pattern matches at most one of the three groupings. -/
theorem matches_exclusive (t0 t1 t2 t3 : Nat) (pat : Pattern) :
    (matches0 t0 t1 t2 t3 pat = true → matches1 t0 t1 t2 t3 pat = false) ∧
    (matches0 t0 t1 t2 t3 pat = true → matches2 t0 t1 t2 t3 pat = false) ∧
    (matches1 t0 t1 t2 t3 pat = true → matches2 t0 t1 t2 t3 pat = false) := by
  refine ⟨fun h => ?_, fun h => ?_, fun h => ?_⟩ <;>
    · by_contra h'
      rw [Bool.not_eq_false] at h'
      simp only [matches0, matches1, matches2, Bool.and_eq_true, decide_eq_true_eq, ne_eq] at h h'
      omega

theorem freqSum_cons (p : Pattern) (ps : List Pattern) (n : Nat) (sel : Pattern → Bool) :
    freqSum { patterns := p :: ps, num_states := n } sel =
      (if sel p = true then p.frequency else 0) + freqSum { patterns := ps, num_states := n } sel := by
  simp only [freqSum, List.filter_cons]
  split_ifs <;> simp

/-- The three selected frequencies together are at most the informative frequency. -/
theorem freqSum_matches_le (aln : Alignment) (n t0 t1 t2 t3 : Nat) :
    freqSum aln (fun p => usable n t0 t1 t2 t3 p && matches0 t0 t1 t2 t3 p) +
      freqSum aln (fun p => usable n t0 t1 t2 t3 p && matches1 t0 t1 t2 t3 p) +
      freqSum aln (fun p => usable n t0 t1 t2 t3 p && matches2 t0 t1 t2 t3 p) ≤
      aln.informativeSites := by
  obtain ⟨pats, ns⟩ := aln
  unfold Alignment.informativeSites
  induction pats with
  | nil => simp [freqSum]
  | cons p ps ih =>
    simp only [freqSum_cons]
    obtain ⟨e01, e02, e12⟩ := matches_exclusive t0 t1 t2 t3 p
    have hu : usable n t0 t1 t2 t3 p = true → p.isInformative = true := by
      intro h
      simp only [usable, Bool.and_eq_true] at h
      exact h.1.1.1.1
    cases hus : usable n t0 t1 t2 t3 p
    · simp only [Bool.false_and, Bool.false_eq_true, if_false]
      split_ifs <;> omega
    · have hi := hu hus
      simp only [Bool.true_and, hi, if_true]
      cases m0 : matches0 t0 t1 t2 t3 p <;> cases m1 : matches1 t0 t1 t2 t3 p <;>
        cases m2 : matches2 t0 t1 t2 t3 p <;> simp_all <;> omega

theorem informativeSites_le_sites (aln : Alignment) : aln.informativeSites ≤ aln.sites := by
  obtain ⟨pats, ns⟩ := aln
  unfold Alignment.informativeSites Alignment.sites
  induction pats with
  | nil => simp [freqSum]
  | cons p ps ih =>
    simp only [freqSum_cons, List.map_cons, List.sum_cons]
    simp only at ih
    split_ifs <;> omega

/-- The tally of a plain alignment, counted from zero, is at most the informative
frequency. -/
theorem single_tally_le (aln : Alignment) (t0 t1 t2 t3 : Nat) (s : List Nat)
    (hlen : 3 ≤ s.length) (h0 : s.getD 0 0 = 0) (h1 : s.getD 1 0 = 0) (h2 : s.getD 2 0 = 0) :
    tallySum (tallyOf (aln.computeQuartetSupports [t0, t1, t2, t3] s)) ≤
      aln.informativeSites := by
  have hval : ∀ j, j < 3 → s.getD j 0 < SIZE_T := by
    intro j hj
    have hpos : 0 < SIZE_T := by decide
    interval_cases j <;> simp_all
  obtain ⟨c0, c1, c2⟩ := computeQuartetSupports_counters aln t0 t1 t2 t3 s hlen hval
  rw [h0, Nat.zero_add] at c0
  rw [h1, Nat.zero_add] at c1
  rw [h2, Nat.zero_add] at c2
  have := freqSum_matches_le aln aln.num_states t0 t1 t2 t3
  simp only [tallySum, tallyOf, c0, c1, c2]
  have m0 := Nat.mod_le (freqSum aln
    (fun p => usable aln.num_states t0 t1 t2 t3 p && matches0 t0 t1 t2 t3 p)) SIZE_T
  have m1 := Nat.mod_le (freqSum aln
    (fun p => usable aln.num_states t0 t1 t2 t3 p && matches1 t0 t1 t2 t3 p)) SIZE_T
  have m2 := Nat.mod_le (freqSum aln
    (fun p => usable aln.num_states t0 t1 t2 t3 p && matches2 t0 t1 t2 t3 p)) SIZE_T
  omega


theorem partContribution_sum_le (sa : SuperAlignment) (t0 t1 t2 t3 part : Nat)
    (aln : Alignment) :
    partContribution sa t0 t1 t2 t3 0 part aln + partContribution sa t0 t1 t2 t3 1 part aln +
      partContribution sa t0 t1 t2 t3 2 part aln ≤ aln.sites := by
  unfold partContribution
  split_ifs
  · have := single_tally_le aln (sa.taxa_index t0 part).toNat (sa.taxa_index t1 part).toNat
      (sa.taxa_index t2 part).toNat (sa.taxa_index t3 part).toNat [0, 0, 0] (by simp) rfl rfl rfl
    have h2 := informativeSites_le_sites aln
    simp only [tallySum, tallyOf] at this
    omega
  · omega

theorem contributionSum_sum_le (sa : SuperAlignment) (t0 t1 t2 t3 : Nat)
    (parts : List Alignment) (part : Nat) :
    contributionSum sa t0 t1 t2 t3 0 part parts + contributionSum sa t0 t1 t2 t3 1 part parts +
      contributionSum sa t0 t1 t2 t3 2 part parts ≤ (parts.map Alignment.sites).sum := by
  induction parts generalizing part with
  | nil => simp [contributionSum]
  | cons a rest ih =>
    simp only [contributionSum, List.map_cons, List.sum_cons]
    have h1 := partContribution_sum_le sa t0 t1 t2 t3 part a
    have h2 := ih (part + 1)
    omega

/-- The tally of one classifier call on zeroed global counters is at most the number of
sites. -/
theorem aln_tally_le (aln : Aln) (flag : Bool) (t0 t1 t2 t3 : Nat) (s : List Nat)
    (hlen : 3 ≤ s.length) (h0 : s.getD 0 0 = 0) (h1 : s.getD 1 0 = 0) (h2 : s.getD 2 0 = 0) :
    tallySum (tallyOf (aln.computeQuartetSupports flag [t0, t1, t2, t3] s)) ≤ aln.sites := by
  cases aln with
  | single a =>
    exact le_trans (single_tally_le a t0 t1 t2 t3 s hlen h0 h1 h2) (informativeSites_le_sites a)
  | super sa =>
    have hpos : 0 < SIZE_T := by decide
    have g0 := superLoop_getD sa flag t0 t1 t2 t3 0 (by decide) sa.partitions 0 s hlen
      (by rw [h0]; exact hpos)
    have g1 := superLoop_getD sa flag t0 t1 t2 t3 1 (by decide) sa.partitions 0 s hlen
      (by rw [h1]; exact hpos)
    have g2 := superLoop_getD sa flag t0 t1 t2 t3 2 (by decide) sa.partitions 0 s hlen
      (by rw [h2]; exact hpos)
    rw [h0, Nat.zero_add] at g0
    rw [h1, Nat.zero_add] at g1
    rw [h2, Nat.zero_add] at g2
    have hs := contributionSum_sum_le sa t0 t1 t2 t3 sa.partitions 0
    have m0 := Nat.mod_le (contributionSum sa t0 t1 t2 t3 0 0 sa.partitions) SIZE_T
    have m1 := Nat.mod_le (contributionSum sa t0 t1 t2 t3 1 0 sa.partitions) SIZE_T
    have m2 := Nat.mod_le (contributionSum sa t0 t1 t2 t3 2 0 sa.partitions) SIZE_T
    simp only [Aln.computeQuartetSupports, SuperAlignment.computeQuartetSupports, tallySum,
      tallyOf, g0, g1, g2, Aln.sites]
    omega

/-! ### shapes of the quartet and of the counter vector -/

theorem extractTaxa_length (tree : PhyloTree) (branch : Nat × Nat) (taxa : List (List Nat))
    (h : tree.extractTaxa branch = .ok taxa) : taxa.length = 4 := by
  unfold PhyloTree.extractTaxa at h
  simp only [] at h
  cases h1 : extractSide 2
      ((tree.otherNeighbors branch.1 branch.2).map (fun n => tree.getTaxaID n branch.1))
      (List.replicate 4 []) 0 with
  | error e => rw [h1] at h; simp at h
  | ok r =>
    obtain ⟨taxa1, id1⟩ := r
    rw [h1] at h
    simp only [] at h
    cases h2 : extractSide 4
        ((tree.otherNeighbors branch.2 branch.1).map (fun n => tree.getTaxaID n branch.2))
        taxa1 id1 with
    | error e => rw [h2] at h; simp at h
    | ok r2 =>
      obtain ⟨taxa2, id2⟩ := r2
      rw [h2] at h
      simp only [] at h
      injection h with h
      rw [← h, extractSide_length _ _ _ _ _ _ h2, extractSide_length _ _ _ _ _ _ h1]
      simp

theorem drawQuartet_length {R : Type} (random_int : Nat → R → Nat × R)
    (taxa : List (List Nat)) (r : R) : (drawQuartet random_int taxa r).1.length = taxa.length := by
  induction taxa generalizing r with
  | nil => rfl
  | cons g gs ih => simp [drawQuartet, ih]

theorem list_length_four (q : List Nat) (h : q.length = 4) :
    ∃ t0 t1 t2 t3, q = [t0, t1, t2, t3] := by
  match q, h with
  | [a, b, c, d], _ => exact ⟨a, b, c, d, rfl⟩

theorem resetSupport_length (s : List Nat) : (resetSupport s).length = s.length := by
  simp [resetSupport]

theorem resetSupport_getD_lt (s : List Nat) (j : Nat) (hj : j < 3) :
    (resetSupport s).getD j 0 = 0 := by
  unfold resetSupport
  simp only [List.getD_eq_getElem?_getD, List.getElem?_set]
  interval_cases j <;> simp <;> split_ifs <;> simp

theorem resetSupport_getD_ge (s : List Nat) (k : Nat) (hk : 3 ≤ k) :
    (resetSupport s).getD k 0 = s.getD k 0 := by
  unfold resetSupport
  simp only [List.getD_eq_getElem?_getD, List.getElem?_set]
  rw [if_neg (by omega), if_neg (by omega), if_neg (by omega)]

theorem siteIter_support {R : Type} (classify : List Nat → List Nat → List Nat)
    (random_int : Nat → R → Nat × R) (taxa : List (List Nat)) (acc : SiteAcc R) :
    (siteIter classify random_int taxa acc).support =
      classify (drawQuartet random_int taxa acc.rstream).1 (resetSupport acc.support) :=
  accumulate_support _ _ _

theorem initialSupport_length_ge (params : Params) (tree : PhyloTree) :
    3 ≤ (initialSupport params tree).length := by
  unfold initialSupport
  split_ifs <;> simp

theorem freqSum_eq_zero (aln : Alignment) (sel : Pattern → Bool)
    (h : ∀ pat, pat ∈ aln.patterns → sel pat = false) : freqSum aln sel = 0 := by
  unfold freqSum
  rw [List.filter_eq_nil_iff.mpr (fun pat hp => by simp [h pat hp])]
  rfl

theorem single_silent_tally (a : Alignment) (t0 t1 t2 t3 : Nat) (s : List Nat)
    (hlen : 3 ≤ s.length) (h0 : s.getD 0 0 = 0) (h1 : s.getD 1 0 = 0) (h2 : s.getD 2 0 = 0)
    (hs : a.silentOn t0 t1 t2 t3) :
    tallyOf (a.computeQuartetSupports [t0, t1, t2, t3] s) = (0, 0, 0) := by
  have hval : ∀ j, j < 3 → s.getD j 0 < SIZE_T := by
    intro j hj
    have hpos : 0 < SIZE_T := by decide
    interval_cases j <;> simp_all
  obtain ⟨c0, c1, c2⟩ := computeQuartetSupports_counters a t0 t1 t2 t3 s hlen hval
  rw [h0, freqSum_eq_zero a _ (fun pat hp => by simp [hs pat hp])] at c0
  rw [h1, freqSum_eq_zero a _ (fun pat hp => by simp [hs pat hp])] at c1
  rw [h2, freqSum_eq_zero a _ (fun pat hp => by simp [hs pat hp])] at c2
  simp only [tallyOf, c0, c1, c2]
  rfl

theorem contributionSum_silent (sa : SuperAlignment) (t0 t1 t2 t3 j : Nat) (hj : j < 3)
    (hs : Aln.silentOn (.super sa) t0 t1 t2 t3) (parts : List Alignment) (part : Nat)
    (hparts : ∀ i aln, parts[i]? = some aln → sa.partitions[part + i]? = some aln) :
    contributionSum sa t0 t1 t2 t3 j part parts = 0 := by
  induction parts generalizing part with
  | nil => rfl
  | cons a rest ih =>
    simp only [contributionSum]
    have hrest := ih (part + 1) (fun i aln hi => by
      have := hparts (i + 1) aln (by simpa using hi)
      rw [← this]; congr 1; omega)
    rw [hrest, Nat.add_zero]
    unfold partContribution
    split_ifs with hc
    · have hsil := hs part a (by simpa using hparts 0 a (by simp)) hc
      have := single_silent_tally a _ _ _ _ [0, 0, 0] (by simp) rfl rfl rfl hsil
      simp only [tallyOf, Prod.mk.injEq] at this
      interval_cases j
      · exact this.1
      · exact this.2.1
      · exact this.2.2
    · rfl

theorem aln_silent_tally (aln : Aln) (flag : Bool) (t0 t1 t2 t3 : Nat) (s : List Nat)
    (hlen : 3 ≤ s.length) (h0 : s.getD 0 0 = 0) (h1 : s.getD 1 0 = 0) (h2 : s.getD 2 0 = 0)
    (hs : aln.silentOn t0 t1 t2 t3) :
    tallyOf (aln.computeQuartetSupports flag [t0, t1, t2, t3] s) = (0, 0, 0) := by
  cases aln with
  | single a => exact single_silent_tally a t0 t1 t2 t3 s hlen h0 h1 h2 hs
  | super sa =>
    have hpos : 0 < SIZE_T := by decide
    have g0 := superLoop_getD sa flag t0 t1 t2 t3 0 (by decide) sa.partitions 0 s hlen
      (by rw [h0]; exact hpos)
    have g1 := superLoop_getD sa flag t0 t1 t2 t3 1 (by decide) sa.partitions 0 s hlen
      (by rw [h1]; exact hpos)
    have g2 := superLoop_getD sa flag t0 t1 t2 t3 2 (by decide) sa.partitions 0 s hlen
      (by rw [h2]; exact hpos)
    have hp : ∀ i aln, sa.partitions[i]? = some aln → sa.partitions[0 + i]? = some aln := by
      intro i aln h; rw [Nat.zero_add]; exact h
    rw [h0, contributionSum_silent sa t0 t1 t2 t3 0 (by decide) hs _ 0 hp] at g0
    rw [h1, contributionSum_silent sa t0 t1 t2 t3 1 (by decide) hs _ 0 hp] at g1
    rw [h2, contributionSum_silent sa t0 t1 t2 t3 2 (by decide) hs _ 0 hp] at g2
    simp only [Aln.computeQuartetSupports, SuperAlignment.computeQuartetSupports, tallyOf,
      g0, g1, g2]
    rfl

theorem drawQuartet_mem {R : Type} (random_int : Nat → R → Nat × R)
    (hrand : ∀ n r, 0 < n → (random_int n r).1 < n) (g0 g1 g2 g3 : List Nat)
    (h0 : g0 ≠ []) (h1 : g1 ≠ []) (h2 : g2 ≠ []) (h3 : g3 ≠ []) (r : R) :
    ∃ t0 t1 t2 t3, (drawQuartet random_int [g0, g1, g2, g3] r).1 = [t0, t1, t2, t3] ∧
      t0 ∈ g0 ∧ t1 ∈ g1 ∧ t2 ∈ g2 ∧ t3 ∈ g3 := by
  have hmem : ∀ (g : List Nat) (r : R), g ≠ [] → g.getD (random_int g.length r).1 0 ∈ g := by
    intro g r hg
    have hl : 0 < g.length := List.length_pos.mpr hg
    have := hrand g.length r hl
    rw [List.getD_eq_getElem _ _ this]
    exact List.getElem_mem _
  exact ⟨_, _, _, _, rfl, hmem g0 _ h0, hmem g1 _ h1, hmem g2 _ h2, hmem g3 _ h3⟩

theorem siteDraws_silent {R : Type} (classify : List Nat → List Nat → List Nat)
    (random_int : Nat → R → Nat × R) (taxa : List (List Nat))
    (hcl : ∀ q s, (classify q s).length = s.length)
    (hz : ∀ r s, 3 ≤ s.length →
      tallyOf (classify (drawQuartet random_int taxa r).1 (resetSupport s)) = (0, 0, 0))
    (n : Nat) (acc : SiteAcc R) (hlen : 3 ≤ acc.support.length) :
    ∀ d, d ∈ siteDraws classify random_int taxa n acc → d = (0, 0, 0) := by
  induction n generalizing acc with
  | zero => intro d hd; simp [siteDraws] at hd
  | succ n ih =>
    intro d hd
    simp only [siteDraws, List.mem_cons] at hd
    have hsup := siteIter_support classify random_int taxa acc
    rcases hd with hd | hd
    · rw [hd]
      have := hz acc.rstream acc.support hlen
      rw [← hsup] at this
      exact this
    · exact ih (siteIter classify random_int taxa acc)
        (by rw [hsup, hcl, resetSupport_length]; exact hlen) d hd

theorem fracSum_all_zero (draws : List (Nat × Nat × Nat))
    (h : ∀ d, d ∈ draws → d = (0, 0, 0)) (j : Nat) :
    fracSum j draws = 0 ∧ totalSites draws = 0 := by
  induction draws with
  | nil => simp [fracSum, totalSites]
  | cons d ds ih =>
    obtain ⟨i0, i1⟩ := ih (fun x hx => h x (List.mem_cons_of_mem _ hx))
    have hd := h d (List.mem_cons_self _ _)
    subst hd
    simp [fracSum, totalSites, i0, i1, share, tallySum]

/-- C15. Scenario B: for `N > 0`, on a branch with the four non-empty taxon groups
`g0 .. g3`, when for every quartet that can be drawn (one taxon of each group) every site
pattern is uninformative or has a state outside the valid range at one of the four taxa,
every draw has the tally `(0, 0, 0)`. So the test `sum > 0` of line 125 fails in every
iteration and the divisions by `sum` are never evaluated, the three running fractions stay
at their initial zero, and the stored values are `sN = 0` and `sCF = sDF1 = sDF2 = 0`.
The random stream is arbitrary; `random_int(n, _)` returns a value below `n`. -/
theorem site_silent_alignment {R : Type} (tree : PhyloTree) (params : Params)
    (fmt : Fmt) (random_int : Nat → R → Nat × R) (branch : Nat × Nat) (N : Nat) (rstream : R)
    (st : Store) (g0 g1 g2 g3 : List Nat) (hN : 0 < N)
    (htaxa : tree.extractTaxa branch = .ok [g0, g1, g2, g3])
    (hrand : ∀ n r, 0 < n → (random_int n r).1 < n)
    (hne : g0 ≠ [] ∧ g1 ≠ [] ∧ g2 ≠ [] ∧ g3 ≠ [])
    (hsilent : ∀ t0 t1 t2 t3, t0 ∈ g0 → t1 ∈ g1 → t2 ∈ g2 → t3 ∈ g3 →
      tree.aln.silentOn t0 t1 t2 t3)
    (hfmt : ∀ i, 3 ≤ i → i < (initialSupport params tree).length →
      fmt.convertIntToString ((i / 3 : Nat) : Int) ≠ "F") :
    let classify := tree.aln.computeQuartetSupports params.site_concordance_partition
    let draws := siteDraws classify random_int [g0, g1, g2, g3] N
      (initialAcc params tree rstream)
    let fin := siteLoop classify random_int [g0, g1, g2, g3] N (initialAcc params tree rstream)
    let out := (tree.computeSiteConcordanceBranch params fmt random_int branch N rstream st).1
    let attrs := out.store.attrs (branch.2, branch.1)
    (draws.length = N ∧ ∀ d, d ∈ draws → d = (0, 0, 0)) ∧
    (fin.sCF = some 0 ∧ fin.sDF1 = some 0 ∧ fin.sDF2 = some 0 ∧ fin.sum_sites = 0) ∧
    getAttr attrs "sN" = some (.dbl (some 0)) ∧
    getAttr attrs "sCF" = some (.dbl (some 0)) ∧
    getAttr attrs "sDF1" = some (.dbl (some 0)) ∧
    getAttr attrs "sDF2" = some (.dbl (some 0)) := by
  intro classify draws fin out attrs
  have hpos : 0 < SIZE_T := by decide
  have hz : ∀ (r : R) (s : List Nat), 3 ≤ s.length →
      tallyOf (classify (drawQuartet random_int [g0, g1, g2, g3] r).1 (resetSupport s)) =
        (0, 0, 0) := by
    intro r s hl
    obtain ⟨t0, t1, t2, t3, hq, m0, m1, m2, m3⟩ := drawQuartet_mem random_int hrand g0 g1 g2 g3
      hne.1 hne.2.1 hne.2.2.1 hne.2.2.2 r
    rw [hq]
    exact aln_silent_tally tree.aln _ t0 t1 t2 t3 _ (by rw [resetSupport_length]; exact hl)
      (resetSupport_getD_lt _ 0 (by decide)) (resetSupport_getD_lt _ 1 (by decide))
      (resetSupport_getD_lt _ 2 (by decide)) (hsilent t0 t1 t2 t3 m0 m1 m2 m3)
  have hdraws : ∀ d, d ∈ draws → d = (0, 0, 0) :=
    siteDraws_silent classify random_int [g0, g1, g2, g3]
      (fun q s => aln_computeQuartetSupports_length tree.aln _ q s) hz N
      (initialAcc params tree rstream)
      (by rw [initialAcc_support_length]; exact initialSupport_length_ge params tree)
  have hfit : ∀ d, d ∈ draws → tallySum d < SIZE_T := by
    intro d hd
    rw [hdraws d hd]
    exact hpos
  obtain ⟨_, s0, s1, s2, sn⟩ := site_stored tree params fmt random_int branch N rstream st
    [g0, g1, g2, g3] hN htaxa hfit hfmt
  obtain ⟨l0, l1, l2, lsum⟩ := siteLoop_spec classify random_int [g0, g1, g2, g3] N
    (initialAcc params tree rstream) 0 0 0 rfl rfl rfl hfit
  have f0 := fracSum_all_zero draws hdraws 0
  have f1 := fracSum_all_zero draws hdraws 1
  have f2 := fracSum_all_zero draws hdraws 2
  have hNq : ((N : ℕ) : ℚ) ≠ 0 := by exact_mod_cast (Nat.pos_iff_ne_zero.mp hN)
  have e0 : ((cround ((0 : ℚ) / (N : ℚ) * 10000) : ℤ) : ℚ) / 100 = 0 := by
    rw [zero_div, zero_mul, cround_zero]
    norm_num
  have hs0 : (initialAcc params tree rstream).sum_sites = 0 := rfl
  refine ⟨⟨siteDraws_length _ _ _ _ _, hdraws⟩, ⟨?_, ?_, ?_, ?_⟩, ?_, ?_, ?_, ?_⟩
  · rw [l0]; simp only [draws] at f0; rw [f0.1, add_zero]
  · rw [l1]; simp only [draws] at f1; rw [f1.1, add_zero]
  · rw [l2]; simp only [draws] at f2; rw [f2.1, add_zero]
  · have := lsum (by rw [hs0, zero_add]; simp only [draws] at f0; rw [f0.2]; exact hpos)
    simp only [draws] at f0
    rw [this, hs0, f0.2]
  · have := sn (by simp only [draws] at f0; rw [f0.2]; exact hpos)
    simp only [draws] at f0
    rw [this, f0.2]
    simp
  · rw [s0]; simp only [draws] at f0; rw [f0.1, e0]
  · rw [s1]; simp only [draws] at f1; rw [f1.1, e0]
  · rw [s2]; simp only [draws] at f2; rw [f2.1, e0]

/-- C15, witness: two draws on the quartet tree over `exAlnSilent`, whose single site is
not informative. -/
theorem site_silent_alignment_witness :
    getAttr (((exQuartetTree exAlnSilent).computeSiteConcordanceBranch exParams exFmt exRandom
      (4, 5) 2 0 exStore).1.store.attrs (5, 4)) "sN" = some (.dbl (some 0)) :=
  (site_silent_alignment (exQuartetTree exAlnSilent) exParams exFmt exRandom (4, 5) 2 0
    exStore [0] [1] [2] [3] (by decide) (by decide)
    (fun n r hn => Nat.mod_lt r hn) (by decide)
    (fun t0 t1 t2 t3 _ _ _ _ pat hp => by
      have hp' : pat ∈ exAlnSilent.patterns := hp
      simp only [exAlnSilent, List.mem_singleton] at hp'
      subst hp'
      rfl)
    (fun i h3 hi => absurd hi (by
      have : (initialSupport exParams (exQuartetTree exAlnSilent)).length = 3 := by decide
      omega))).2.2.1

/-! ### the per-partition counters -/

theorem getD_addSupport (s : List Nat) (i k f : Nat) :
    (addSupport s i f).getD k 0 =
      if i = k ∧ i < s.length then (s.getD k 0 + f) % SIZE_T else s.getD k 0 := by
  by_cases h : i = k
  · subst h
    by_cases hl : i < s.length
    · rw [if_pos ⟨rfl, hl⟩, getD_addSupport_self _ _ _ hl]
    · rw [if_neg (fun hh => hl hh.2)]
      simp only [addSupport, List.getD_eq_getElem?_getD]
      rw [List.getElem?_eq_none (by simp only [List.length_set]; omega),
        List.getElem?_eq_none (by omega)]
  · rw [if_neg (fun hh => h hh.1), getD_addSupport_ne _ _ _ _ h]

theorem addPartSupport_getD_part (part : Nat) (ps s : List Nat) (p j : Nat) (hj : j < 3)
    (hidx : p * 3 + 3 + j < s.length) :
    (addPartSupport part ps s).getD (p * 3 + 3 + j) 0 =
      if p = part then (s.getD (p * 3 + 3 + j) 0 + ps.getD j 0) % SIZE_T
      else s.getD (p * 3 + 3 + j) 0 := by
  unfold addPartSupport
  simp only [List.foldl_cons, List.foldl_nil, getD_addSupport, addSupport_length]
  by_cases hp : p = part
  · subst hp
    rw [if_pos rfl]
    interval_cases j
    · rw [if_neg (by omega), if_neg (by omega), if_neg (by omega), if_neg (by omega),
        if_neg (by omega), if_pos ⟨by omega, by omega⟩]
    · rw [if_neg (by omega), if_neg (by omega), if_neg (by omega), if_pos ⟨by omega, by omega⟩,
        if_neg (by omega), if_neg (by omega)]
    · rw [if_neg (by omega), if_pos ⟨by omega, by omega⟩, if_neg (by omega), if_neg (by omega),
        if_neg (by omega), if_neg (by omega)]
  · rw [if_neg hp, if_neg (by omega), if_neg (by omega), if_neg (by omega), if_neg (by omega),
      if_neg (by omega), if_neg (by omega)]

theorem superStep_getD_part (sa : SuperAlignment) (part t0 t1 t2 t3 : Nat)
    (aln : Alignment) (s : List Nat) (p j : Nat) (hj : j < 3)
    (hidx : p * 3 + 3 + j < s.length) (hv : s.getD (p * 3 + 3 + j) 0 < SIZE_T) :
    (superStep sa.taxa_index true [t0, t1, t2, t3] part aln s).getD (p * 3 + 3 + j) 0 =
      if p = part then
        (s.getD (p * 3 + 3 + j) 0 + partContribution sa t0 t1 t2 t3 j part aln) % SIZE_T
      else s.getD (p * 3 + 3 + j) 0 := by
  cases h : covers sa part t0 t1 t2 t3
  · rw [superStep_not_covers _ _ _ _ _ _ _ _ _ h]
    simp only [partContribution, h, Bool.false_eq_true, if_false, Nat.add_zero,
      Nat.mod_eq_of_lt hv, ite_self]
  · unfold superStep
    simp only [partQuartet_of_covers sa part t0 t1 t2 t3 h, List.length_cons, List.length_nil,
      ne_eq, not_true_eq_false, if_false, if_true]
    rw [addPartSupport_getD_part _ _ _ _ _ hj hidx]
    simp only [partContribution, h, if_true]

/-- What the partition loop, started at partition `part`, adds to the counter of partition
`p` when it meets that partition. -/
theorem superLoop_getD_part (sa : SuperAlignment) (t0 t1 t2 t3 : Nat) (p j : Nat) (hj : j < 3)
    (parts : List Alignment) (part : Nat) (s : List Nat)
    (hidx : p * 3 + 3 + j < s.length) (hv : s.getD (p * 3 + 3 + j) 0 < SIZE_T) :
    (superLoop sa.taxa_index true [t0, t1, t2, t3] part parts s).getD (p * 3 + 3 + j) 0 =
      (s.getD (p * 3 + 3 + j) 0 +
        (if part ≤ p then
          match parts[p - part]? with
          | some aln => partContribution sa t0 t1 t2 t3 j p aln
          | none => 0
         else 0)) % SIZE_T := by
  induction parts generalizing part s with
  | nil =>
    simp only [superLoop, List.getElem?_nil, ite_self, Nat.add_zero, Nat.mod_eq_of_lt hv]
  | cons a rest ih =>
    have hpos : 0 < SIZE_T := by decide
    have hstep := superStep_getD_part sa part t0 t1 t2 t3 a s p j hj hidx hv
    simp only [superLoop]
    rw [ih (part + 1) _ (by rw [superStep_length]; exact hidx)
      (by rw [hstep]; split_ifs
          · exact Nat.mod_lt _ hpos
          · exact hv), hstep]
    by_cases hp : p = part
    · subst hp
      rw [if_pos rfl, if_neg (by omega), if_pos (le_refl _)]
      simp only [Nat.sub_self, List.getElem?_cons_zero, Nat.add_zero, Nat.mod_mod]
    · rw [if_neg hp]
      by_cases hle : part ≤ p
      · have hlt : part + 1 ≤ p := by omega
        rw [if_pos hlt, if_pos hle]
        have e : p - part = (p - (part + 1)) + 1 := by omega
        rw [e, List.getElem?_cons_succ]
      · rw [if_neg (by omega), if_neg hle]

theorem partCount_quartet (sa : SuperAlignment) (t0 t1 t2 t3 p j : Nat) :
    partCount sa [t0, t1, t2, t3] p j =
      match sa.partitions[p]? with
      | some aln => partContribution sa t0 t1 t2 t3 j p aln
      | none => 0 := rfl

/-- One classifier call with the per-partition report on adds to the counter of partition
`p` what that partition yields on the quartet. -/
theorem super_computeQuartetSupports_part (sa : SuperAlignment) (t0 t1 t2 t3 : Nat)
    (p j : Nat) (hj : j < 3) (s : List Nat)
    (hidx : p * 3 + 3 + j < s.length) (hv : s.getD (p * 3 + 3 + j) 0 < SIZE_T) :
    (sa.computeQuartetSupports true [t0, t1, t2, t3] s).getD (p * 3 + 3 + j) 0 =
      (s.getD (p * 3 + 3 + j) 0 + partCount sa [t0, t1, t2, t3] p j) % SIZE_T := by
  unfold SuperAlignment.computeQuartetSupports
  rw [superLoop_getD_part sa t0 t1 t2 t3 p j hj sa.partitions 0 s hidx hv, if_pos (Nat.zero_le _),
    partCount_quartet, Nat.sub_zero]

theorem contributionSum_eq_sum (sa : SuperAlignment) (t0 t1 t2 t3 j : Nat)
    (parts : List Alignment) (part : Nat) :
    contributionSum sa t0 t1 t2 t3 j part parts =
      Finset.sum (Finset.range parts.length) (fun i =>
        match parts[i]? with
        | some aln => partContribution sa t0 t1 t2 t3 j (part + i) aln
        | none => 0) := by
  induction parts generalizing part with
  | nil => simp [contributionSum]
  | cons a rest ih =>
    simp only [contributionSum, List.length_cons]
    rw [Finset.sum_range_succ', ih (part + 1), Nat.add_comm]
    simp only [List.getElem?_cons_succ, List.getElem?_cons_zero, Nat.add_zero]
    congr 1
    apply Finset.sum_congr rfl
    intro i _
    have e : part + 1 + i = part + (i + 1) := by omega
    rw [e]

theorem contributionSum_eq_partCount (sa : SuperAlignment) (t0 t1 t2 t3 j : Nat) :
    contributionSum sa t0 t1 t2 t3 j 0 sa.partitions =
      Finset.sum (Finset.range sa.partitions.length)
        (fun p => partCount sa [t0, t1, t2, t3] p j) := by
  rw [contributionSum_eq_sum]
  apply Finset.sum_congr rfl
  intro i _
  rw [partCount_quartet, Nat.zero_add]

theorem sum_mod_congr (P : Nat) (f g : Nat → Nat)
    (h : ∀ p, p < P → f p % SIZE_T = g p % SIZE_T) :
    Finset.sum (Finset.range P) f % SIZE_T = Finset.sum (Finset.range P) g % SIZE_T := by
  rw [Finset.sum_nat_mod, Finset.sum_nat_mod _ _ g]
  congr 1
  apply Finset.sum_congr rfl
  intro p hp
  exact h p (Finset.mem_range.mp hp)

/-- After one classifier call the sum of the per-partition counters has grown, modulo
`2^64`, by the sum of the contributions of the partitions. -/
theorem partSum_computeQuartetSupports (sa : SuperAlignment) (t0 t1 t2 t3 : Nat) (j : Nat)
    (hj : j < 3) (s : List Nat) (hlen : 3 + 3 * sa.partitions.length ≤ s.length)
    (hval : ∀ i, s.getD i 0 < SIZE_T) :
    partSum (sa.computeQuartetSupports true [t0, t1, t2, t3] s) sa.partitions.length j % SIZE_T =
      (partSum s sa.partitions.length j +
        contributionSum sa t0 t1 t2 t3 j 0 sa.partitions) % SIZE_T := by
  rw [contributionSum_eq_partCount]
  unfold partSum
  rw [← Finset.sum_add_distrib]
  apply sum_mod_congr
  intro p hp
  rw [super_computeQuartetSupports_part sa t0 t1 t2 t3 p j hj s (by omega) (hval _),
    Nat.mod_mod]

theorem partSum_computeQuartetSupports_le (sa : SuperAlignment) (t0 t1 t2 t3 : Nat) (j : Nat)
    (hj : j < 3) (s : List Nat) (hlen : 3 + 3 * sa.partitions.length ≤ s.length)
    (hval : ∀ i, s.getD i 0 < SIZE_T) :
    partSum (sa.computeQuartetSupports true [t0, t1, t2, t3] s) sa.partitions.length j ≤
      partSum s sa.partitions.length j + contributionSum sa t0 t1 t2 t3 j 0 sa.partitions := by
  rw [contributionSum_eq_partCount]
  unfold partSum
  rw [← Finset.sum_add_distrib]
  apply Finset.sum_le_sum
  intro p hp
  rw [super_computeQuartetSupports_part sa t0 t1 t2 t3 p j hj s
    (by have := Finset.mem_range.mp hp; omega) (hval _)]
  exact Nat.mod_le _ _

theorem getD_replicate_zero (n i : Nat) : (List.replicate n 0).getD i 0 = 0 := by
  simp only [List.getD_eq_getElem?_getD, List.getElem?_replicate]
  split_ifs <;> rfl

theorem partSum_replicate_zero (n P j : Nat) : partSum (List.replicate n 0) P j = 0 := by
  unfold partSum
  apply Finset.sum_eq_zero
  intro p _
  exact getD_replicate_zero _ _

/-- Claim C14: with the per-partition report on, one call of the partitioned classifier on
a counter vector of `3 + 3P` entries keeps each global counter equal to the sum of the
corresponding per-partition counters: as `size_t` values (modulo `2^64`) always, and as
plain numbers when the global counter does not wrap; in particular from the all-zero
vector. -/
theorem super_partition_consistency (sa : SuperAlignment) (t0 t1 t2 t3 : Nat)
    (support : List Nat) (hlen : support.length = 3 + 3 * sa.partitions.length)
    (hval : ∀ i, support.getD i 0 < SIZE_T) :
    let P := sa.partitions.length
    let out := sa.computeQuartetSupports true [t0, t1, t2, t3] support
    (∀ j, j < 3 → support.getD j 0 = partSum support P j % SIZE_T →
      out.getD j 0 = partSum out P j % SIZE_T) ∧
    (∀ j, j < 3 → support.getD j 0 = partSum support P j →
      support.getD j 0 + contributionSum sa t0 t1 t2 t3 j 0 sa.partitions < SIZE_T →
      out.getD j 0 = partSum out P j) ∧
    (support = List.replicate (3 + 3 * P) 0 → ∀ j, j < 3 →
      out.getD j 0 = partSum out P j % SIZE_T ∧
      (contributionSum sa t0 t1 t2 t3 j 0 sa.partitions < SIZE_T →
        out.getD j 0 = partSum out P j)) := by
  intro P out
  have hmod : ∀ j, j < 3 → support.getD j 0 = partSum support P j % SIZE_T →
      out.getD j 0 = partSum out P j % SIZE_T := by
    intro j hj hpre
    have h1 : (sa.computeQuartetSupports true [t0, t1, t2, t3] support).getD j 0 =
        (support.getD j 0 + contributionSum sa t0 t1 t2 t3 j 0 sa.partitions) % SIZE_T :=
      superLoop_getD sa true t0 t1 t2 t3 j hj sa.partitions 0 support (by omega) (hval j)
    have h2 := partSum_computeQuartetSupports sa t0 t1 t2 t3 j hj support (by omega) hval
    show (sa.computeQuartetSupports true [t0, t1, t2, t3] support).getD j 0 = _
    rw [h1, h2, hpre, Nat.mod_add_mod]
  have hexact : ∀ j, j < 3 → support.getD j 0 = partSum support P j →
      support.getD j 0 + contributionSum sa t0 t1 t2 t3 j 0 sa.partitions < SIZE_T →
      out.getD j 0 = partSum out P j := by
    intro j hj hpre hfit
    have hm := hmod j hj (by rw [← hpre]; exact (Nat.mod_eq_of_lt (hval j)).symm)
    have hle := partSum_computeQuartetSupports_le sa t0 t1 t2 t3 j hj support (by omega) hval
    rw [hm]
    apply Nat.mod_eq_of_lt
    show partSum (sa.computeQuartetSupports true [t0, t1, t2, t3] support) sa.partitions.length j
      < SIZE_T
    have : partSum support sa.partitions.length j = support.getD j 0 := hpre.symm
    omega
  refine ⟨hmod, hexact, ?_⟩
  intro hz j hj
  have h0 : support.getD j 0 = 0 := by rw [hz]; exact getD_replicate_zero _ _
  have hp0 : partSum support P j = 0 := by rw [hz]; exact partSum_replicate_zero _ _ _
  refine ⟨hmod j hj (by rw [h0, hp0]; rfl), fun hfit => hexact j hj (by rw [h0, hp0]) ?_⟩
  rw [h0, Nat.zero_add]
  exact hfit

theorem super_partition_consistency_witness :
    (exSuper.computeQuartetSupports true [0, 1, 2, 3] [0, 0, 0, 0, 0, 0, 0, 0, 0]).getD 0 0 =
      partSum (exSuper.computeQuartetSupports true [0, 1, 2, 3] [0, 0, 0, 0, 0, 0, 0, 0, 0])
        exSuper.partitions.length 0 :=
  (super_partition_consistency exSuper 0 1 2 3 [0, 0, 0, 0, 0, 0, 0, 0, 0] (by decide)
    (fun i => by
      have := getD_replicate_zero 9 i
      simp only [List.replicate] at this
      rw [this]; decide)).2.1 0 (by decide) (by decide) (by decide)

/-! ### the quartets of the sampling loop -/

theorem siteQuartets_length {R : Type} (classify : List Nat → List Nat → List Nat)
    (random_int : Nat → R → Nat × R) (taxa : List (List Nat)) (n : Nat) (acc : SiteAcc R) :
    (siteQuartets classify random_int taxa n acc).length = n := by
  induction n generalizing acc with
  | zero => rfl
  | succ n ih => simp only [siteQuartets, List.length_cons, ih]

/-! ### the per-partition attributes -/

theorem partTotal_cons (sa : SuperAlignment) (q : List Nat) (qs : List (List Nat)) (p j : Nat) :
    partTotal sa (q :: qs) p j = partCount sa q p j + partTotal sa qs p j := by
  simp only [partTotal, List.map_cons, List.sum_cons]

theorem partCount_le_sites (sa : SuperAlignment) (q : List Nat) (p j : Nat) (hj : j < 3) :
    partCount sa q p j ≤ (sa.partitions.map Alignment.sites).sum := by
  unfold partCount
  cases h : sa.partitions[p]? with
  | none => exact Nat.zero_le _
  | some aln =>
    simp only []
    have hmem : aln.sites ∈ sa.partitions.map Alignment.sites :=
      List.mem_map.mpr ⟨aln, List.getElem?_mem h, rfl⟩
    have h1 := List.single_le_sum (fun _ _ => Nat.zero_le _) _ hmem
    have h2 := partContribution_sum_le sa (q.getD 0 0) (q.getD 1 0) (q.getD 2 0) (q.getD 3 0)
      p aln
    interval_cases j <;> omega

theorem partTotal_le (sa : SuperAlignment) (qs : List (List Nat)) (p j : Nat) (hj : j < 3) :
    partTotal sa qs p j ≤ qs.length * (sa.partitions.map Alignment.sites).sum := by
  induction qs with
  | nil => simp [partTotal]
  | cons q qs ih =>
    rw [partTotal_cons, List.length_cons, Nat.succ_mul]
    have := partCount_le_sites sa q p j hj
    omega

/-- The per-partition counter of partition `p` after `n` iterations of the sampling
loop: what it held before plus the partition's counts on the drawn quartets. -/
theorem siteLoop_getD_part {R : Type} (sa : SuperAlignment) (random_int : Nat → R → Nat × R)
    (taxa : List (List Nat)) (htaxa : taxa.length = 4) (p j : Nat) (hj : j < 3) (n : Nat)
    (acc : SiteAcc R) (hidx : p * 3 + 3 + j < acc.support.length)
    (hv : acc.support.getD (p * 3 + 3 + j) 0 < SIZE_T) :
    (siteLoop ((Aln.super sa).computeQuartetSupports true) random_int taxa n
        acc).support.getD (p * 3 + 3 + j) 0 =
      (acc.support.getD (p * 3 + 3 + j) 0 +
        partTotal sa (siteQuartets ((Aln.super sa).computeQuartetSupports true) random_int taxa
          n acc) p j) % SIZE_T := by
  induction n generalizing acc with
  | zero =>
    simp only [siteLoop, siteQuartets, partTotal, List.map_nil, List.sum_nil, Nat.add_zero,
      Nat.mod_eq_of_lt hv]
  | succ n ih =>
    have hpos : 0 < SIZE_T := by decide
    obtain ⟨t0, t1, t2, t3, hq⟩ := list_length_four (drawQuartet random_int taxa acc.rstream).1
      (by rw [drawQuartet_length, htaxa])
    have hsup := siteIter_support ((Aln.super sa).computeQuartetSupports true) random_int taxa acc
    rw [hq] at hsup
    have hcall : (siteIter ((Aln.super sa).computeQuartetSupports true) random_int taxa
        acc).support.getD (p * 3 + 3 + j) 0 =
        (acc.support.getD (p * 3 + 3 + j) 0 + partCount sa [t0, t1, t2, t3] p j) % SIZE_T := by
      rw [hsup]
      show (sa.computeQuartetSupports true [t0, t1, t2, t3] (resetSupport acc.support)).getD
        (p * 3 + 3 + j) 0 = _
      rw [super_computeQuartetSupports_part sa t0 t1 t2 t3 p j hj _
        (by rw [resetSupport_length]; exact hidx)
        (by rw [resetSupport_getD_ge _ _ (by omega)]; exact hv),
        resetSupport_getD_ge _ _ (by omega)]
    simp only [siteLoop, siteQuartets]
    rw [ih _ (by rw [hsup, aln_computeQuartetSupports_length, resetSupport_length]; exact hidx)
      (by rw [hcall]; exact Nat.mod_lt _ hpos), hcall, partTotal_cons, hq, Nat.mod_add_mod,
      Nat.add_assoc]

theorem super_tally_eq (sa : SuperAlignment) (t0 t1 t2 t3 : Nat) (s : List Nat)
    (hlen : 3 ≤ s.length) (h0 : s.getD 0 0 = 0) (h1 : s.getD 1 0 = 0) (h2 : s.getD 2 0 = 0)
    (hs : (sa.partitions.map Alignment.sites).sum < SIZE_T) :
    tallySum (tallyOf (sa.computeQuartetSupports true [t0, t1, t2, t3] s)) =
      Finset.sum (Finset.range sa.partitions.length) (fun p =>
        partCount sa [t0, t1, t2, t3] p 0 + partCount sa [t0, t1, t2, t3] p 1 +
          partCount sa [t0, t1, t2, t3] p 2) := by
  have hpos : 0 < SIZE_T := by decide
  have hb := contributionSum_sum_le sa t0 t1 t2 t3 sa.partitions 0
  have g0 := superLoop_getD sa true t0 t1 t2 t3 0 (by decide) sa.partitions 0 s hlen
    (by rw [h0]; exact hpos)
  have g1 := superLoop_getD sa true t0 t1 t2 t3 1 (by decide) sa.partitions 0 s hlen
    (by rw [h1]; exact hpos)
  have g2 := superLoop_getD sa true t0 t1 t2 t3 2 (by decide) sa.partitions 0 s hlen
    (by rw [h2]; exact hpos)
  rw [h0, Nat.zero_add, Nat.mod_eq_of_lt (by omega)] at g0
  rw [h1, Nat.zero_add, Nat.mod_eq_of_lt (by omega)] at g1
  rw [h2, Nat.zero_add, Nat.mod_eq_of_lt (by omega)] at g2
  unfold SuperAlignment.computeQuartetSupports
  simp only [tallySum, tallyOf]
  rw [g0, g1, g2, Finset.sum_add_distrib, Finset.sum_add_distrib,
    ← contributionSum_eq_partCount, ← contributionSum_eq_partCount,
    ← contributionSum_eq_partCount]

theorem siteIter_sum_sites {R : Type} (classify : List Nat → List Nat → List Nat)
    (random_int : Nat → R → Nat × R) (taxa : List (List Nat)) (acc : SiteAcc R) :
    (siteIter classify random_int taxa acc).sum_sites =
      (accumulate acc (drawQuartet random_int taxa acc.rstream).2
        (classify (drawQuartet random_int taxa acc.rstream).1
          (resetSupport acc.support))).sum_sites := rfl

/-- The running total `sum_sites` after `n` iterations on a partitioned alignment with the
per-partition report on, when it cannot wrap: the per-partition counts of all drawn
quartets, added up. -/
theorem siteLoop_sum_sites_super {R : Type} (sa : SuperAlignment)
    (random_int : Nat → R → Nat × R) (taxa : List (List Nat)) (htaxa : taxa.length = 4)
    (n : Nat) (acc : SiteAcc R) (hlen : 3 ≤ acc.support.length)
    (hfit : acc.sum_sites + n * (sa.partitions.map Alignment.sites).sum < SIZE_T) :
    (siteLoop ((Aln.super sa).computeQuartetSupports true) random_int taxa n acc).sum_sites =
      acc.sum_sites + Finset.sum (Finset.range sa.partitions.length) (fun p =>
        partTotal sa (siteQuartets ((Aln.super sa).computeQuartetSupports true) random_int
          taxa n acc) p 0 +
        partTotal sa (siteQuartets ((Aln.super sa).computeQuartetSupports true) random_int
          taxa n acc) p 1 +
        partTotal sa (siteQuartets ((Aln.super sa).computeQuartetSupports true) random_int
          taxa n acc) p 2) := by
  induction n generalizing acc with
  | zero =>
    simp only [siteLoop, siteQuartets, partTotal, List.map_nil, List.sum_nil, Nat.add_zero,
      Finset.sum_const_zero]
  | succ n ih =>
    have hmul : (n + 1) * (sa.partitions.map Alignment.sites).sum =
        n * (sa.partitions.map Alignment.sites).sum + (sa.partitions.map Alignment.sites).sum :=
      Nat.succ_mul _ _
    obtain ⟨t0, t1, t2, t3, hq⟩ := list_length_four (drawQuartet random_int taxa acc.rstream).1
      (by rw [drawQuartet_length, htaxa])
    have hsup := siteIter_support ((Aln.super sa).computeQuartetSupports true) random_int taxa acc
    have hss := siteIter_sum_sites ((Aln.super sa).computeQuartetSupports true) random_int taxa acc
    rw [hq] at hsup hss
    have hrl : 3 ≤ (resetSupport acc.support).length := by rw [resetSupport_length]; exact hlen
    have htl := aln_tally_le (Aln.super sa) true t0 t1 t2 t3 (resetSupport acc.support) hrl
      (resetSupport_getD_lt _ 0 (by decide)) (resetSupport_getD_lt _ 1 (by decide))
      (resetSupport_getD_lt _ 2 (by decide))
    have hsites : (Aln.super sa).sites = (sa.partitions.map Alignment.sites).sum := rfl
    rw [hsites] at htl
    have hte := super_tally_eq sa t0 t1 t2 t3 (resetSupport acc.support) hrl
      (resetSupport_getD_lt _ 0 (by decide)) (resetSupport_getD_lt _ 1 (by decide))
      (resetSupport_getD_lt _ 2 (by decide)) (by omega)
    have hcall : (Aln.super sa).computeQuartetSupports true [t0, t1, t2, t3]
        (resetSupport acc.support) =
        sa.computeQuartetSupports true [t0, t1, t2, t3] (resetSupport acc.support) := rfl
    rw [hcall] at htl hss hsup
    rw [accumulate_sum_sites _ _ _ (by omega), Nat.mod_eq_of_lt (by omega), hte] at hss
    rw [hte] at htl
    simp only [siteLoop, siteQuartets]
    rw [ih _ (by rw [hsup, SuperAlignment.computeQuartetSupports, superLoop_length]; exact hrl)
      (by rw [hss]; omega), hss, hq, Nat.add_assoc, ← Finset.sum_add_distrib]
    congr 1
    apply Finset.sum_congr rfl
    intro p _
    rw [partTotal_cons, partTotal_cons, partTotal_cons]
    omega

theorem partitionKey_block (fmt : Fmt) (p : Nat) :
    partitionKey fmt (p * 3 + 3 + 0) = "sC" ++ fmt.convertIntToString ((p + 1 : Nat) : Int) ∧
    partitionKey fmt (p * 3 + 3 + 1) = "sD1" ++ fmt.convertIntToString ((p + 1 : Nat) : Int) ∧
    partitionKey fmt (p * 3 + 3 + 2) = "sD2" ++ fmt.convertIntToString ((p + 1 : Nat) : Int) := by
  have d0 : (p * 3 + 3 + 0) / 3 = p + 1 := by omega
  have d1 : (p * 3 + 3 + 1) / 3 = p + 1 := by omega
  have d2 : (p * 3 + 3 + 2) / 3 = p + 1 := by omega
  have m0 : (p * 3 + 3 + 0) % 3 = 0 := by omega
  have m1 : (p * 3 + 3 + 1) % 3 = 1 := by omega
  have m2 : (p * 3 + 3 + 2) % 3 = 2 := by omega
  unfold partitionKey
  rw [d0, d1, d2, m0, m1, m2]
  simp

theorem partitionKey_inj (fmt : Fmt) (i i' : Nat)
    (hconv : fmt.convertIntToString ((i / 3 : Nat) : Int) =
      fmt.convertIntToString ((i' / 3 : Nat) : Int) → i / 3 = i' / 3)
    (h : partitionKey fmt i = partitionKey fmt i') : i = i' := by
  have hdata : ∀ a b : String, a = b → a.data = b.data := fun a b h => by rw [h]
  have h' := hdata _ _ h
  unfold partitionKey at h'
  rw [String.data_append, String.data_append] at h'
  have key : ∀ x y : String, x.data = y.data → x = y := fun x y e => String.ext e
  split_ifs at h' with a b c d e f g
  · have := hconv (key _ _ (List.append_cancel_left h')); omega
  · simp at h'
  · simp at h'
  · simp at h'
  · have := hconv (key _ _ (List.append_cancel_left h')); omega
  · simp at h'
  · simp at h'
  · simp at h'
  · have := hconv (key _ _ (List.append_cancel_left h')); omega

theorem putPartitionAttrs_getAttr_self (fmt : Fmt) (nquartets : Nat) (support : List Nat)
    (nei : Nat × Nat) (st : Store) (k0 : Nat) (hk0 : k0 < support.length - 3)
    (hinj : ∀ k, k < support.length - 3 →
      partitionKey fmt (k + 3) = partitionKey fmt (k0 + 3) → k = k0) :
    getAttr ((putPartitionAttrs fmt nquartets support nei st).attrs nei)
        (partitionKey fmt (k0 + 3)) =
      some (.dbl (ddiv (some (support.getD (k0 + 3) 0 : ℚ)) (some (nquartets : ℚ)))) := by
  unfold putPartitionAttrs
  generalize support.length - 3 = m at hk0 hinj
  induction m with
  | zero => omega
  | succ m ih =>
    simp only [List.range_succ, List.foldl_append, List.foldl_cons, List.foldl_nil]
    rw [store_putAttr_attrs_self]
    by_cases hk : k0 = m
    · subst hk
      rw [getAttr_putAttr_self]
    · rw [getAttr_putAttr_ne _ _ _ _ (fun e => hk (hinj m (by omega) e.symm).symm)]
      exact ih (by omega) (fun k hk' => hinj k (by omega))

/-! ### binary64 rounding -/

theorem roundEven_eq (x : ℚ) (m : ℤ) (h1 : (m : ℚ) - 1 / 2 < x) (h2 : x < (m : ℚ) + 1 / 2) :
    roundEven x = m := by
  unfold roundEven
  simp only []
  by_cases hx : (m : ℚ) ≤ x
  · have hf : ⌊x⌋ = m := by
      rw [Int.floor_eq_iff]
      constructor <;> linarith
    rw [hf, if_pos (by linarith)]
  · have hf : ⌊x⌋ = m - 1 := by
      rw [Int.floor_eq_iff]
      push_cast
      constructor <;> linarith
    rw [hf]
    push_cast
    rw [if_neg (by linarith), if_pos (by linarith)]
    ring

theorem roundEven_intCast (n : ℤ) : roundEven (n : ℚ) = n :=
  roundEven_eq _ n (by linarith) (by linarith)

theorem binadeExp_eq (q : ℚ) (e : ℤ) (hq : q ≠ 0) (h1 : (2 : ℚ) ^ e ≤ |q|)
    (h2 : |q| < (2 : ℚ) ^ (e + 1)) (he : -1022 ≤ e) : binadeExp q = e := by
  have hpos : 0 < |q| := abs_pos.mpr hq
  have a : e ≤ Int.log 2 |q| := by
    have := (Int.zpow_le_iff_le_log (b := 2) (by decide) (x := e) hpos).mp (by exact_mod_cast h1)
    exact this
  have b : Int.log 2 |q| < e + 1 := by
    have := (Int.lt_zpow_iff_log_lt (b := 2) (by decide) (x := e + 1) hpos).mp
      (by exact_mod_cast h2)
    exact this
  unfold binadeExp
  omega

/-- The double nearest to `q`, from its binade and its rounded significand. -/
theorem fl_eq (q : ℚ) (e m : ℤ) (hq : q ≠ 0) (h1 : (2 : ℚ) ^ e ≤ |q|)
    (h2 : |q| < (2 : ℚ) ^ (e + 1)) (he : -1022 ≤ e)
    (hm : roundEven (q / (2 : ℚ) ^ (e - 52)) = m)
    (hr : |(m : ℚ) * (2 : ℚ) ^ (e - 52)| < 2 ^ 1024) :
    fl q = some ((m : ℚ) * (2 : ℚ) ^ (e - 52)) := by
  unfold fl
  rw [if_neg hq]
  simp only [binadeExp_eq q e hq h1 h2 he, hm]
  rw [if_pos hr]

/-- An integer below `2^53` in absolute value is a double. -/
theorem fl_intCast (n : ℤ) (h : |n| < 2 ^ 53) : fl (n : ℚ) = some (n : ℚ) := by
  by_cases hn : n = 0
  · subst hn
    simp [fl]
  have hq : (n : ℚ) ≠ 0 := by exact_mod_cast hn
  have hpos : 0 < |(n : ℚ)| := abs_pos.mpr hq
  have hone : (1 : ℚ) ≤ |(n : ℚ)| := by
    have : (1 : ℤ) ≤ |n| := Int.one_le_abs hn
    exact_mod_cast this
  have hlt : |(n : ℚ)| < 2 ^ 53 := by exact_mod_cast h
  have e0 : 0 ≤ Int.log 2 |(n : ℚ)| :=
    (Int.zpow_le_iff_le_log (b := 2) (by decide) (x := 0) hpos).mp (by simpa using hone)
  have e1 : Int.log 2 |(n : ℚ)| < 53 :=
    (Int.lt_zpow_iff_log_lt (b := 2) (by decide) (x := 53) hpos).mp (by
      have : ((2 : ℕ) : ℚ) ^ (53 : ℤ) = 2 ^ 53 := by norm_num
      rw [this]; exact hlt)
  have hb : binadeExp (n : ℚ) = Int.log 2 |(n : ℚ)| := by
    unfold binadeExp
    omega
  obtain ⟨k, hk⟩ : ∃ k : ℕ, Int.log 2 |(n : ℚ)| - 52 = -(k : ℤ) :=
    ⟨(52 - Int.log 2 |(n : ℚ)|).toNat, by omega⟩
  have hulp : (2 : ℚ) ^ (Int.log 2 |(n : ℚ)| - 52) = ((2 : ℚ) ^ k)⁻¹ := by
    rw [hk, zpow_neg, zpow_natCast]
  have hne : (2 : ℚ) ^ k ≠ 0 := pow_ne_zero _ (by norm_num)
  have hdiv : (n : ℚ) / ((2 : ℚ) ^ k)⁻¹ = ((n * 2 ^ k : ℤ) : ℚ) := by
    push_cast
    field_simp
  unfold fl
  rw [if_neg hq]
  simp only [hb, hulp, hdiv, roundEven_intCast]
  have hval : ((n * 2 ^ k : ℤ) : ℚ) * ((2 : ℚ) ^ k)⁻¹ = (n : ℚ) := by
    push_cast
    field_simp
  rw [hval, if_pos (lt_trans hlt (by norm_num))]

theorem fl_natCast (n : ℕ) (h : n < 2 ^ 53) : fl (n : ℚ) = some (n : ℚ) := by
  have := fl_intCast (n : ℤ) (by
    rw [abs_of_nonneg (by positivity)]
    exact_mod_cast h)
  simpa using this

theorem fofNat_eq (n : ℕ) (h : n < 2 ^ 53) : fofNat n = some (n : ℚ) := fl_natCast n h

theorem fofInt_eq (n : ℤ) (h : |n| < 2 ^ 53) : fofInt n = some (n : ℚ) := fl_intCast n h

theorem fdiv_some (a b : ℚ) (hb : b ≠ 0) : fdiv (some a) (some b) = fl (a / b) := by
  simp [fdiv, ddiv, hb]

theorem fdiv_zero (x : Double) : fdiv x (some 0) = none := by
  cases x <;> simp [fdiv, ddiv]

theorem fmul_some (a b : ℚ) : fmul (some a) (some b) = fl (a * b) := by
  simp [fmul, dmul]

theorem fadd_some (a b : ℚ) : fadd (some a) (some b) = fl (a + b) := by
  simp [fadd, dadd]

theorem fpercent_none_left (n : Double) : fpercent none n = none := by
  simp [fpercent, fdiv, ddiv, fmul, dmul, dround]

theorem fpercent_zero_divisor (x : Double) : fpercent x (some 0) = none := by
  simp [fpercent, fdiv_zero, fmul, dmul, dround, fdiv, ddiv]

/-! ### the sampling loop in binary64 arithmetic -/

theorem ieee_accumulate_support {R : Type} (acc : SiteAcc R) (r : R) (support : List Nat) :
    (IEEE.accumulate acc r support).support = support := by
  unfold IEEE.accumulate
  simp only []
  split_ifs <;> rfl

theorem ieee_accumulate_rstream {R : Type} (acc : SiteAcc R) (r : R) (support : List Nat) :
    (IEEE.accumulate acc r support).rstream = r := by
  unfold IEEE.accumulate
  simp only []
  split_ifs <;> rfl

theorem accumulate_rstream {R : Type} (acc : SiteAcc R) (r : R) (support : List Nat) :
    (accumulate acc r support).rstream = r := by
  unfold accumulate
  simp only []
  split_ifs <;> rfl

theorem ieee_accumulate_sum_sites {R : Type} (a b : SiteAcc R) (r : R) (support : List Nat)
    (h : a.sum_sites = b.sum_sites) :
    (IEEE.accumulate a r support).sum_sites = (accumulate b r support).sum_sites := by
  unfold IEEE.accumulate accumulate
  simp only [h]
  split_ifs <;> rfl

theorem ieee_siteIter_support {R : Type} (classify : List Nat → List Nat → List Nat)
    (random_int : Nat → R → Nat × R) (taxa : List (List Nat)) (acc : SiteAcc R) :
    (IEEE.siteIter classify random_int taxa acc).support =
      classify (drawQuartet random_int taxa acc.rstream).1 (resetSupport acc.support) :=
  ieee_accumulate_support _ _ _

/-- The counters, the random stream and the running site total do not depend on the
arithmetic of the `double` accumulators. -/
theorem ieee_siteIter_counters {R : Type} (classify : List Nat → List Nat → List Nat)
    (random_int : Nat → R → Nat × R) (taxa : List (List Nat)) (a b : SiteAcc R)
    (hr : a.rstream = b.rstream) (hs : a.support = b.support)
    (hn : a.sum_sites = b.sum_sites) :
    (IEEE.siteIter classify random_int taxa a).rstream =
      (siteIter classify random_int taxa b).rstream ∧
    (IEEE.siteIter classify random_int taxa a).support =
      (siteIter classify random_int taxa b).support ∧
    (IEEE.siteIter classify random_int taxa a).sum_sites =
      (siteIter classify random_int taxa b).sum_sites := by
  unfold IEEE.siteIter siteIter
  simp only [hr, hs]
  exact ⟨by rw [ieee_accumulate_rstream, accumulate_rstream],
    by rw [ieee_accumulate_support, accumulate_support],
    ieee_accumulate_sum_sites a b _ _ hn⟩

theorem ieee_siteLoop_counters {R : Type} (classify : List Nat → List Nat → List Nat)
    (random_int : Nat → R → Nat × R) (taxa : List (List Nat)) (n : Nat) (a b : SiteAcc R)
    (hr : a.rstream = b.rstream) (hs : a.support = b.support)
    (hn : a.sum_sites = b.sum_sites) :
    (IEEE.siteLoop classify random_int taxa n a).rstream =
      (siteLoop classify random_int taxa n b).rstream ∧
    (IEEE.siteLoop classify random_int taxa n a).support =
      (siteLoop classify random_int taxa n b).support ∧
    (IEEE.siteLoop classify random_int taxa n a).sum_sites =
      (siteLoop classify random_int taxa n b).sum_sites ∧
    IEEE.siteDraws classify random_int taxa n a = siteDraws classify random_int taxa n b ∧
    IEEE.siteQuartets classify random_int taxa n a =
      siteQuartets classify random_int taxa n b := by
  induction n generalizing a b with
  | zero => exact ⟨hr, hs, hn, rfl, rfl⟩
  | succ n ih =>
    obtain ⟨i1, i2, i3⟩ := ieee_siteIter_counters classify random_int taxa a b hr hs hn
    obtain ⟨j1, j2, j3, j4, j5⟩ := ih _ _ i1 i2 i3
    simp only [IEEE.siteLoop, siteLoop, IEEE.siteDraws, siteDraws, IEEE.siteQuartets,
      siteQuartets]
    exact ⟨j1, j2, j3, by rw [j4, i2], by rw [j5, hr]⟩

theorem ieee_accumulate_fractions {R : Type} (acc : SiteAcc R) (r : R) (support : List Nat)
    (hfit : tallySum (tallyOf support) < SIZE_T) :
    (IEEE.accumulate acc r support).sCF =
      (if tallySum (tallyOf support) > 0 then
        fadd acc.sCF (fdiv (fofNat (tallyGet 0 (tallyOf support)))
          (fofNat (tallySum (tallyOf support))))
       else acc.sCF) ∧
    (IEEE.accumulate acc r support).sDF1 =
      (if tallySum (tallyOf support) > 0 then
        fadd acc.sDF1 (fdiv (fofNat (tallyGet 1 (tallyOf support)))
          (fofNat (tallySum (tallyOf support))))
       else acc.sDF1) ∧
    (IEEE.accumulate acc r support).sDF2 =
      (if tallySum (tallyOf support) > 0 then
        fadd acc.sDF2 (fdiv (fofNat (tallyGet 2 (tallyOf support)))
          (fofNat (tallySum (tallyOf support))))
       else acc.sDF2) := by
  have hs := tallySum_mod (tallyOf support) hfit
  unfold tallyOf at hs
  unfold IEEE.accumulate
  simp only [hs]
  by_cases hp : tallySum (tallyOf support) > 0
  · have hp' : tallySum (support.getD 0 0, support.getD 1 0, support.getD 2 0) > 0 := hp
    simp only [hp, hp', if_true]
    exact ⟨rfl, rfl, rfl⟩
  · have hp' : ¬ tallySum (support.getD 0 0, support.getD 1 0, support.getD 2 0) > 0 := hp
    simp only [hp, hp', if_false]
    exact ⟨trivial, trivial, trivial⟩

/-- The three accumulators after `n` iterations are the running binary64 sums over the
tallies of the draws. -/
theorem ieee_siteLoop_spec {R : Type} (classify : List Nat → List Nat → List Nat)
    (random_int : Nat → R → Nat × R) (taxa : List (List Nat)) (n : Nat) (acc : SiteAcc R)
    (hfit : ∀ d, d ∈ IEEE.siteDraws classify random_int taxa n acc → tallySum d < SIZE_T) :
    (IEEE.siteLoop classify random_int taxa n acc).sCF =
      flFracSum 0 acc.sCF (IEEE.siteDraws classify random_int taxa n acc) ∧
    (IEEE.siteLoop classify random_int taxa n acc).sDF1 =
      flFracSum 1 acc.sDF1 (IEEE.siteDraws classify random_int taxa n acc) ∧
    (IEEE.siteLoop classify random_int taxa n acc).sDF2 =
      flFracSum 2 acc.sDF2 (IEEE.siteDraws classify random_int taxa n acc) := by
  induction n generalizing acc with
  | zero => exact ⟨rfl, rfl, rfl⟩
  | succ n ih =>
    simp only [IEEE.siteDraws, List.mem_cons, forall_eq_or_imp] at hfit
    obtain ⟨hd, hrest⟩ := hfit
    obtain ⟨i0, i1, i2⟩ := ih (IEEE.siteIter classify random_int taxa acc) hrest
    have hsup := ieee_siteIter_support classify random_int taxa acc
    rw [hsup] at hd
    obtain ⟨a0, a1, a2⟩ := ieee_accumulate_fractions acc
      (drawQuartet random_int taxa acc.rstream).2
      (classify (drawQuartet random_int taxa acc.rstream).1 (resetSupport acc.support)) hd
    have b0 : (IEEE.siteIter classify random_int taxa acc).sCF = _ := a0
    have b1 : (IEEE.siteIter classify random_int taxa acc).sDF1 = _ := a1
    have b2 : (IEEE.siteIter classify random_int taxa acc).sDF2 = _ := a2
    simp only [IEEE.siteLoop, IEEE.siteDraws, flFracSum]
    rw [i0, i1, i2, b0, b1, b2, hsup]
    exact ⟨rfl, rfl, rfl⟩

theorem ieee_siteDraws_length {R : Type} (classify : List Nat → List Nat → List Nat)
    (random_int : Nat → R → Nat × R) (taxa : List (List Nat)) (n : Nat) (acc : SiteAcc R) :
    (IEEE.siteDraws classify random_int taxa n acc).length = n := by
  induction n generalizing acc with
  | zero => rfl
  | succ n ih => simp [IEEE.siteDraws, ih]

/-! ### reading the binary64 attributes back -/

theorem ieee_putPartitionAttrs_getAttr (fmt : Fmt) (nquartets : Nat) (support : List Nat)
    (nei : Nat × Nat) (st : Store) (key : String)
    (hkey : ∀ k, k < support.length - 3 → partitionKey fmt (k + 3) ≠ key) :
    getAttr ((IEEE.putPartitionAttrs fmt nquartets support nei st).attrs nei) key =
      getAttr (st.attrs nei) key := by
  unfold IEEE.putPartitionAttrs
  generalize support.length - 3 = m at hkey
  induction m with
  | zero => rfl
  | succ m ih =>
    simp only [List.range_succ, List.foldl_append, List.foldl_cons, List.foldl_nil]
    rw [store_putAttr_attrs_self, getAttr_putAttr_ne _ _ _ _ (Ne.symm (hkey m (by omega)))]
    exact ih (fun k hk => hkey k (by omega))

theorem ieee_storeSiteValues_getAttr {R : Type} (fmt : Fmt) (nquartets : Nat)
    (branch : Nat × Nat) (acc : SiteAcc R) (st : Store)
    (hfmt : ∀ i, 3 ≤ i → i < acc.support.length →
      fmt.convertIntToString ((i / 3 : Nat) : Int) ≠ "F") :
    let attrs := (IEEE.storeSiteValues fmt nquartets branch acc st).attrs (branch.2, branch.1)
    getAttr attrs "sCF" = some (.dbl (fpercent acc.sCF (fofNat nquartets))) ∧
    getAttr attrs "sN" = some (.dbl (fdiv (fofNat acc.sum_sites) (fofNat nquartets))) ∧
    getAttr attrs "sDF1" = some (.dbl (fpercent acc.sDF1 (fofNat nquartets))) ∧
    getAttr attrs "sDF2" = some (.dbl (fpercent acc.sDF2 (fofNat nquartets))) := by
  intro attrs
  have hk : ∀ k, k < acc.support.length - 3 →
      partitionKey fmt (k + 3) ≠ "sCF" ∧ partitionKey fmt (k + 3) ≠ "sN" ∧
      partitionKey fmt (k + 3) ≠ "sDF1" ∧ partitionKey fmt (k + 3) ≠ "sDF2" :=
    fun k hk => partitionKey_ne fmt (k + 3) (hfmt (k + 3) (by omega) (by omega))
  simp only [attrs, IEEE.storeSiteValues]
  refine ⟨?_, ?_, ?_, ?_⟩
  · rw [ieee_putPartitionAttrs_getAttr _ _ _ _ _ _ (fun k h => (hk k h).1)]
    simp only [store_putAttr_attrs_self]
    rw [getAttr_putAttr_ne _ _ _ _ (by decide), getAttr_putAttr_ne _ _ _ _ (by decide),
      getAttr_putAttr_ne _ _ _ _ (by decide), getAttr_putAttr_self]
  · rw [ieee_putPartitionAttrs_getAttr _ _ _ _ _ _ (fun k h => (hk k h).2.1)]
    simp only [store_putAttr_attrs_self]
    rw [getAttr_putAttr_ne _ _ _ _ (by decide), getAttr_putAttr_ne _ _ _ _ (by decide),
      getAttr_putAttr_self]
  · rw [ieee_putPartitionAttrs_getAttr _ _ _ _ _ _ (fun k h => (hk k h).2.2.1)]
    simp only [store_putAttr_attrs_self]
    rw [getAttr_putAttr_ne _ _ _ _ (by decide), getAttr_putAttr_self]
  · rw [ieee_putPartitionAttrs_getAttr _ _ _ _ _ _ (fun k h => (hk k h).2.2.2)]
    simp only [store_putAttr_attrs_self]
    rw [getAttr_putAttr_self]

theorem ieee_siteLoop_support_length {R : Type} (tree : PhyloTree) (params : Params)
    (random_int : Nat → R → Nat × R) (taxa : List (List Nat)) (n : Nat) (rstream : R) :
    (IEEE.siteLoop (tree.aln.computeQuartetSupports params.site_concordance_partition)
      random_int taxa n (initialAcc params tree rstream)).support.length =
      (initialSupport params tree).length := by
  rw [(ieee_siteLoop_counters _ random_int taxa n (initialAcc params tree rstream)
    (initialAcc params tree rstream) rfl rfl rfl).2.1,
    siteLoop_support_length _ _ _ (fun q s => aln_computeQuartetSupports_length tree.aln _ q s)]
  rfl

/-- The stored site attributes, in binary64 arithmetic, in terms of the tallies of the
draws. -/
theorem ieee_site_stored {R : Type} (tree : PhyloTree) (params : Params) (fmt : Fmt)
    (random_int : Nat → R → Nat × R) (branch : Nat × Nat) (N : Nat) (rstream : R) (st : Store)
    (taxa : List (List Nat))
    (htaxa : tree.extractTaxa branch = .ok taxa)
    (hfit : totalSites (IEEE.siteDraws
      (tree.aln.computeQuartetSupports params.site_concordance_partition)
      random_int taxa N (initialAcc params tree rstream)) < SIZE_T)
    (hfmt : ∀ i, 3 ≤ i → i < (initialSupport params tree).length →
      fmt.convertIntToString ((i / 3 : Nat) : Int) ≠ "F") :
    let draws := IEEE.siteDraws
      (tree.aln.computeQuartetSupports params.site_concordance_partition)
      random_int taxa N (initialAcc params tree rstream)
    let out := (IEEE.computeSiteConcordanceBranch tree params fmt random_int branch N rstream
      st).1
    let attrs := out.store.attrs (branch.2, branch.1)
    out.error = none ∧
    getAttr attrs "sCF" = some (.dbl (fpercent (flFracSum 0 (some 0) draws) (fofNat N))) ∧
    getAttr attrs "sDF1" = some (.dbl (fpercent (flFracSum 1 (some 0) draws) (fofNat N))) ∧
    getAttr attrs "sDF2" = some (.dbl (fpercent (flFracSum 2 (some 0) draws) (fofNat N))) ∧
    getAttr attrs "sN" = some (.dbl (fdiv (fofNat (totalSites draws)) (fofNat N))) := by
  intro draws out attrs
  have hfit' : ∀ d, d ∈ draws → tallySum d < SIZE_T := fun d hd =>
    lt_of_le_of_lt (le_totalSites draws d hd) hfit
  obtain ⟨l0, l1, l2⟩ := ieee_siteLoop_spec
    (tree.aln.computeQuartetSupports params.site_concordance_partition) random_int taxa N
    (initialAcc params tree rstream) hfit'
  obtain ⟨_, _, c3, c4, _⟩ := ieee_siteLoop_counters
    (tree.aln.computeQuartetSupports params.site_concordance_partition) random_int taxa N
    (initialAcc params tree rstream) (initialAcc params tree rstream) rfl rfl rfl
  have hsum := (siteLoop_spec
    (tree.aln.computeQuartetSupports params.site_concordance_partition) random_int taxa N
    (initialAcc params tree rstream) 0 0 0 rfl rfl rfl (by rw [← c4]; exact hfit')).2.2.2
  have hz : (initialAcc params tree rstream).sum_sites = 0 := rfl
  rw [hz, Nat.zero_add, ← c4] at hsum
  have hss := hsum hfit
  rw [← c3] at hss
  have hlen := ieee_siteLoop_support_length tree params random_int taxa N rstream
  have hst := ieee_storeSiteValues_getAttr fmt N branch
    (IEEE.siteLoop (tree.aln.computeQuartetSupports params.site_concordance_partition)
      random_int taxa N (initialAcc params tree rstream)) st (by rw [hlen]; exact hfmt)
  simp only at hst
  obtain ⟨s0, sn, s1, s2⟩ := hst
  have hstore : out.store = IEEE.storeSiteValues fmt N branch
      (IEEE.siteLoop (tree.aln.computeQuartetSupports params.site_concordance_partition)
        random_int taxa N (initialAcc params tree rstream)) st := by
    simp only [out, IEEE.computeSiteConcordanceBranch, htaxa]
  have herr : out.error = none := by
    simp only [out, IEEE.computeSiteConcordanceBranch, htaxa]
  simp only [attrs, hstore]
  rw [l0] at s0
  rw [l1] at s1
  rw [l2] at s2
  rw [hss] at sn
  exact ⟨herr, s0, s1, s2, sn⟩

/-! ### binary64 values that are exact -/

theorem fl_zero : fl 0 = some 0 := by simp [fl]

theorem fpercent_zero_num (n : ℕ) (hn : 0 < n) (hlt : n < 2 ^ 53) :
    fpercent (some 0) (fofNat n) = some 0 := by
  have hq : ((n : ℕ) : ℚ) ≠ 0 := by exact_mod_cast (Nat.pos_iff_ne_zero.mp hn)
  rw [fofNat_eq n hlt]
  unfold fpercent
  rw [fdiv_some _ _ hq, zero_div, fl_zero, fmul_some, zero_mul, fl_zero]
  simp only [dround, Option.map_some']
  rw [cround_zero, fdiv_some _ _ (by norm_num)]
  simp [fl_zero]

theorem fpercent_self (n : ℕ) (hn : 0 < n) (hlt : n < 2 ^ 53) :
    fpercent (some (n : ℚ)) (fofNat n) = some 100 := by
  have hq : ((n : ℕ) : ℚ) ≠ 0 := by exact_mod_cast (Nat.pos_iff_ne_zero.mp hn)
  have h1 : fl 1 = some 1 := by
    have := fl_intCast 1 (by norm_num)
    simpa using this
  have h4 : fl 10000 = some 10000 := by
    have := fl_intCast 10000 (by norm_num)
    simpa using this
  have h2 : fl 100 = some 100 := by
    have := fl_intCast 100 (by norm_num)
    simpa using this
  rw [fofNat_eq n hlt]
  unfold fpercent
  rw [fdiv_some _ _ hq, div_self hq, h1, fmul_some, one_mul, h4]
  simp only [dround, Option.map_some']
  have hc : cround (10000 : ℚ) = 10000 := by
    have := cround_intCast 10000 (by norm_num)
    simpa using this
  rw [hc, fdiv_some _ _ (by norm_num)]
  norm_num
  exact h2

theorem fdiv_self (n : ℕ) (hn : 0 < n) (hlt : n < 2 ^ 53) :
    fdiv (fofNat n) (fofNat n) = some 1 := by
  have hq : ((n : ℕ) : ℚ) ≠ 0 := by exact_mod_cast (Nat.pos_iff_ne_zero.mp hn)
  rw [fofNat_eq n hlt, fdiv_some _ _ hq, div_self hq]
  have := fl_intCast 1 (by norm_num)
  simpa using this

/-- Draws that all give the tally `(1, 0, 0)`: the running sums are exact. -/
theorem flFracSum_all_first (draws : List (Nat × Nat × Nat)) (k : ℕ)
    (h : ∀ d, d ∈ draws → d = (1, 0, 0)) (hk : k + draws.length < 2 ^ 53) :
    flFracSum 0 (some (k : ℚ)) draws = some ((k + draws.length : ℕ) : ℚ) ∧
    flFracSum 1 (some 0) draws = some 0 ∧ flFracSum 2 (some 0) draws = some 0 ∧
    totalSites draws = draws.length := by
  induction draws generalizing k with
  | nil => simp [flFracSum, totalSites]
  | cons d ds ih =>
    have hd := h d (List.mem_cons_self _ _)
    subst hd
    simp only [List.length_cons] at hk
    obtain ⟨i0, i1, i2, it⟩ := ih (k + 1) (fun x hx => h x (List.mem_cons_of_mem _ hx))
      (by omega)
    have f1 : fofNat 1 = some 1 := by
      have := fofNat_eq 1 (by norm_num)
      simpa using this
    have f0 : fofNat 0 = some 0 := by
      have := fofNat_eq 0 (by norm_num)
      simpa using this
    have q1 : fdiv (some (1 : ℚ)) (some 1) = some 1 := by
      rw [fdiv_some _ _ (by norm_num)]
      have := fl_intCast 1 (by norm_num)
      simpa using this
    have q0 : fdiv (some (0 : ℚ)) (some 1) = some 0 := by
      rw [fdiv_some _ _ (by norm_num)]
      simp [fl_zero]
    have a1 : fadd (some (k : ℚ)) (some 1) = some ((k + 1 : ℕ) : ℚ) := by
      rw [fadd_some]
      have := fl_natCast (k + 1) (by omega)
      push_cast at this ⊢
      exact this
    have a0 : fadd (some (0 : ℚ)) (some 0) = some 0 := by
      rw [fadd_some]
      simp [fl_zero]
    have ts : tallySum ((1, 0, 0) : Nat × Nat × Nat) = 1 := rfl
    have g0 : tallyGet 0 ((1, 0, 0) : Nat × Nat × Nat) = 1 := rfl
    have g1 : tallyGet 1 ((1, 0, 0) : Nat × Nat × Nat) = 0 := rfl
    have g2 : tallyGet 2 ((1, 0, 0) : Nat × Nat × Nat) = 0 := rfl
    simp only [flFracSum, totalSites, ts, g0, g1, g2, f1, f0, q1, q0, a1, a0, gt_iff_lt,
      Nat.lt_one_iff, if_true, Nat.zero_lt_one, List.length_cons]
    refine ⟨?_, i1, i2, by rw [it]; omega⟩
    rw [i0]
    congr 2
    omega

/-! ### the values stored for one branch, in binary64 arithmetic -/

theorem fl_57_800 : fl (57 / 800) = some (5134103575202365 / 72057594037927936) := by
  have h := fl_eq (57 / 800) (-4) 5134103575202365 (by norm_num)
    (by norm_num [abs_of_pos]) (by norm_num [abs_of_pos]) (by norm_num)
    (by apply roundEven_eq <;> norm_num) (by norm_num [abs_of_pos])
  rw [h]
  norm_num

theorem fl_57_800_again :
    fl (5134103575202365 / 72057594037927936) =
      some (5134103575202365 / 72057594037927936) := by
  have h := fl_eq (5134103575202365 / 72057594037927936) (-4) 5134103575202365 (by norm_num)
    (by norm_num [abs_of_pos]) (by norm_num [abs_of_pos]) (by norm_num)
    (by apply roundEven_eq <;> norm_num) (by norm_num [abs_of_pos])
  rw [h]
  norm_num

theorem fl_57_800_scaled :
    fl (5134103575202365 / 72057594037927936 * 10000) =
      some (6267216278323199 / 8796093022208) := by
  have h := fl_eq (5134103575202365 / 72057594037927936 * 10000) 9 6267216278323199
    (by norm_num) (by norm_num [abs_of_pos]) (by norm_num [abs_of_pos]) (by norm_num)
    (by apply roundEven_eq <;> norm_num) (by norm_num [abs_of_pos])
  rw [h]
  norm_num

theorem fl_712_100 : fl (712 / 100) = some (8016407336719483 / 1125899906842624) := by
  have h := fl_eq (712 / 100) 2 8016407336719483 (by norm_num)
    (by norm_num [abs_of_pos]) (by norm_num [abs_of_pos]) (by norm_num)
    (by apply roundEven_eq <;> norm_num) (by norm_num [abs_of_pos])
  rw [h]
  norm_num

/-- In binary64 arithmetic `round(57.0 / 800 * 10000) / 100` is the double next to 7.12:
the product is `712.4999999999999`, below the half. -/
theorem fpercent_57_800 :
    fpercent (some (5134103575202365 / 72057594037927936)) (fofNat 1) =
      some (8016407336719483 / 1125899906842624) := by
  have f1 : fofNat 1 = some 1 := by
    have := fofNat_eq 1 (by norm_num)
    simpa using this
  unfold fpercent
  rw [f1, fdiv_some _ _ (by norm_num), div_one, fl_57_800_again, fmul_some, fl_57_800_scaled]
  simp only [dround, Option.map_some']
  have hc : cround (6267216278323199 / 8796093022208) = 712 :=
    cround_eq _ _ (by norm_num) (by norm_num) (by norm_num)
  rw [hc, fdiv_some _ _ (by norm_num)]
  have : ((712 : ℤ) : ℚ) / 100 = 712 / 100 := by norm_num
  rw [this, fl_712_100]

/-- C2, counterexample. One draw on the quartet tree over `exAlnHalf` gives the tally
`(57, 743, 0)`. In exact arithmetic the formula of the claim gives
`round(57 / 800 * 10000) / 100 = 7.13`; the code, computing in `double`, stores the double
next to `7.12`. -/
theorem site_value_not_exact :
    IEEE.siteDraws ((exQuartetTree exAlnHalf).aln.computeQuartetSupports
      exParams.site_concordance_partition) exRandom [[0], [1], [2], [3]] 1
      (initialAcc exParams (exQuartetTree exAlnHalf) 0) = [(57, 743, 0)] ∧
    (cround (fracSum 0 [(57, 743, 0)] / ((1 : ℕ) : ℚ) * 10000) : ℚ) / 100 = 713 / 100 ∧
    getAttr ((IEEE.computeSiteConcordanceBranch (exQuartetTree exAlnHalf) exParams exFmt
      exRandom (4, 5) 1 0 exStore).1.store.attrs (5, 4)) "sCF" =
        some (.dbl (some (8016407336719483 / 1125899906842624))) ∧
    (8016407336719483 / 1125899906842624 : ℚ) < 7125 / 1000 := by
  have hdraws : IEEE.siteDraws ((exQuartetTree exAlnHalf).aln.computeQuartetSupports
      exParams.site_concordance_partition) exRandom [[0], [1], [2], [3]] 1
      (initialAcc exParams (exQuartetTree exAlnHalf) 0) = [(57, 743, 0)] := by decide
  obtain ⟨_, s0, _, _, _⟩ := ieee_site_stored (exQuartetTree exAlnHalf) exParams exFmt exRandom
    (4, 5) 1 0 exStore [[0], [1], [2], [3]] (by decide)
    (by rw [hdraws]; decide)
    (fun i h3 hi => absurd hi (by
      have : (initialSupport exParams (exQuartetTree exAlnHalf)).length = 3 := by decide
      omega))
  rw [hdraws] at s0
  have f57 : fofNat 57 = some 57 := by
    have := fofNat_eq 57 (by norm_num)
    simpa using this
  have f800 : fofNat 800 = some 800 := by
    have := fofNat_eq 800 (by norm_num)
    simpa using this
  have hsum : flFracSum 0 (some 0) [(57, 743, 0)] =
      some (5134103575202365 / 72057594037927936) := by
    have ts : tallySum ((57, 743, 0) : Nat × Nat × Nat) = 800 := rfl
    have tg : tallyGet 0 ((57, 743, 0) : Nat × Nat × Nat) = 57 := rfl
    simp only [flFracSum, ts, tg, f57, f800, gt_iff_lt, Nat.ofNat_pos, if_true]
    rw [fdiv_some _ _ (by norm_num), fl_57_800, fadd_some, zero_add, fl_57_800_again]
  rw [hsum, fpercent_57_800] at s0
  refine ⟨hdraws, ?_, s0, by norm_num⟩
  have hf : fracSum 0 [(57, 743, 0)] = 57 / 800 := by
    simp [fracSum, share, tallySum, tallyGet]
  rw [hf]
  have hc : cround ((57 : ℚ) / 800 / ((1 : ℕ) : ℚ) * 10000) = 713 :=
    cround_eq _ _ (by norm_num) (by norm_num) (by norm_num)
  rw [hc]
  norm_num

/-- C2, amended. `computeSiteConcordance(branch, N, rstream)` for `N > 0` on a branch
whose taxon groups are extracted without error, when the total of the tallies fits
`size_t`. With `draws` the `N` tallies `(a, b, c)` the classifier returns, the stored
attributes are the formulas of the claim evaluated in binary64 arithmetic, every operation
rounded to the nearest double: `sCF = round(S0 / N * 10000) / 100` where `S0` is the
running sum `flFracSum 0`, from `0.0` and in the order of the draws, of the quotients
`a / (a + b + c)` of the draws with a positive sum; `sDF1` and `sDF2` likewise with `b` and
`c`; and `sN = (double)total / N` with `total` the sum of all `a + b + c`. There are
exactly `N` draws, none is retried, and a draw with sum 0 adds nothing to the running
sums. When every draw is `(1, 0, 0)` (and `N`, an `int`, is below `2^31`) the result is
exactly `sCF = 100`, `sDF1 = 0`, `sDF2 = 0`, `sN = 1`. The last hypothesis keeps the
per-partition keys apart from the four keys read here. -/
theorem computeSiteConcordance_values {R : Type} (tree : PhyloTree) (params : Params)
    (fmt : Fmt) (random_int : Nat → R → Nat × R) (branch : Nat × Nat) (N : Nat) (rstream : R)
    (st : Store) (taxa : List (List Nat)) (hN : 0 < N)
    (htaxa : tree.extractTaxa branch = .ok taxa)
    (hfit : totalSites (IEEE.siteDraws
      (tree.aln.computeQuartetSupports params.site_concordance_partition)
      random_int taxa N (initialAcc params tree rstream)) < SIZE_T)
    (hfmt : ∀ i, 3 ≤ i → i < (initialSupport params tree).length →
      fmt.convertIntToString ((i / 3 : Nat) : Int) ≠ "F") :
    let draws := IEEE.siteDraws
      (tree.aln.computeQuartetSupports params.site_concordance_partition)
      random_int taxa N (initialAcc params tree rstream)
    let out := (IEEE.computeSiteConcordanceBranch tree params fmt random_int branch N rstream
      st).1
    let attrs := out.store.attrs (branch.2, branch.1)
    (out.error = none ∧ draws.length = N ∧
      getAttr attrs "sCF" = some (.dbl (fpercent (flFracSum 0 (some 0) draws) (fofNat N))) ∧
      getAttr attrs "sDF1" = some (.dbl (fpercent (flFracSum 1 (some 0) draws) (fofNat N))) ∧
      getAttr attrs "sDF2" = some (.dbl (fpercent (flFracSum 2 (some 0) draws) (fofNat N))) ∧
      getAttr attrs "sN" = some (.dbl (fdiv (fofNat (totalSites draws)) (fofNat N)))) ∧
    (∀ (j : Nat) (acc : Double) (d : Nat × Nat × Nat) (ds : List (Nat × Nat × Nat)),
      tallySum d = 0 → flFracSum j acc (d :: ds) = flFracSum j acc ds) ∧
    (N < 2 ^ 31 → (∀ d, d ∈ draws → d = (1, 0, 0)) →
      getAttr attrs "sCF" = some (.dbl (some 100)) ∧
      getAttr attrs "sDF1" = some (.dbl (some 0)) ∧
      getAttr attrs "sDF2" = some (.dbl (some 0)) ∧
      getAttr attrs "sN" = some (.dbl (some 1))) := by
  intro draws out attrs
  obtain ⟨herr, s0, s1, s2, sn⟩ := ieee_site_stored tree params fmt random_int branch N rstream
    st taxa htaxa hfit hfmt
  have hlen : draws.length = N := ieee_siteDraws_length _ _ _ _ _
  refine ⟨⟨herr, hlen, s0, s1, s2, sn⟩, ?_, ?_⟩
  · intro j acc d ds hd
    simp only [flFracSum, hd, gt_iff_lt, Nat.lt_irrefl, if_false]
  · intro hN31 hall
    have hN53 : N < 2 ^ 53 := lt_trans hN31 (by norm_num)
    obtain ⟨f0, f1, f2, ft⟩ := flFracSum_all_first draws 0 hall (by rw [hlen]; omega)
    have s0' : getAttr attrs "sCF" = _ := s0
    have s1' : getAttr attrs "sDF1" = _ := s1
    have s2' : getAttr attrs "sDF2" = _ := s2
    have sn' : getAttr attrs "sN" = _ := sn
    have f0' : flFracSum 0 (some 0) draws = some ((N : ℕ) : ℚ) := by
      have := f0
      simp only [Nat.cast_zero, Nat.zero_add, hlen] at this
      exact this
    have ft' : totalSites draws = N := by rw [ft, hlen]
    rw [f0', fpercent_self N hN hN53] at s0'
    rw [f1, fpercent_zero_num N hN hN53] at s1'
    rw [f2, fpercent_zero_num N hN hN53] at s2'
    rw [ft', fdiv_self N hN hN53] at sn'
    exact ⟨s0', s1', s2', sn'⟩

/-- C2, witness: one draw on the quartet tree over one site that groups taxa 0, 1 against
taxa 2, 3 (Scenario A). -/
theorem computeSiteConcordance_values_witness :
    getAttr (((IEEE.computeSiteConcordanceBranch (exQuartetTree exAlnOne) exParams exFmt
      exRandom (4, 5) 1 0 exStore).1).store.attrs (5, 4)) "sCF" = some (.dbl (some 100)) ∧
    getAttr (((IEEE.computeSiteConcordanceBranch (exQuartetTree exAlnOne) exParams exFmt
      exRandom (4, 5) 1 0 exStore).1).store.attrs (5, 4)) "sDF1" = some (.dbl (some 0)) ∧
    getAttr (((IEEE.computeSiteConcordanceBranch (exQuartetTree exAlnOne) exParams exFmt
      exRandom (4, 5) 1 0 exStore).1).store.attrs (5, 4)) "sDF2" = some (.dbl (some 0)) ∧
    getAttr (((IEEE.computeSiteConcordanceBranch (exQuartetTree exAlnOne) exParams exFmt
      exRandom (4, 5) 1 0 exStore).1).store.attrs (5, 4)) "sN" = some (.dbl (some 1)) :=
  (computeSiteConcordance_values (exQuartetTree exAlnOne) exParams exFmt exRandom (4, 5) 1 0
    exStore [[0], [1], [2], [3]] (by decide) (by decide) (by decide)
    (fun i h3 hi => absurd hi (by
      have : (initialSupport exParams (exQuartetTree exAlnOne)).length = 3 := by decide
      omega))).2.2 (by decide) (by decide)

/-! ### the final loop of the gene computation, in binary64 arithmetic -/

theorem ieee_storeGeneValues_attrs_ne {S : Type} (fmt : Fmt) (params : Params)
    (ref : GeneRef S) (c : GeneCounts) (st : Store) (i : Nat) (nei : Nat × Nat)
    (h : nei ≠ ((ref.branches.getD i (0, 0)).2, (ref.branches.getD i (0, 0)).1)) :
    (IEEE.storeGeneValues fmt params ref c st i).attrs nei = st.attrs nei := by
  simp only [IEEE.storeGeneValues, store_appendSupport_attrs]
  rw [store_putAttr_attrs_ne _ _ _ _ _ h, store_putAttr_attrs_ne _ _ _ _ _ h,
    store_putAttr_attrs_ne _ _ _ _ _ h, store_putAttr_attrs_ne _ _ _ _ _ h]

theorem ieee_storeGeneValues_attrs_self {S : Type} (fmt : Fmt) (params : Params)
    (ref : GeneRef S) (c : GeneCounts) (st : Store) (i : Nat) :
    let attrs := (IEEE.storeGeneValues fmt params ref c st i).attrs
      ((ref.branches.getD i (0, 0)).2, (ref.branches.getD i (0, 0)).1)
    getAttr attrs "gCF" = some (.dbl (IEEE.genePercent c 0 i)) ∧
    getAttr attrs "gDF1" = some (.dbl (IEEE.genePercent c 1 i)) ∧
    getAttr attrs "gDF2" = some (.dbl (IEEE.genePercent c 2 i)) ∧
    getAttr attrs "gN" = some (.int (c.decisive_counts.getD i 0)) := by
  simp only [IEEE.storeGeneValues, store_appendSupport_attrs, store_putAttr_attrs_self]
  refine ⟨?_, ?_, ?_, ?_⟩
  · rw [getAttr_putAttr_ne _ _ _ _ (by decide), getAttr_putAttr_ne _ _ _ _ (by decide),
      getAttr_putAttr_ne _ _ _ _ (by decide), getAttr_putAttr_self]
  · rw [getAttr_putAttr_ne _ _ _ _ (by decide), getAttr_putAttr_ne _ _ _ _ (by decide),
      getAttr_putAttr_self]
  · rw [getAttr_putAttr_ne _ _ _ _ (by decide), getAttr_putAttr_self]
  · rw [getAttr_putAttr_self]

theorem ieee_geneFold_attrs {S : Type} (fmt : Fmt) (params : Params) (ref : GeneRef S)
    (c : GeneCounts) (st : Store) (hnd : ref.branches.Nodup) (i : Nat)
    (hi : i < ref.branches.length) (m : Nat) (hm : m ≤ ref.branches.length) (him : i < m) :
    let attrs := ((List.range m).foldl (IEEE.storeGeneValues fmt params ref c) st).attrs
      ((ref.branches.getD i (0, 0)).2, (ref.branches.getD i (0, 0)).1)
    getAttr attrs "gCF" = some (.dbl (IEEE.genePercent c 0 i)) ∧
    getAttr attrs "gDF1" = some (.dbl (IEEE.genePercent c 1 i)) ∧
    getAttr attrs "gDF2" = some (.dbl (IEEE.genePercent c 2 i)) ∧
    getAttr attrs "gN" = some (.int (c.decisive_counts.getD i 0)) := by
  induction m with
  | zero => omega
  | succ m ih =>
    simp only [List.range_succ, List.foldl_append, List.foldl_cons, List.foldl_nil]
    by_cases he : i = m
    · subst he
      exact ieee_storeGeneValues_attrs_self fmt params ref c _ i
    · rw [ieee_storeGeneValues_attrs_ne fmt params ref c _ m _
        (nei_ne_of_nodup ref.branches hnd i m hi (by omega) he)]
      exact ih (by omega) (by omega)

theorem ieee_computeGene_ok {S : Type} [DecidableEq S] (lib : SplitLib S) (fmt : Fmt)
    (params : Params) (ref : GeneRef S) (trees : List (MTree S)) (st : Store) (c : GeneCounts)
    (hc : finalCounts lib fmt params ref trees = .ok c) :
    (IEEE.computeGeneConcordance lib fmt params ref trees st).error = none ∧
    (IEEE.computeGeneConcordance lib fmt params ref trees st).store.attrs =
      ((List.range ref.branches.length).foldl (IEEE.storeGeneValues fmt params ref c) st).attrs
      := by
  unfold finalCounts at hc
  unfold IEEE.computeGeneConcordance
  simp only [hc, store_insertMeaning_attrs, and_self]

/-- The four attributes of lines 241-244 as branch `i` stores them, in binary64
arithmetic. -/
theorem ieee_computeGene_stored {S : Type} [DecidableEq S] (lib : SplitLib S) (fmt : Fmt)
    (params : Params) (ref : GeneRef S) (trees : List (MTree S)) (st : Store) (c : GeneCounts)
    (i : Nat) (hnd : ref.branches.Nodup) (hi : i < ref.branches.length)
    (hc : finalCounts lib fmt params ref trees = .ok c) :
    let attrs := (IEEE.computeGeneConcordance lib fmt params ref trees st).store.attrs
      ((ref.branches.getD i (0, 0)).2, (ref.branches.getD i (0, 0)).1)
    getAttr attrs "gCF" = some (.dbl (IEEE.genePercent c 0 i)) ∧
    getAttr attrs "gDF1" = some (.dbl (IEEE.genePercent c 1 i)) ∧
    getAttr attrs "gDF2" = some (.dbl (IEEE.genePercent c 2 i)) ∧
    getAttr attrs "gN" = some (.int (c.decisive_counts.getD i 0)) := by
  rw [(ieee_computeGene_ok lib fmt params ref trees st c hc).2]
  exact ieee_geneFold_attrs fmt params ref c st hnd i hi _ (le_refl _) hi

theorem ieee_genePercent_eq (c : GeneCounts) (k i : Nat) :
    IEEE.genePercent c k i = fpercent (fofInt (c.support k i)) (fofInt (c.decisive i)) := rfl

/-! ### tree sets that are processed without error -/

theorem processTree_of_mask {S : Type} [DecidableEq S] (lib : SplitLib S) (fmt : Fmt)
    (params : Params) (ref : GeneRef S) (treeid : Nat) (tree : MTree S) (c : GeneCounts) (M : S)
    (hM : treeMask lib ref tree = .ok M)
    (hl : (orderedNames lib ref M).length = tree.leafNum) :
    ∃ c', processTree lib fmt params ref (buildNameMap 0 ref.names []) treeid tree c = .ok c' := by
  unfold treeMask at hM
  unfold processTree
  rw [hM]
  simp only [ne_eq, hl, not_true_eq_false, if_false]
  exact ⟨_, rfl⟩

theorem treeLoop_of_masks {S : Type} [DecidableEq S] (lib : SplitLib S) (fmt : Fmt)
    (params : Params) (ref : GeneRef S) (trees : List (MTree S))
    (h : ∀ t, t ∈ trees → ∃ M, treeMask lib ref t = .ok M ∧
      (orderedNames lib ref M).length = t.leafNum)
    (treeid : Nat) (c : GeneCounts) :
    ∃ c', treeLoop lib fmt params ref (buildNameMap 0 ref.names []) treeid trees c = .ok c' := by
  induction trees generalizing treeid c with
  | nil => exact ⟨c, rfl⟩
  | cons t rest ih =>
    obtain ⟨M, hM, hl⟩ := h t (List.mem_cons_self _ _)
    obtain ⟨c1, h1⟩ := processTree_of_mask lib fmt params ref treeid t c M hM hl
    obtain ⟨c2, h2⟩ := ih (fun x hx => h x (List.mem_cons_of_mem _ hx)) (treeid + 1) c1
    refine ⟨c2, ?_⟩
    simp only [treeLoop, h1, h2]

theorem filter_replicate_length {α : Type} (p : α → Bool) (a : α) (n : Nat) :
    ((List.replicate n a).filter p).length = if p a = true then n else 0 := by
  induction n with
  | zero => simp
  | succ n ih =>
    simp only [List.replicate_succ, List.filter_cons]
    cases hp : p a
    · rw [hp] at ih
      simp only [Bool.false_eq_true, if_false] at ih ⊢
      exact ih
    · rw [hp] at ih
      simp only [if_true, List.length_cons] at ih ⊢
      rw [ih]

/-- The counters of the eight hundred trees of `exHalfTrees`: all are decisive for the
branch of `exRef`, 57 hold its first grouping. -/
theorem exHalfTrees_counts :
    ∃ c, finalCounts bitLib exFmt exParams exRef exHalfTrees = .ok c ∧
      c.decisive 0 = 800 ∧ c.support 0 0 = 57 := by
  have hmem : ∀ t, t ∈ exHalfTrees → t = exTreeABCD ∨ t = exTreeACBD := by
    intro t ht
    unfold exHalfTrees at ht
    rcases List.mem_append.mp ht with h | h
    · exact Or.inl (List.eq_of_mem_replicate h)
    · exact Or.inr (List.eq_of_mem_replicate h)
  obtain ⟨c, hc⟩ := treeLoop_of_masks bitLib exFmt exParams exRef exHalfTrees
    (fun t ht => by
      rcases hmem t ht with h | h <;> subst h
      · exact ⟨[true, true, true, true], by decide, by decide⟩
      · exact ⟨[true, true, true, true], by decide, by decide⟩)
    0 (initialCounts exParams exRef.branches.length)
  have hc' : finalCounts bitLib exFmt exParams exRef exHalfTrees = .ok c := hc
  obtain ⟨_, hdec, hsup⟩ := finalCounts_spec bitLib exFmt exParams exRef exHalfTrees c
    (by decide) hc'
  refine ⟨c, hc', ?_, ?_⟩
  · rw [hdec 0 (by decide)]
    unfold exHalfTrees
    rw [List.filter_append, List.length_append, filter_replicate_length,
      filter_replicate_length, if_pos (by decide), if_pos (by decide)]
    rfl
  · rw [hsup 0 0 (by decide) (by decide)]
    unfold exHalfTrees
    rw [List.filter_append, List.length_append, filter_replicate_length,
      filter_replicate_length, if_pos (by decide), if_neg (by decide)]
    rfl

theorem fpercent_57_of_800 :
    fpercent (fofInt 57) (fofInt 800) = some (8016407336719483 / 1125899906842624) := by
  have f57 : fofInt 57 = some 57 := by
    have := fofInt_eq 57 (by norm_num)
    simpa using this
  have f800 : fofInt 800 = some 800 := by
    have := fofInt_eq 800 (by norm_num)
    simpa using this
  unfold fpercent
  rw [f57, f800, fdiv_some _ _ (by norm_num), fl_57_800, fmul_some, fl_57_800_scaled]
  simp only [dround, Option.map_some']
  have hc : cround (6267216278323199 / 8796093022208) = 712 :=
    cround_eq _ _ (by norm_num) (by norm_num) (by norm_num)
  rw [hc, fdiv_some _ _ (by norm_num)]
  have : ((712 : ℤ) : ℚ) / 100 = 712 / 100 := by norm_num
  rw [this, fl_712_100]

/-- C4, counterexample. Of the eight hundred comparison trees of `exHalfTrees`, all
decisive for the branch of `exRef`, 57 hold its first grouping. In exact arithmetic the
formula of the claim gives `round(57 / 800 * 10000) / 100 = 7.13`; the code, computing in
`double`, stores the double next to `7.12` as `gCF`. -/
theorem gene_value_not_exact :
    (∃ c, finalCounts bitLib exFmt exParams exRef exHalfTrees = .ok c ∧
      c.decisive 0 = 800 ∧ c.support 0 0 = 57) ∧
    (cround (((57 : ℤ) : ℚ) / ((800 : ℤ) : ℚ) * 10000) : ℚ) / 100 = 713 / 100 ∧
    getAttr ((IEEE.computeGeneConcordance bitLib exFmt exParams exRef exHalfTrees
      exStore).store.attrs (5, 4)) "gCF" =
        some (.dbl (some (8016407336719483 / 1125899906842624))) ∧
    (8016407336719483 / 1125899906842624 : ℚ) < 7125 / 1000 := by
  obtain ⟨c, hc, hd, hs⟩ := exHalfTrees_counts
  have key : ∀ (trees : List (MTree (List Bool))) (c : GeneCounts),
      finalCounts bitLib exFmt exParams exRef trees = .ok c →
      getAttr ((IEEE.computeGeneConcordance bitLib exFmt exParams exRef trees
        exStore).store.attrs (5, 4)) "gCF" = some (.dbl (IEEE.genePercent c 0 0)) :=
    fun trees c h => (ieee_computeGene_stored bitLib exFmt exParams exRef trees exStore c 0
      (by decide) (by decide) h).1
  have g0 := key exHalfTrees c hc
  have hp : IEEE.genePercent c 0 0 = some (8016407336719483 / 1125899906842624) := by
    have e : fpercent (fofInt (c.support 0 0)) (fofInt (c.decisive 0)) =
        fpercent (fofInt 57) (fofInt 800) := congrArg₂ (fun a b => fpercent (fofInt a) (fofInt b)) hs hd
    exact (ieee_genePercent_eq c 0 0).trans (e.trans fpercent_57_of_800)
  refine ⟨⟨c, hc, hd, hs⟩, ?_, g0.trans (by rw [hp]), by norm_num⟩
  have hcr : cround (((57 : ℤ) : ℚ) / ((800 : ℤ) : ℚ) * 10000) = 713 :=
    cround_eq _ _ (by norm_num) (by norm_num) (by norm_num)
  rw [hcr]
  norm_num

theorem fpercent_int_zero (d : ℤ) (hd : d ≠ 0) (hlt : |d| < 2 ^ 53) :
    fpercent (fofInt 0) (fofInt d) = some 0 := by
  have hq : (d : ℚ) ≠ 0 := by exact_mod_cast hd
  have f0 : fofInt 0 = some 0 := by
    have := fofInt_eq 0 (by norm_num)
    simpa using this
  rw [fofInt_eq d hlt, f0]
  unfold fpercent
  rw [fdiv_some _ _ hq, zero_div, fl_zero, fmul_some, zero_mul, fl_zero]
  simp only [dround, Option.map_some']
  rw [cround_zero, fdiv_some _ _ (by norm_num)]
  simp [fl_zero]

theorem fpercent_int_self (d : ℤ) (hd : d ≠ 0) (hlt : |d| < 2 ^ 53) :
    fpercent (fofInt d) (fofInt d) = some 100 := by
  have hq : (d : ℚ) ≠ 0 := by exact_mod_cast hd
  have h1 : fl 1 = some 1 := by
    have := fl_intCast 1 (by norm_num)
    simpa using this
  have h4 : fl 10000 = some 10000 := by
    have := fl_intCast 10000 (by norm_num)
    simpa using this
  have h2 : fl 100 = some 100 := by
    have := fl_intCast 100 (by norm_num)
    simpa using this
  rw [fofInt_eq d hlt]
  unfold fpercent
  rw [fdiv_some _ _ hq, div_self hq, h1, fmul_some, one_mul, h4]
  simp only [dround, Option.map_some']
  have hc : cround (10000 : ℚ) = 10000 := by
    have := cround_intCast 10000 (by norm_num)
    simpa using this
  rw [hc, fdiv_some _ _ (by norm_num)]
  norm_num
  exact h2

theorem decisiveFor_of_overlap {S : Type} (lib : SplitLib S) (ref : GeneRef S) (T : MTree S)
    (M : S) (i : Nat) (hM : treeMask lib ref T = .ok M) :
    decisiveFor lib ref T i = true ↔
      ∀ k, k < 4 → lib.overlap M (quadrant lib ref (4 * i) k) = true := by
  unfold decisiveFor
  rw [hM]
  exact isDecisive_iff lib ref M _

theorem hasGrouping_of_mask {S : Type} [DecidableEq S] (lib : SplitLib S) (ref : GeneRef S)
    (T : MTree S) (M : S) (i j : Nat) (hM : treeMask lib ref T = .ok M) :
    hasGrouping lib ref T i j = true ↔
      (let restricted := lib.extractSubSplit
          (lib.union (quadrant lib ref (4 * i) 0) (quadrant lib ref (4 * i) (j + 1))) M
        if lib.shouldInvert restricted then lib.invert restricted else restricted) ∈
        T.convertSplits (orderedNames lib ref M) := by
  unfold hasGrouping
  rw [hM]
  simp only [decide_eq_true_eq]
  rfl

/-- C4, amended. After all comparison trees, for a branch `i` with
`decisive_counts[i] = d` the stored attributes are
`gCF = round((double)supports[0][i] / d * 10000) / 100`, `gDF1` and `gDF2` the same with
`supports[1][i]` and `supports[2][i]`, evaluated in binary64 arithmetic (the two divisions
and the product rounded to the nearest double, `round` with halves away from zero), and
`gN = d`; this holds for `d > 0` and, with an undefined quotient, for `d = 0` too. For a set of two trees of which exactly one is decisive for the branch (all four
quadrants overlap its taxon mask, which fails for the other tree) and has, of the three
groupings, only the second (quadrant 0 with quadrant 2) in its split set, the result is
exactly `gCF = 0`, `gDF1 = 100`, `gDF2 = 0`, `gN = 1`. -/
theorem computeGeneConcordance_values {S : Type} [DecidableEq S] (lib : SplitLib S)
    (fmt : Fmt) (params : Params) (ref : GeneRef S) (trees : List (MTree S)) (st : Store)
    (c : GeneCounts) (i : Nat)
    (hq : ref.subtrees.length = 4 * ref.branches.length) (hnd : ref.branches.Nodup)
    (hi : i < ref.branches.length)
    (hc : finalCounts lib fmt params ref trees = .ok c) :
    let out := IEEE.computeGeneConcordance lib fmt params ref trees st
    let branch := ref.branches.getD i (0, 0)
    let attrs := out.store.attrs (branch.2, branch.1)
    (out.error = none ∧
      getAttr attrs "gCF" =
        some (.dbl (fpercent (fofInt (c.support 0 i)) (fofInt (c.decisive i)))) ∧
      getAttr attrs "gDF1" =
        some (.dbl (fpercent (fofInt (c.support 1 i)) (fofInt (c.decisive i)))) ∧
      getAttr attrs "gDF2" =
        some (.dbl (fpercent (fofInt (c.support 2 i)) (fofInt (c.decisive i)))) ∧
      getAttr attrs "gN" = some (.int (c.decisive i))) ∧
    (∀ (T U : MTree S) (MT MU : S), (trees = [T, U] ∨ trees = [U, T]) →
      treeMask lib ref T = .ok MT → treeMask lib ref U = .ok MU →
      (∀ k, k < 4 → lib.overlap MT (quadrant lib ref (4 * i) k) = true) →
      ¬ (∀ k, k < 4 → lib.overlap MU (quadrant lib ref (4 * i) k) = true) →
      let H := T.convertSplits (orderedNames lib ref MT)
      let grouping := fun j =>
        let restricted := lib.extractSubSplit
          (lib.union (quadrant lib ref (4 * i) 0) (quadrant lib ref (4 * i) (j + 1))) MT
        if lib.shouldInvert restricted then lib.invert restricted else restricted
      grouping 0 ∉ H → grouping 1 ∈ H → grouping 2 ∉ H →
      getAttr attrs "gCF" = some (.dbl (some 0)) ∧
      getAttr attrs "gDF1" = some (.dbl (some 100)) ∧
      getAttr attrs "gDF2" = some (.dbl (some 0)) ∧
      getAttr attrs "gN" = some (.int 1)) := by
  intro out branch attrs
  obtain ⟨g0, g1, g2, gn⟩ := ieee_computeGene_stored lib fmt params ref trees st c i hnd hi hc
  have first : out.error = none ∧
      getAttr attrs "gCF" =
        some (.dbl (fpercent (fofInt (c.support 0 i)) (fofInt (c.decisive i)))) ∧
      getAttr attrs "gDF1" =
        some (.dbl (fpercent (fofInt (c.support 1 i)) (fofInt (c.decisive i)))) ∧
      getAttr attrs "gDF2" =
        some (.dbl (fpercent (fofInt (c.support 2 i)) (fofInt (c.decisive i)))) ∧
      getAttr attrs "gN" = some (.int (c.decisive i)) :=
    ⟨(ieee_computeGene_ok lib fmt params ref trees st c hc).1, g0, g1, g2, gn⟩
  refine ⟨first, ?_⟩
  intro T U MT MU htrees hMT hMU hdT hdU H grouping h0 h1 h2
  have hT : decisiveFor lib ref T i = true := (decisiveFor_of_overlap lib ref T MT i hMT).mpr hdT
  have hU : decisiveFor lib ref U i = false := by
    cases h : decisiveFor lib ref U i
    · rfl
    · exact absurd ((decisiveFor_of_overlap lib ref U MU i hMU).mp h) hdU
  have k0 : hasGrouping lib ref T i 0 = false := by
    cases h : hasGrouping lib ref T i 0
    · rfl
    · exact absurd ((hasGrouping_of_mask lib ref T MT i 0 hMT).mp h) h0
  have k1 : hasGrouping lib ref T i 1 = true := (hasGrouping_of_mask lib ref T MT i 1 hMT).mpr h1
  have k2 : hasGrouping lib ref T i 2 = false := by
    cases h : hasGrouping lib ref T i 2
    · rfl
    · exact absurd ((hasGrouping_of_mask lib ref T MT i 2 hMT).mp h) h2
  obtain ⟨_, hdec, hsup⟩ := finalCounts_spec lib fmt params ref trees c hq hc
  have hd1 : c.decisive i = 1 := by
    rw [hdec i hi]
    rcases htrees with h | h <;> subst h <;> simp [List.filter_cons, hT, hU]
  have hs0 : c.support 0 i = 0 := by
    rw [hsup 0 i (by decide) hi]
    rcases htrees with h | h <;> subst h <;> simp [List.filter_cons, hT, hU, k0]
  have hs1 : c.support 1 i = 1 := by
    rw [hsup 1 i (by decide) hi]
    rcases htrees with h | h <;> subst h <;> simp [List.filter_cons, hT, hU, k1]
  have hs2 : c.support 2 i = 0 := by
    rw [hsup 2 i (by decide) hi]
    rcases htrees with h | h <;> subst h <;> simp [List.filter_cons, hT, hU, k2]
  obtain ⟨_, f0, f1, f2, fn⟩ := first
  rw [hs0, hd1, fpercent_int_zero 1 (by norm_num) (by norm_num)] at f0
  rw [hs1, hd1, fpercent_int_self 1 (by norm_num) (by norm_num)] at f1
  rw [hs2, hd1, fpercent_int_zero 1 (by norm_num) (by norm_num)] at f2
  rw [hd1] at fn
  exact ⟨f0, f1, f2, fn⟩

/-- C4, witness (Scenario C): of `exTreeABC` and `exTreeACBD` only the second is decisive
for the branch of `exRef`, and it holds the second grouping only. -/
theorem computeGeneConcordance_values_witness :
    getAttr ((IEEE.computeGeneConcordance bitLib exFmt exParams exRef [exTreeABC, exTreeACBD]
      exStore).store.attrs (5, 4)) "gCF" = some (.dbl (some 0)) ∧
    getAttr ((IEEE.computeGeneConcordance bitLib exFmt exParams exRef [exTreeABC, exTreeACBD]
      exStore).store.attrs (5, 4)) "gDF1" = some (.dbl (some 100)) ∧
    getAttr ((IEEE.computeGeneConcordance bitLib exFmt exParams exRef [exTreeABC, exTreeACBD]
      exStore).store.attrs (5, 4)) "gDF2" = some (.dbl (some 0)) ∧
    getAttr ((IEEE.computeGeneConcordance bitLib exFmt exParams exRef [exTreeABC, exTreeACBD]
      exStore).store.attrs (5, 4)) "gN" = some (.int 1) :=
  (computeGeneConcordance_values bitLib exFmt exParams exRef [exTreeABC, exTreeACBD] exStore
    { decisive_counts := [1], supports := [[0], [1], [0]], occurence_trees := [] } 0
    (by decide) (by decide) (by decide) (by decide)).2 exTreeACBD exTreeABC
      [true, true, true, true] [true, true, true, false]
      (Or.inr rfl) (by decide) (by decide) (by decide) (by decide) (by decide) (by decide)
      (by decide)

/-! ### a branch without a decisive tree -/

/-- C8, counterexample. The division by the decisive count is not guarded. With no
comparison tree the single branch of `exRef` has `decisive_counts = 0`; the run ends
without error, and the stored `gCF`, `gDF1` and `gDF2` are the undefined result of the
division `0.0 / 0`, next to `gN = 0`. -/
theorem gene_zero_decisive_division :
    finalCounts bitLib exFmt exParams exRef [] =
      .ok { decisive_counts := [0], supports := [[0], [0], [0]], occurence_trees := [] } ∧
    (IEEE.computeGeneConcordance bitLib exFmt exParams exRef [] exStore).error = none ∧
    fofInt 0 = some 0 ∧ fdiv (fofInt 0) (fofInt 0) = none ∧
    (IEEE.computeGeneConcordance bitLib exFmt exParams exRef [] exStore).store.attrs (5, 4) =
      [("gN", .int 0), ("gDF2", .dbl none), ("gDF1", .dbl none), ("gCF", .dbl none)] := by
  have f0 : fofInt 0 = some 0 := by
    have := fofInt_eq 0 (by norm_num)
    simpa using this
  have hp : ∀ k, IEEE.genePercent
      { decisive_counts := [0], supports := [[0], [0], [0]], occurence_trees := [] } k 0 =
      none := by
    intro k
    unfold IEEE.genePercent
    have : (([0] : List Int).getD 0 0) = 0 := rfl
    rw [this, f0]
    exact fpercent_zero_divisor _
  refine ⟨by decide, by decide, f0, by rw [f0]; exact fdiv_zero _, ?_⟩
  have hc : finalCounts bitLib exFmt exParams exRef [] =
      .ok { decisive_counts := [0], supports := [[0], [0], [0]], occurence_trees := [] } := by
    decide
  rw [(ieee_computeGene_ok bitLib exFmt exParams exRef [] exStore _ hc).2]
  have hr : List.range exRef.branches.length = [0] := by decide
  rw [hr]
  simp only [List.foldl_cons, List.foldl_nil, IEEE.storeGeneValues, store_appendSupport_attrs,
    hp]
  decide

/-- C8, amended. For every branch `i` for which no comparison tree is decisive
(`decisive_counts[i] = 0`, the empty tree set included) the counters `supports[k][i]` are
0 as well, the divisor of lines 237-239 and 248 is `0.0`, the divisions are evaluated all
the same, and their undefined result (`0.0 / 0`, not a number) is what `gCF`, `gDF1` and
`gDF2` store and what the label value is formatted from; the run ends without error and
`gN = 0`. -/
theorem gene_zero_decisive_values {S : Type} [DecidableEq S] (lib : SplitLib S)
    (fmt : Fmt) (params : Params) (ref : GeneRef S) (trees : List (MTree S)) (st : Store)
    (c : GeneCounts) (i : Nat)
    (hq : ref.subtrees.length = 4 * ref.branches.length) (hnd : ref.branches.Nodup)
    (hi : i < ref.branches.length)
    (hc : finalCounts lib fmt params ref trees = .ok c) (hd : c.decisive i = 0) :
    let out := IEEE.computeGeneConcordance lib fmt params ref trees st
    let branch := ref.branches.getD i (0, 0)
    let attrs := out.store.attrs (branch.2, branch.1)
    out.error = none ∧
    (∀ t, t ∈ trees → decisiveFor lib ref t i = false) ∧
    (∀ k, k < 3 → c.support k i = 0) ∧
    fofInt (c.decisive i) = some 0 ∧
    (∀ k, fdiv (fofInt (c.support k i)) (fofInt (c.decisive i)) = none) ∧
    getAttr attrs "gCF" = some (.dbl none) ∧
    getAttr attrs "gDF1" = some (.dbl none) ∧
    getAttr attrs "gDF2" = some (.dbl none) ∧
    getAttr attrs "gN" = some (.int 0) ∧
    IEEE.geneLabel fmt params c i =
      (if params.verbose then fmt.precision3 none ++ ("%" ++ fmt.convertIntToString 0)
       else fmt.precision3 none) := by
  intro out branch attrs
  obtain ⟨g0, g1, g2, gn⟩ := ieee_computeGene_stored lib fmt params ref trees st c i hnd hi hc
  obtain ⟨_, hdec, hsup⟩ := finalCounts_spec lib fmt params ref trees c hq hc
  have f0 : fofInt 0 = some 0 := by
    have := fofInt_eq 0 (by norm_num)
    simpa using this
  have hfil : (trees.filter (fun t => decisiveFor lib ref t i)).length = 0 := by
    have := hdec i hi
    rw [hd] at this
    exact_mod_cast this.symm
  have hnone : ∀ t, t ∈ trees → decisiveFor lib ref t i = false := by
    intro t ht
    cases h : decisiveFor lib ref t i
    · rfl
    · have hm : t ∈ trees.filter (fun t => decisiveFor lib ref t i) :=
        List.mem_filter.mpr ⟨ht, h⟩
      rw [List.length_eq_zero.mp hfil] at hm
      exact absurd hm (List.not_mem_nil _)
  have hs : ∀ k, k < 3 → c.support k i = 0 := by
    intro k hk
    rw [hsup k i hk hi]
    have := filter_and_length_le (fun t => decisiveFor lib ref t i)
      (fun t => hasGrouping lib ref t i k) trees
    have h0 : (trees.filter (fun t => decisiveFor lib ref t i &&
        hasGrouping lib ref t i k)).length = 0 := by omega
    rw [h0]
    rfl
  have hp : ∀ k, IEEE.genePercent c k i = none := by
    intro k
    rw [ieee_genePercent_eq, hd, f0]
    exact fpercent_zero_divisor _
  have hdz : c.decisive_counts.getD i 0 = 0 := hd
  refine ⟨(ieee_computeGene_ok lib fmt params ref trees st c hc).1, hnone, hs,
    by rw [hd, f0], fun k => by rw [hd, f0]; exact fdiv_zero _,
    by rw [← hp 0]; exact g0, by rw [← hp 1]; exact g1, by rw [← hp 2]; exact g2,
    by rw [← hdz]; exact gn, ?_⟩
  have hr : IEEE.supportRatio c 0 i = none := by
    unfold IEEE.supportRatio
    rw [hdz, f0]
    exact fdiv_zero _
  unfold IEEE.geneLabel
  simp only [hr, hdz, fmul, dmul, Option.bind_none, Option.none_bind]

/-- C8, witness: the empty tree set on the reference tree `exRef`. -/
theorem gene_zero_decisive_values_witness :
    (IEEE.computeGeneConcordance bitLib exFmt exParams exRef [] exStore).error = none ∧
    getAttr ((IEEE.computeGeneConcordance bitLib exFmt exParams exRef [] exStore).store.attrs
      (5, 4)) "gCF" = some (.dbl none) ∧
    getAttr ((IEEE.computeGeneConcordance bitLib exFmt exParams exRef [] exStore).store.attrs
      (5, 4)) "gN" = some (.int 0) :=
  have h := gene_zero_decisive_values bitLib exFmt exParams exRef [] exStore
    { decisive_counts := [0], supports := [[0], [0], [0]], occurence_trees := [] } 0
    (by decide) (by decide) (by decide) (by decide) (by decide)
  ⟨h.1, h.2.2.2.2.2.1, h.2.2.2.2.2.2.2.2.1⟩

/-! ### the counters handed to the classifier -/

theorem ieee_siteLoop_succ {R : Type} (classify : List Nat → List Nat → List Nat)
    (random_int : Nat → R → Nat × R) (taxa : List (List Nat)) (k : Nat) (acc : SiteAcc R) :
    IEEE.siteLoop classify random_int taxa (k + 1) acc =
      IEEE.siteIter classify random_int taxa (IEEE.siteLoop classify random_int taxa k acc) := by
  induction k generalizing acc with
  | zero => rfl
  | succ k ih =>
    have h : IEEE.siteLoop classify random_int taxa (k + 1 + 1) acc =
        IEEE.siteLoop classify random_int taxa (k + 1)
          (IEEE.siteIter classify random_int taxa acc) := rfl
    rw [h, ih]
    rfl

theorem initialSupport_getD (params : Params) (tree : PhyloTree) (k : Nat) :
    (initialSupport params tree).getD k 0 = 0 := by
  unfold initialSupport
  split_ifs <;> exact getD_replicate_zero _ _

/-- C18, the sentence as written fails. On the tree over `exSuper` (two partitions, the
per-partition report on) the sampling loop leaves the counters `[1,0,0,1,0,0,0,0,0]` after
its first iteration and `[1,0,0,2,0,0,0,0,0]` after its second: the second call of the
classifier received `[0,0,0,1,0,0,0,0,0]`, whose per-partition entry `support[3]` is 1;
on an all-zero vector the classifier returns `[1,0,0,1,0,0,0,0,0]`. -/
theorem site_partition_counters_not_reset :
    exParamsPart.site_concordance_partition = true ∧ exSuperTree.isSuperTree = true ∧
    exSuperTree.extractTaxa (4, 5) = .ok [[0], [1], [2], [3]] ∧
    (IEEE.siteLoop
      (exSuperTree.aln.computeQuartetSupports exParamsPart.site_concordance_partition)
      exRandom [[0], [1], [2], [3]] 1 (initialAcc exParamsPart exSuperTree 0)).support =
        [1, 0, 0, 1, 0, 0, 0, 0, 0] ∧
    (IEEE.siteLoop
      (exSuperTree.aln.computeQuartetSupports exParamsPart.site_concordance_partition)
      exRandom [[0], [1], [2], [3]] 2 (initialAcc exParamsPart exSuperTree 0)).support =
        [1, 0, 0, 2, 0, 0, 0, 0, 0] ∧
    exSuperTree.aln.computeQuartetSupports exParamsPart.site_concordance_partition
      [0, 1, 2, 3] [0, 0, 0, 1, 0, 0, 0, 0, 0] = [1, 0, 0, 2, 0, 0, 0, 0, 0] ∧
    exSuperTree.aln.computeQuartetSupports exParamsPart.site_concordance_partition
      [0, 1, 2, 3] [0, 0, 0, 0, 0, 0, 0, 0, 0] = [1, 0, 0, 1, 0, 0, 0, 0, 0] := by
  refine ⟨rfl, rfl, by decide, by decide, by decide, by decide, by decide⟩

theorem siteLoop_succ {R : Type} (classify : List Nat → List Nat → List Nat)
    (random_int : Nat → R → Nat × R) (taxa : List (List Nat)) (k : Nat) (acc : SiteAcc R) :
    siteLoop classify random_int taxa (k + 1) acc =
      siteIter classify random_int taxa (siteLoop classify random_int taxa k acc) := by
  induction k generalizing acc with
  | zero => rfl
  | succ k ih =>
    have h : siteLoop classify random_int taxa (k + 1 + 1) acc =
        siteLoop classify random_int taxa (k + 1) (siteIter classify random_int taxa acc) := rfl
    rw [h, ih]
    rfl

/-- C18, amended. The method runs the sampling loop `N` times from the all-zero counter
vector. In every iteration, whatever the classifier, the vector handed to the classifier
is the one the previous iteration left (the initial one in the first iteration) with its
three global counters `support[0..2]` set to zero: it has the same length, its entries 0,
1 and 2 are zero, and every per-partition entry `support[i]`, `i ≥ 3`, is carried over
unchanged, not reset. Only in the first iteration is every counter zero. This is stated of
the loop in binary64 arithmetic and of the loop in exact arithmetic alike: the counters do
not depend on the arithmetic of the accumulators. -/
theorem site_global_counters_reset {R : Type} (tree : PhyloTree) (params : Params) (fmt : Fmt)
    (random_int : Nat → R → Nat × R) (branch : Nat × Nat) (N : Nat) (rstream : R) (st : Store)
    (taxa : List (List Nat)) (htaxa : tree.extractTaxa branch = .ok taxa) :
    (IEEE.computeSiteConcordanceBranch tree params fmt random_int branch N rstream st).1.store =
      IEEE.storeSiteValues fmt N branch
        (IEEE.siteLoop (tree.aln.computeQuartetSupports params.site_concordance_partition)
          random_int taxa N (initialAcc params tree rstream)) st ∧
    (tree.computeSiteConcordanceBranch params fmt random_int branch N rstream st).1.store =
      storeSiteValues fmt N branch
        (siteLoop (tree.aln.computeQuartetSupports params.site_concordance_partition)
          random_int taxa N (initialAcc params tree rstream)) st ∧
    (∀ i, (initialAcc params tree rstream).support.getD i 0 = 0) ∧
    (∀ (classify : List Nat → List Nat → List Nat) (k : Nat),
      let before := IEEE.siteLoop classify random_int taxa k (initialAcc params tree rstream)
      let handed := resetSupport before.support
      (IEEE.siteLoop classify random_int taxa (k + 1) (initialAcc params tree rstream)).support =
        classify (drawQuartet random_int taxa before.rstream).1 handed ∧
      handed.length = before.support.length ∧
      handed.getD 0 0 = 0 ∧ handed.getD 1 0 = 0 ∧ handed.getD 2 0 = 0 ∧
      (∀ i, 3 ≤ i → handed.getD i 0 = before.support.getD i 0) ∧
      (k = 0 → ∀ i, handed.getD i 0 = 0)) ∧
    (∀ (classify : List Nat → List Nat → List Nat) (k : Nat),
      let before := siteLoop classify random_int taxa k (initialAcc params tree rstream)
      let handed := resetSupport before.support
      (siteLoop classify random_int taxa (k + 1) (initialAcc params tree rstream)).support =
        classify (drawQuartet random_int taxa before.rstream).1 handed ∧
      handed.length = before.support.length ∧
      handed.getD 0 0 = 0 ∧ handed.getD 1 0 = 0 ∧ handed.getD 2 0 = 0 ∧
      (∀ i, 3 ≤ i → handed.getD i 0 = before.support.getD i 0) ∧
      (k = 0 → ∀ i, handed.getD i 0 = 0)) := by
  refine ⟨?_, ?_, fun i => initialSupport_getD params tree i, ?_, ?_⟩
  · simp only [IEEE.computeSiteConcordanceBranch, htaxa]
  · simp only [PhyloTree.computeSiteConcordanceBranch, htaxa]
  · intro classify k before handed
    refine ⟨?_, resetSupport_length _, resetSupport_getD_lt _ 0 (by decide),
      resetSupport_getD_lt _ 1 (by decide), resetSupport_getD_lt _ 2 (by decide),
      fun i hi => resetSupport_getD_ge _ i hi, ?_⟩
    · rw [ieee_siteLoop_succ, ieee_siteIter_support]
    · intro hk i
      subst hk
      by_cases hi : i < 3
      · exact resetSupport_getD_lt _ i hi
      · rw [resetSupport_getD_ge _ _ (by omega)]
        exact initialSupport_getD params tree i
  · intro classify k before handed
    refine ⟨?_, resetSupport_length _, resetSupport_getD_lt _ 0 (by decide),
      resetSupport_getD_lt _ 1 (by decide), resetSupport_getD_lt _ 2 (by decide),
      fun i hi => resetSupport_getD_ge _ i hi, ?_⟩
    · rw [siteLoop_succ, siteIter_support]
    · intro hk i
      subst hk
      by_cases hi : i < 3
      · exact resetSupport_getD_lt _ i hi
      · rw [resetSupport_getD_ge _ _ (by omega)]
        exact initialSupport_getD params tree i

/-- C18, witness: the second iteration on the tree over `exSuper`. -/
theorem site_global_counters_reset_witness :
    (IEEE.siteLoop
      (exSuperTree.aln.computeQuartetSupports exParamsPart.site_concordance_partition)
      exRandom [[0], [1], [2], [3]] (1 + 1) (initialAcc exParamsPart exSuperTree 0)).support =
      exSuperTree.aln.computeQuartetSupports exParamsPart.site_concordance_partition
        (drawQuartet exRandom [[0], [1], [2], [3]]
          (IEEE.siteLoop
            (exSuperTree.aln.computeQuartetSupports exParamsPart.site_concordance_partition)
            exRandom [[0], [1], [2], [3]] 1 (initialAcc exParamsPart exSuperTree 0)).rstream).1
        (resetSupport (IEEE.siteLoop
          (exSuperTree.aln.computeQuartetSupports exParamsPart.site_concordance_partition)
          exRandom [[0], [1], [2], [3]] 1 (initialAcc exParamsPart exSuperTree 0)).support) :=
  ((site_global_counters_reset exSuperTree exParamsPart exFmt exRandom (4, 5) 2 0 exStore
    [[0], [1], [2], [3]] (by decide)).2.2.2.1
    (exSuperTree.aln.computeQuartetSupports exParamsPart.site_concordance_partition) 1).1

/-! ### the per-partition attributes in binary64 arithmetic -/

theorem ieee_putPartitionAttrs_getAttr_self (fmt : Fmt) (nquartets : Nat) (support : List Nat)
    (nei : Nat × Nat) (st : Store) (k0 : Nat) (hk0 : k0 < support.length - 3)
    (hinj : ∀ k, k < support.length - 3 →
      partitionKey fmt (k + 3) = partitionKey fmt (k0 + 3) → k = k0) :
    getAttr ((IEEE.putPartitionAttrs fmt nquartets support nei st).attrs nei)
        (partitionKey fmt (k0 + 3)) =
      some (.dbl (fdiv (fofNat (support.getD (k0 + 3) 0)) (fofNat nquartets))) := by
  unfold IEEE.putPartitionAttrs
  generalize support.length - 3 = m at hk0 hinj
  induction m with
  | zero => omega
  | succ m ih =>
    simp only [List.range_succ, List.foldl_append, List.foldl_cons, List.foldl_nil]
    rw [store_putAttr_attrs_self]
    by_cases hk : k0 = m
    · subst hk
      rw [getAttr_putAttr_self]
    · rw [getAttr_putAttr_ne _ _ _ _ (fun e => hk (hinj m (by omega) e.symm).symm)]
      exact ih (by omega) (fun k hk' => hinj k (by omega))

/-- The per-partition attributes and `sN` as the method stores them, in terms of the
per-partition counts of the drawn quartets. -/
theorem ieee_site_partition_stored {R : Type} (tree : PhyloTree) (params : Params) (fmt : Fmt)
    (random_int : Nat → R → Nat × R) (branch : Nat × Nat) (N : Nat) (rstream : R) (st : Store)
    (taxa : List (List Nat)) (sa : SuperAlignment)
    (htaxa : tree.extractTaxa branch = .ok taxa)
    (haln : tree.aln = .super sa) (hflag : params.site_concordance_partition = true)
    (hfit : N * tree.aln.sites < SIZE_T)
    (hinj : ∀ a b : Nat, 1 ≤ a → a ≤ sa.partitions.length → 1 ≤ b → b ≤ sa.partitions.length →
      fmt.convertIntToString (a : Int) = fmt.convertIntToString (b : Int) → a = b)
    (hF : ∀ a : Nat, 1 ≤ a → a ≤ sa.partitions.length → fmt.convertIntToString (a : Int) ≠ "F") :
    let P := sa.partitions.length
    let quartets := IEEE.siteQuartets
      (tree.aln.computeQuartetSupports params.site_concordance_partition) random_int taxa N
      (initialAcc params tree rstream)
    let out := (IEEE.computeSiteConcordanceBranch tree params fmt random_int branch N rstream
      st).1
    let attrs := out.store.attrs (branch.2, branch.1)
    quartets.length = N ∧
    (∀ p j, p < P → j < 3 →
      getAttr attrs (partitionKey fmt (p * 3 + 3 + j)) =
        some (.dbl (fdiv (fofNat (partTotal sa quartets p j)) (fofNat N)))) ∧
    getAttr attrs "sN" = some (.dbl (fdiv
      (fofNat (Finset.sum (Finset.range P) (fun p =>
        partTotal sa quartets p 0 + partTotal sa quartets p 1 + partTotal sa quartets p 2)))
      (fofNat N))) := by
  intro P quartets out attrs
  have h4 := extractTaxa_length tree branch taxa htaxa
  have hsites : tree.aln.sites = (sa.partitions.map Alignment.sites).sum := by rw [haln]; rfl
  rw [hsites] at hfit
  have hinit : initialSupport params tree = List.replicate (P * 3 + 3) 0 := by
    simp only [initialSupport, PhyloTree.isSuperTree, PhyloTree.size, haln, hflag, Bool.and_self,
      if_true, P]
  have hcl : tree.aln.computeQuartetSupports params.site_concordance_partition =
      (Aln.super sa).computeQuartetSupports true := by rw [haln, hflag]
  have hacc : (initialAcc params tree rstream).support = List.replicate (P * 3 + 3) 0 := hinit
  have hacclen : (initialAcc params tree rstream).support.length = P * 3 + 3 := by
    rw [hacc, List.length_replicate]
  obtain ⟨_, c2, c3, _, c5⟩ := ieee_siteLoop_counters
    (tree.aln.computeQuartetSupports params.site_concordance_partition) random_int taxa N
    (initialAcc params tree rstream) (initialAcc params tree rstream) rfl rfl rfl
  have hlen := ieee_siteLoop_support_length tree params random_int taxa N rstream
  rw [hinit, List.length_replicate] at hlen
  have hstore : out.store = IEEE.storeSiteValues fmt N branch
      (IEEE.siteLoop (tree.aln.computeQuartetSupports params.site_concordance_partition)
        random_int taxa N (initialAcc params tree rstream)) st := by
    simp only [out, IEEE.computeSiteConcordanceBranch, htaxa]
  have hq : quartets = siteQuartets
      (tree.aln.computeQuartetSupports params.site_concordance_partition) random_int taxa N
      (initialAcc params tree rstream) := c5
  have hqlen : quartets.length = N := by rw [hq]; exact siteQuartets_length _ _ _ _ _
  -- the final per-partition counters
  have hentry : ∀ p j, p < P → j < 3 →
      (IEEE.siteLoop (tree.aln.computeQuartetSupports params.site_concordance_partition)
        random_int taxa N (initialAcc params tree rstream)).support.getD (p * 3 + 3 + j) 0 =
      partTotal sa quartets p j := by
    intro p j hp hj
    have h := siteLoop_getD_part sa random_int taxa h4 p j hj N (initialAcc params tree rstream)
      (by rw [hacclen]; omega)
      (by rw [hacc, getD_replicate_zero]; decide)
    rw [← hcl, hacc, getD_replicate_zero, Nat.zero_add, ← hq] at h
    rw [c2, h]
    apply Nat.mod_eq_of_lt
    have := partTotal_le sa quartets p j hj
    rw [hqlen] at this
    show partTotal sa quartets p j < SIZE_T
    omega
  -- the keys are distinct
  have hkeys : ∀ k k0, k < P * 3 + 3 - 3 → k0 < P * 3 + 3 - 3 →
      partitionKey fmt (k + 3) = partitionKey fmt (k0 + 3) → k = k0 := by
    intro k k0 hk hk0 e
    have := partitionKey_inj fmt (k + 3) (k0 + 3)
      (fun ec => hinj _ _ (by omega) (by omega) (by omega) (by omega) ec) e
    omega
  refine ⟨hqlen, ?_, ?_⟩
  · intro p j hp hj
    have e : p * 3 + 3 + j = (p * 3 + j) + 3 := by omega
    simp only [attrs, hstore, IEEE.storeSiteValues]
    rw [e, ieee_putPartitionAttrs_getAttr_self fmt N _ _ _ (p * 3 + j) (by rw [hlen]; omega)
      (fun k hk ek => hkeys k (p * 3 + j) (by rw [hlen] at hk; exact hk) (by omega) ek),
      ← e, hentry p j hp hj]
  · have hst := ieee_storeSiteValues_getAttr fmt N branch
      (IEEE.siteLoop (tree.aln.computeQuartetSupports params.site_concordance_partition)
        random_int taxa N (initialAcc params tree rstream)) st
      (by
        rw [hlen]
        intro i h3 hi
        exact hF (i / 3) (by omega) (by omega))
    simp only at hst
    obtain ⟨_, sn, _, _⟩ := hst
    have hsum := siteLoop_sum_sites_super sa random_int taxa h4 N (initialAcc params tree rstream)
      (by rw [hacclen]; omega)
      (by
        have hz : (initialAcc params tree rstream).sum_sites = 0 := rfl
        rw [hz, Nat.zero_add]; exact hfit)
    have hz : (initialAcc params tree rstream).sum_sites = 0 := rfl
    rw [← hcl, hz, Nat.zero_add, ← hq, ← c3] at hsum
    simp only [attrs, hstore]
    rw [sn, hsum]

theorem fl_1_3 : fl (1 / 3) = some (6004799503160661 / 18014398509481984) := by
  have h := fl_eq (1 / 3) (-2) 6004799503160661 (by norm_num)
    (by norm_num [abs_of_pos]) (by norm_num [abs_of_pos]) (by norm_num)
    (by apply roundEven_eq <;> norm_num) (by norm_num [abs_of_pos])
  rw [h]
  norm_num

theorem fl_2_3 : fl (2 / 3) = some (6004799503160661 / 9007199254740992) := by
  have h := fl_eq (2 / 3) (-1) 6004799503160661 (by norm_num)
    (by norm_num [abs_of_pos]) (by norm_num [abs_of_pos]) (by norm_num)
    (by apply roundEven_eq <;> norm_num) (by norm_num [abs_of_pos])
  rw [h]
  norm_num

/-- C20, counterexample. Three draws on the branch `(6, 7)` of `exSixTree` (two
partitions): partition 1 counts 1 site for the first grouping over the three quartets,
partition 2 counts 2. The stored values are the doubles nearest to `1/3` and `2/3` (and
four zeros), the stored `sN` is `1`; the six stored values add up to `1 - 2^-54`, not to
`sN`. -/
theorem site_partition_values_sum :
    getAttr ((IEEE.computeSiteConcordanceBranch exSixTree exParamsPart exFmt exRandom (6, 7) 3
      0 exStore).1.store.attrs (7, 6)) "sC1" =
        some (.dbl (some (6004799503160661 / 18014398509481984))) ∧
    getAttr ((IEEE.computeSiteConcordanceBranch exSixTree exParamsPart exFmt exRandom (6, 7) 3
      0 exStore).1.store.attrs (7, 6)) "sD11" = some (.dbl (some 0)) ∧
    getAttr ((IEEE.computeSiteConcordanceBranch exSixTree exParamsPart exFmt exRandom (6, 7) 3
      0 exStore).1.store.attrs (7, 6)) "sD21" = some (.dbl (some 0)) ∧
    getAttr ((IEEE.computeSiteConcordanceBranch exSixTree exParamsPart exFmt exRandom (6, 7) 3
      0 exStore).1.store.attrs (7, 6)) "sC2" =
        some (.dbl (some (6004799503160661 / 9007199254740992))) ∧
    getAttr ((IEEE.computeSiteConcordanceBranch exSixTree exParamsPart exFmt exRandom (6, 7) 3
      0 exStore).1.store.attrs (7, 6)) "sD12" = some (.dbl (some 0)) ∧
    getAttr ((IEEE.computeSiteConcordanceBranch exSixTree exParamsPart exFmt exRandom (6, 7) 3
      0 exStore).1.store.attrs (7, 6)) "sD22" = some (.dbl (some 0)) ∧
    getAttr ((IEEE.computeSiteConcordanceBranch exSixTree exParamsPart exFmt exRandom (6, 7) 3
      0 exStore).1.store.attrs (7, 6)) "sN" = some (.dbl (some 1)) ∧
    (6004799503160661 / 18014398509481984 + 0 + 0 +
      (6004799503160661 / 9007199254740992 + 0 + 0) : ℚ) ≠ 1 := by
  obtain ⟨_, hv, hn⟩ := ieee_site_partition_stored exSixTree exParamsPart exFmt exRandom (6, 7)
    3 0 exStore [[0], [1], [2], [3, 4, 5]] exSuperSix (by decide) rfl rfl (by decide)
    (fun a b h1 h2 h3 h4 => by
      have h2' : a ≤ 2 := h2
      have h4' : b ≤ 2 := h4
      interval_cases a <;> interval_cases b <;> decide)
    (fun a h1 h2 => by
      have h2' : a ≤ 2 := h2
      interval_cases a <;> decide)
  have hq : IEEE.siteQuartets
      (exSixTree.aln.computeQuartetSupports exParamsPart.site_concordance_partition) exRandom
      [[0], [1], [2], [3, 4, 5]] 3 (initialAcc exParamsPart exSixTree 0) =
      [[0, 1, 2, 3], [0, 1, 2, 4], [0, 1, 2, 5]] := by decide
  simp only [hq] at hv hn
  have f0 : fofNat 0 = some 0 := by
    have := fofNat_eq 0 (by norm_num)
    simpa using this
  have f1 : fofNat 1 = some 1 := by
    have := fofNat_eq 1 (by norm_num)
    simpa using this
  have f2 : fofNat 2 = some 2 := by
    have := fofNat_eq 2 (by norm_num)
    simpa using this
  have f3 : fofNat 3 = some 3 := by
    have := fofNat_eq 3 (by norm_num)
    simpa using this
  have d0 : fdiv (some (0 : ℚ)) (some 3) = some 0 := by
    rw [fdiv_some _ _ (by norm_num), zero_div, fl_zero]
  have d1 : fdiv (some (1 : ℚ)) (some 3) = some (6004799503160661 / 18014398509481984) := by
    rw [fdiv_some _ _ (by norm_num), fl_1_3]
  have d2 : fdiv (some (2 : ℚ)) (some 3) = some (6004799503160661 / 9007199254740992) := by
    rw [fdiv_some _ _ (by norm_num), fl_2_3]
  have d3 : fdiv (some (3 : ℚ)) (some 3) = some 1 := by
    rw [fdiv_some _ _ (by norm_num)]
    have := fl_intCast 1 (by norm_num)
    simpa using this
  have t00 : partTotal exSuperSix [[0, 1, 2, 3], [0, 1, 2, 4], [0, 1, 2, 5]] 0 0 = 1 := by decide
  have t01 : partTotal exSuperSix [[0, 1, 2, 3], [0, 1, 2, 4], [0, 1, 2, 5]] 0 1 = 0 := by decide
  have t02 : partTotal exSuperSix [[0, 1, 2, 3], [0, 1, 2, 4], [0, 1, 2, 5]] 0 2 = 0 := by decide
  have t10 : partTotal exSuperSix [[0, 1, 2, 3], [0, 1, 2, 4], [0, 1, 2, 5]] 1 0 = 2 := by decide
  have t11 : partTotal exSuperSix [[0, 1, 2, 3], [0, 1, 2, 4], [0, 1, 2, 5]] 1 1 = 0 := by decide
  have t12 : partTotal exSuperSix [[0, 1, 2, 3], [0, 1, 2, 4], [0, 1, 2, 5]] 1 2 = 0 := by decide
  have v00 := hv 0 0 (by decide) (by decide)
  have v01 := hv 0 1 (by decide) (by decide)
  have v02 := hv 0 2 (by decide) (by decide)
  have v10 := hv 1 0 (by decide) (by decide)
  have v11 := hv 1 1 (by decide) (by decide)
  have v12 := hv 1 2 (by decide) (by decide)
  rw [t00, f1, f3, d1] at v00
  rw [t01, f0, f3, d0] at v01
  rw [t02, f0, f3, d0] at v02
  rw [t10, f2, f3, d2] at v10
  rw [t11, f0, f3, d0] at v11
  rw [t12, f0, f3, d0] at v12
  have hs : Finset.sum (Finset.range exSuperSix.partitions.length) (fun p =>
      partTotal exSuperSix [[0, 1, 2, 3], [0, 1, 2, 4], [0, 1, 2, 5]] p 0 +
      partTotal exSuperSix [[0, 1, 2, 3], [0, 1, 2, 4], [0, 1, 2, 5]] p 1 +
      partTotal exSuperSix [[0, 1, 2, 3], [0, 1, 2, 4], [0, 1, 2, 5]] p 2) = 3 := by decide
  rw [hs, f3, d3] at hn
  have k00 : partitionKey exFmt (0 * 3 + 3 + 0) = "sC1" := by decide
  have k01 : partitionKey exFmt (0 * 3 + 3 + 1) = "sD11" := by decide
  have k02 : partitionKey exFmt (0 * 3 + 3 + 2) = "sD21" := by decide
  have k10 : partitionKey exFmt (1 * 3 + 3 + 0) = "sC2" := by decide
  have k11 : partitionKey exFmt (1 * 3 + 3 + 1) = "sD12" := by decide
  have k12 : partitionKey exFmt (1 * 3 + 3 + 2) = "sD22" := by decide
  rw [k00] at v00
  rw [k01] at v01
  rw [k02] at v02
  rw [k10] at v10
  rw [k11] at v11
  rw [k12] at v12
  exact ⟨v00, v01, v02, v10, v11, v12, hn, by norm_num⟩

/-- C20, amended. With the per-partition report on for a partitioned alignment of `P`
partitions, `N > 0`, a branch whose taxon groups are extracted without error and counters
that cannot wrap (`N` times the number of sites fits `size_t`), whatever the random draws:
partition `p` (0-based) gets the keys `sC`, `sD1`, `sD2` followed by the text of `p + 1`;
each holds `(double)count / N` in binary64 arithmetic, `count` being that partition's
count added up over the `N` drawn quartets; the `3P` counts add up to the site total
`total`, of which `sN` stores `(double)total / N`. So the exact quotients `count / N` add
up to `total / N`, and each stored value is the double nearest to its exact quotient (for
numbers below `2^53`); the stored, rounded values need not add up to the stored `sN`. The
texts of `1 .. P` are taken to be distinct and different from `F`, as decimal numerals
are. -/
theorem site_partition_attributes {R : Type} (tree : PhyloTree) (params : Params) (fmt : Fmt)
    (random_int : Nat → R → Nat × R) (branch : Nat × Nat) (N : Nat) (rstream : R) (st : Store)
    (taxa : List (List Nat)) (sa : SuperAlignment) (hN : 0 < N)
    (htaxa : tree.extractTaxa branch = .ok taxa)
    (haln : tree.aln = .super sa) (hflag : params.site_concordance_partition = true)
    (hfit : N * tree.aln.sites < SIZE_T)
    (hinj : ∀ a b : Nat, 1 ≤ a → a ≤ sa.partitions.length → 1 ≤ b → b ≤ sa.partitions.length →
      fmt.convertIntToString (a : Int) = fmt.convertIntToString (b : Int) → a = b)
    (hF : ∀ a : Nat, 1 ≤ a → a ≤ sa.partitions.length → fmt.convertIntToString (a : Int) ≠ "F") :
    let P := sa.partitions.length
    let quartets := IEEE.siteQuartets
      (tree.aln.computeQuartetSupports params.site_concordance_partition) random_int taxa N
      (initialAcc params tree rstream)
    let out := (IEEE.computeSiteConcordanceBranch tree params fmt random_int branch N rstream
      st).1
    let attrs := out.store.attrs (branch.2, branch.1)
    let count := fun (p j : Nat) => partTotal sa quartets p j
    let total := Finset.sum (Finset.range P) (fun p => count p 0 + count p 1 + count p 2)
    quartets.length = N ∧
    (∀ p, p < P →
      getAttr attrs ("sC" ++ fmt.convertIntToString ((p + 1 : Nat) : Int)) =
        some (.dbl (fdiv (fofNat (count p 0)) (fofNat N))) ∧
      getAttr attrs ("sD1" ++ fmt.convertIntToString ((p + 1 : Nat) : Int)) =
        some (.dbl (fdiv (fofNat (count p 1)) (fofNat N))) ∧
      getAttr attrs ("sD2" ++ fmt.convertIntToString ((p + 1 : Nat) : Int)) =
        some (.dbl (fdiv (fofNat (count p 2)) (fofNat N)))) ∧
    getAttr attrs "sN" = some (.dbl (fdiv (fofNat total) (fofNat N))) ∧
    Finset.sum (Finset.range P) (fun p =>
      (count p 0 : ℚ) / (N : ℚ) + (count p 1 : ℚ) / (N : ℚ) + (count p 2 : ℚ) / (N : ℚ)) =
      (total : ℚ) / (N : ℚ) ∧
    (∀ c : Nat, c < 2 ^ 53 → N < 2 ^ 53 →
      fdiv (fofNat c) (fofNat N) = fl ((c : ℚ) / (N : ℚ))) := by
  intro P quartets out attrs count total
  have hNq : ((N : ℕ) : ℚ) ≠ 0 := by exact_mod_cast (Nat.pos_iff_ne_zero.mp hN)
  obtain ⟨hqlen, hv, hn⟩ := ieee_site_partition_stored tree params fmt random_int branch N
    rstream st taxa sa htaxa haln hflag hfit hinj hF
  refine ⟨hqlen, fun p hp => ?_, hn, ?_, ?_⟩
  · obtain ⟨k0, k1, k2⟩ := partitionKey_block fmt p
    have r0 := hv p 0 hp (by decide)
    have r1 := hv p 1 hp (by decide)
    have r2 := hv p 2 hp (by decide)
    rw [k0] at r0
    rw [k1] at r1
    rw [k2] at r2
    exact ⟨r0, r1, r2⟩
  · simp only [total]
    push_cast
    rw [Finset.sum_div]
    apply Finset.sum_congr rfl
    intro p _
    ring
  · intro c hc hN53
    rw [fofNat_eq c hc, fofNat_eq N hN53, fdiv_some _ _ hNq]

/-- C20, witness: three draws on the branch `(6, 7)` of `exSixTree` (two partitions); the
key of partition 1 for the first grouping holds `(double)1 / 3`. -/
theorem site_partition_attributes_witness :
    getAttr ((IEEE.computeSiteConcordanceBranch exSixTree exParamsPart exFmt exRandom (6, 7) 3
        0 exStore).1.store.attrs (7, 6))
      ("sC" ++ exFmt.convertIntToString ((0 + 1 : Nat) : Int)) =
      some (.dbl (fdiv (fofNat (partTotal exSuperSix (IEEE.siteQuartets
        (exSixTree.aln.computeQuartetSupports exParamsPart.site_concordance_partition)
        exRandom [[0], [1], [2], [3, 4, 5]] 3 (initialAcc exParamsPart exSixTree 0)) 0 0))
        (fofNat 3))) :=
  ((site_partition_attributes exSixTree exParamsPart exFmt exRandom (6, 7) 3 0 exStore
    [[0], [1], [2], [3, 4, 5]] exSuperSix (by decide) (by decide) rfl rfl (by decide)
    (fun a b h1 h2 h3 h4 => by
      have h2' : a ≤ 2 := h2
      have h4' : b ≤ 2 := h4
      interval_cases a <;> interval_cases b <;> decide)
    (fun a h1 h2 => by
      have h2' : a ≤ 2 := h2
      interval_cases a <;> decide)).2.1 0 (by decide)).1

end Discordance
